import Mathlib

/-!
# Event ingestion: payload normalisation, dedup-key derivation, writer and bulk endpoint

A shallow embedding of `internal/domain/event.go` (package `domain`) together
with the parts of the Go standard library it calls, and of the writer
(`internal/ingest/writer.go`), the statement builder (`internal/repo/events.go`),
the two event handlers (`internal/httpserver`) and the configuration
(`internal/config`, `internal/app`).

Modelling conventions.

* A Go `string` is modelled by `Str`, the sequence of its Unicode code points.
  Every string that reaches `Validate` / `ToEvent` was produced by
  `encoding/json`, which only yields valid UTF-8, so nothing is lost.  Where Go
  looks at bytes (`strings.Builder`, string comparison, SHA-256) the model goes
  through the explicit UTF-8 encoding `utf8`.
* A `[]byte` / `json.RawMessage` is modelled by `Bytes`, a list of naturals
  below 256; a nil slice and an empty slice are both `[]` (the code only ever
  asks for `len`).
* A `time.Time` is modelled by the number of nanoseconds since the Unix epoch.
* `int64` values are modelled by `Int`.  The only arithmetic done on them is
  the multiplication by 1000 in the seconds branch of `parseTimestamp`, whose
  operand is below `10^12`, so no wrap-around can happen.
* `encoding/json` (`Unmarshal`, `Marshal`, `Valid`) is a parameter `JSONLib`.
-/

namespace EventIngest

/-! ## Bytes, strings, UTF-8 -/

/-- Byte sequences (`[]byte`). -/
abbrev Bytes := List Nat

/-- Go strings, as sequences of Unicode code points. -/
abbrev Str := List Char

/-- UTF-8 encoding of one code point (`utf8.AppendRune`). -/
def utf8EncodeRune (c : Char) : Bytes :=
  if c.toNat < 0x80 then [c.toNat]
  else if c.toNat < 0x800 then [0xC0 + c.toNat / 64, 0x80 + c.toNat % 64]
  else if c.toNat < 0x10000 then
    [0xE0 + c.toNat / 4096, 0x80 + c.toNat / 64 % 64, 0x80 + c.toNat % 64]
  else
    [0xF0 + c.toNat / 262144, 0x80 + c.toNat / 4096 % 64, 0x80 + c.toNat / 64 % 64,
      0x80 + c.toNat % 64]

/-- The bytes of a Go string. -/
def utf8 (s : Str) : Bytes := s.flatMap utf8EncodeRune

/-- Byte-wise lexicographic "less than", the order of Go's `<` on strings. -/
def bytesLess : Bytes → Bytes → Bool
  | _, [] => false
  | [], _ :: _ => true
  | a :: as, b :: bs => decide (a < b) || (decide (a = b) && bytesLess as bs)

/-- Go's `a < b` on strings. -/
def strLess (a b : Str) : Bool := bytesLess (utf8 a) (utf8 b)

/-- Go's `a <= b` on strings, that is `!(b < a)`. -/
def strLE (a b : Str) : Prop := strLess b a = false

instance strLE.decidable : DecidableRel strLE := fun a b =>
  inferInstanceAs (Decidable (strLess b a = false))

/-! ## `strings.TrimSpace` -/

/-- The table `asciiSpace` of package `strings`: tab, LF, VT, FF, CR and space. -/
def asciiSpace (c : Char) : Bool :=
  c.toNat == 0x09 || c.toNat == 0x0A || c.toNat == 0x0B || c.toNat == 0x0C ||
    c.toNat == 0x0D || c.toNat == 0x20

/-- The predicate `unicode.IsSpace`: the Latin-1 switch, then the `White_Space` table. -/
def isSpace (r : Char) : Bool :=
  if r.toNat ≤ 0xFF then
    r.toNat == 0x09 || r.toNat == 0x0A || r.toNat == 0x0B || r.toNat == 0x0C ||
      r.toNat == 0x20 || r.toNat == 0x0D || r.toNat == 0x85 || r.toNat == 0xA0
  else
    r.toNat == 0x1680 || (0x2000 ≤ r.toNat && r.toNat ≤ 0x200A) || r.toNat == 0x2028 ||
      r.toNat == 0x2029 || r.toNat == 0x202F || r.toNat == 0x205F || r.toNat == 0x3000

/-- Go's `strings.TrimLeftFunc`. -/
def trimLeftFunc (f : Char → Bool) (s : Str) : Str := s.dropWhile f

/-- Go's `strings.TrimRightFunc`. -/
def trimRightFunc (f : Char → Bool) (s : Str) : Str := (s.reverse.dropWhile f).reverse

/-- Go's `strings.TrimFunc`. -/
def trimFunc (f : Char → Bool) (s : Str) : Str := trimRightFunc f (trimLeftFunc f s)

/-- Second loop of `TrimSpace`, walking `s[start:stop]` from its end; the argument is that
slice reversed.  A non-ASCII byte hands over to `TrimRightFunc`. -/
def trimSpaceStop : Str → Str
  | [] => []
  | c :: rest =>
    if 0x80 ≤ c.toNat then trimRightFunc isSpace (c :: rest).reverse
    else if asciiSpace c then trimSpaceStop rest
    else (c :: rest).reverse

/-- First loop of `TrimSpace`, walking the string from its start.  A non-ASCII byte hands
over to `TrimFunc` on the rest; otherwise the second loop runs on what is left. -/
def trimSpaceStart : Str → Str
  | [] => trimSpaceStop []
  | c :: rest =>
    if 0x80 ≤ c.toNat then trimFunc isSpace (c :: rest)
    else if asciiSpace c then trimSpaceStart rest
    else trimSpaceStop (c :: rest).reverse

/-- Go's `strings.TrimSpace`: ASCII fast path with a fall-back to `unicode.IsSpace`. -/
def TrimSpace (s : Str) : Str := trimSpaceStart s

/-! ## `strconv.FormatInt`, `hex.EncodeToString` -/

/-- Decimal digits of a natural number, most significant first; `fuel` bounds the number of
digits produced. -/
def decimalDigits : Nat → Nat → Str → Str
  | 0, _, ds => ds
  | fuel + 1, n, ds =>
    if n / 10 = 0 then Char.ofNat (48 + n % 10) :: ds
    else decimalDigits fuel (n / 10) (Char.ofNat (48 + n % 10) :: ds)

/-- Go's `strconv.FormatInt(i, 10)`. -/
def FormatInt (i : Int) : Str :=
  if i < 0 then '-' :: decimalDigits (i.natAbs + 1) i.natAbs []
  else decimalDigits (i.natAbs + 1) i.natAbs []

/-- The digit table `0123456789abcdef` of package `encoding/hex`. -/
def hexDigit (n : Nat) : Char := "0123456789abcdef".toList.getD n '0'

/-- Go's `hex.EncodeToString`. -/
def hexEncodeToString (b : Bytes) : Str := b.flatMap fun x => [hexDigit (x / 16), hexDigit (x % 16)]

/-! ## SHA-256 (FIPS 180-4), as computed by `sha256.Sum256` -/

namespace SHA256

/-- Rotate a 32-bit word right. -/
def rotr (x n : Nat) : Nat := ((x >>> n) ||| (x <<< (32 - n))) % 4294967296

/-- The round constants. -/
def K : List Nat := [
  0x428a2f98, 0x71374491, 0xb5c0fbcf, 0xe9b5dba5, 0x3956c25b, 0x59f111f1, 0x923f82a4, 0xab1c5ed5,
  0xd807aa98, 0x12835b01, 0x243185be, 0x550c7dc3, 0x72be5d74, 0x80deb1fe, 0x9bdc06a7, 0xc19bf174,
  0xe49b69c1, 0xefbe4786, 0x0fc19dc6, 0x240ca1cc, 0x2de92c6f, 0x4a7484aa, 0x5cb0a9dc, 0x76f988da,
  0x983e5152, 0xa831c66d, 0xb00327c8, 0xbf597fc7, 0xc6e00bf3, 0xd5a79147, 0x06ca6351, 0x14292967,
  0x27b70a85, 0x2e1b2138, 0x4d2c6dfc, 0x53380d13, 0x650a7354, 0x766a0abb, 0x81c2c92e, 0x92722c85,
  0xa2bfe8a1, 0xa81a664b, 0xc24b8b70, 0xc76c51a3, 0xd192e819, 0xd6990624, 0xf40e3585, 0x106aa070,
  0x19a4c116, 0x1e376c08, 0x2748774c, 0x34b0bcb5, 0x391c0cb3, 0x4ed8aa4a, 0x5b9cca4f, 0x682e6ff3,
  0x748f82ee, 0x78a5636f, 0x84c87814, 0x8cc70208, 0x90befffa, 0xa4506ceb, 0xbef9a3f7, 0xc67178f2]

/-- Padding: the byte 0x80, zeros up to 56 modulo 64, the bit length as 8 big-endian bytes. -/
def pad (m : Bytes) : Bytes :=
  m ++ [0x80] ++ List.replicate ((119 - m.length % 64) % 64) 0 ++
    (List.range 8).map fun i => ((m.length * 8) >>> (8 * (7 - i))) % 256

/-- Big-endian 32-bit word of four bytes. -/
def be32 : Bytes → Nat
  | [a, b, c, d] => ((a * 256 + b) * 256 + c) * 256 + d
  | _ => 0

/-- Cut a list into at most `k` pieces of length `n`. -/
def chunks (n : Nat) : Nat → Bytes → List Bytes
  | 0, _ => []
  | k + 1, l => if l.isEmpty then [] else l.take n :: chunks n k (l.drop n)

/-- Message schedule: `k` further words; the list is kept newest first. -/
def schedule : Nat → List Nat → List Nat
  | 0, w => w
  | k + 1, w =>
    schedule k
      (((w.getD 15 0 + (rotr (w.getD 14 0) 7 ^^^ rotr (w.getD 14 0) 18 ^^^ (w.getD 14 0 >>> 3)) +
          w.getD 6 0 +
          (rotr (w.getD 1 0) 17 ^^^ rotr (w.getD 1 0) 19 ^^^ (w.getD 1 0 >>> 10))) % 4294967296) :: w)

/-- The eight working variables. -/
structure State where
  a : Nat
  b : Nat
  c : Nat
  d : Nat
  e : Nat
  f : Nat
  g : Nat
  h : Nat

/-- One round of the compression function on a (constant, schedule word) pair. -/
def step (s : State) (kw : Nat × Nat) : State :=
  let t1 := (s.h + (rotr s.e 6 ^^^ rotr s.e 11 ^^^ rotr s.e 25) +
    ((s.e &&& s.f) ^^^ ((4294967295 - s.e) &&& s.g)) + kw.1 + kw.2) % 4294967296
  let t2 := ((rotr s.a 2 ^^^ rotr s.a 13 ^^^ rotr s.a 22) +
    ((s.a &&& s.b) ^^^ (s.a &&& s.c) ^^^ (s.b &&& s.c))) % 4294967296
  ⟨(t1 + t2) % 4294967296, s.a, s.b, s.c, (s.d + t1) % 4294967296, s.e, s.f, s.g⟩

/-- Compression of one 64-byte block into the chaining value. -/
def compress (h : State) (block : Bytes) : State :=
  let r := (K.zip (schedule 48 ((chunks 4 16 block).map be32).reverse).reverse).foldl step h
  ⟨(h.a + r.a) % 4294967296, (h.b + r.b) % 4294967296, (h.c + r.c) % 4294967296,
    (h.d + r.d) % 4294967296, (h.e + r.e) % 4294967296, (h.f + r.f) % 4294967296,
    (h.g + r.g) % 4294967296, (h.h + r.h) % 4294967296⟩

/-- Go's `sha256.Sum256`: the 32-byte digest of a message. -/
def Sum256 (m : Bytes) : Bytes :=
  let r := (chunks 64 ((pad m).length / 64) (pad m)).foldl compress
    ⟨0x6a09e667, 0xbb67ae85, 0x3c6ef372, 0xa54ff53a, 0x510e527f, 0x9b05688c, 0x1f83d9ab, 0x5be0cd19⟩
  [r.a, r.b, r.c, r.d, r.e, r.f, r.g, r.h].flatMap fun x =>
    [x >>> 24 % 256, x >>> 16 % 256, x >>> 8 % 256, x % 256]

end SHA256

/-! ## `sort.Strings` -/

/-- Go's `sort.Strings`: the list put in increasing order of `<`.  Two strings that compare
equal are the same string, so every sorting algorithm returns the same list (see
`sortStrings_unique`); insertion sort stands for the library's one. -/
def sortStrings (l : List Str) : List Str := l.insertionSort strLE

/-! ## `encoding/json` -/

/-- The three entry points of `encoding/json` that the package uses.  `Value` is what
`json.Unmarshal` stores into an `any`. -/
structure JSONLib where
  /-- Decoded JSON values. -/
  Value : Type
  /-- Result of `json.Unmarshal(raw, &v)`: `none` is an error. -/
  Unmarshal : Bytes → Option Value
  /-- Result of `json.Marshal(v)`: `none` is an error. -/
  Marshal : Value → Option Bytes
  /-- Result of `json.Valid(raw)`. -/
  Valid : Bytes → Bool

/-! ## The domain types -/

/-- Instants, in nanoseconds since the Unix epoch (`time.Time`). -/
abbrev Time := Int

/-- Go's `EventPayload`. -/
structure EventPayload where
  EventName : Str
  Channel : Str
  CampaignID : Str
  UserID : Str
  Timestamp : Int
  Tags : List Str
  Metadata : Bytes
deriving DecidableEq

/-- Go's `Event`. -/
structure Event where
  DedupKey : Str
  EventName : Str
  Channel : Str
  CampaignID : Str
  UserID : Str
  Timestamp : Time
  Tags : List Str
  Metadata : Bytes
deriving DecidableEq

/-! ## `parseTimestamp` -/

/-- Go's `time.Unix(sec, 0)`. -/
def timeUnix (sec : Int) : Time := sec * 1000000000

/-- Go's `time.UnixMilli(msec)`. -/
def timeUnixMilli (msec : Int) : Time := msec * 1000000

/-- Go's `Time.UnixMilli`. -/
def Time.UnixMilli (t : Time) : Int := t / 1000000

/-- Go's `Time.Add` of a duration in nanoseconds. -/
def Time.Add (t : Time) (d : Int) : Time := t + d

/-- Go's `Time.After`. -/
def Time.After (t u : Time) : Bool := decide (u < t)

/-- Go's `parseTimestamp`: the instant and its Unix-millisecond key, or an error. -/
def parseTimestamp (raw : Int) (_now : Time) : Except String (Time × Int) :=
  if raw ≤ 0 then .error "timestamp must be positive"
  else if raw ≥ 1000000000000 then
    .ok (timeUnixMilli raw, Time.UnixMilli (timeUnixMilli raw))
  else
    .ok (timeUnix raw, Time.UnixMilli (timeUnix raw))

/-! ## `normalizeTags` -/

/-- First loop of `normalizeTags`: trim every tag and keep the non-empty ones. -/
def trimTags : List Str → List Str → List Str
  | [], tmp => tmp
  | t :: rest, tmp =>
    if TrimSpace t = [] then trimTags rest tmp else trimTags rest (tmp ++ [TrimSpace t])

/-- Second loop of `normalizeTags`: keep an element when it is the first one or differs from
the last one kept.  Arguments: index, `prev`, the rest of `tmp`, and `out`. -/
def dedupTags : Nat → Str → List Str → List Str → List Str
  | _, _, [], out => out
  | i, prev, t :: rest, out =>
    if i = 0 ∨ t ≠ prev then dedupTags (i + 1) t rest (out ++ [t])
    else dedupTags (i + 1) prev rest out

/-- Go's `normalizeTags`. -/
def normalizeTags (tags : List Str) : List Str :=
  if tags.length = 0 then []
  else
    let tmp := trimTags tags []
    if tmp.length = 0 then []
    else dedupTags 0 [] (sortStrings tmp) []

/-! ## `BuildDedupKey` -/

/-- The loop of `BuildDedupKey` that writes the tags, a comma before all but the first.
Arguments: index, remaining tags, builder contents. -/
def writeTags : Nat → List Str → Bytes → Bytes
  | _, [], b => b
  | i, t :: rest, b => writeTags (i + 1) rest ((if i > 0 then b ++ utf8 [','] else b) ++ utf8 t)

/-- Contents of the `strings.Builder` of `BuildDedupKey` when it is hashed. -/
def dedupKeyBytes (eventName channel campaignID userID : Str) (tsKeyUnixMilli : Int)
    (tags : List Str) (metadata : Bytes) : Bytes :=
  let b : Bytes := []
  let b := b ++ utf8 eventName
  let b := b ++ utf8 ['|']
  let b := b ++ utf8 channel
  let b := b ++ utf8 ['|']
  let b := b ++ utf8 campaignID
  let b := b ++ utf8 ['|']
  let b := b ++ utf8 userID
  let b := b ++ utf8 ['|']
  let b := b ++ utf8 (FormatInt tsKeyUnixMilli)
  let b := b ++ utf8 ['|']
  let b := writeTags 0 tags b
  let b := b ++ utf8 ['|']
  if metadata.length = 0 then b ++ utf8 ['{', '}'] else b ++ metadata

/-- Go's `BuildDedupKey`. -/
def BuildDedupKey (eventName channel campaignID userID : Str) (tsKeyUnixMilli : Int)
    (tags : List Str) (metadata : Bytes) : Str :=
  hexEncodeToString
    (SHA256.Sum256 (dedupKeyBytes eventName channel campaignID userID tsKeyUnixMilli tags metadata))

/-! ## `normalizeMetadata`, `Validate`, `ToEvent` -/

/-- Go's `normalizeMetadata`. -/
def normalizeMetadata (J : JSONLib) (raw : Bytes) : Bytes :=
  if raw.length = 0 then []
  else
    match J.Unmarshal raw with
    | none => []
    | some v =>
      match J.Marshal v with
      | none => []
      | some b => b

/-- The constant `maxFutureSkew`, two minutes in nanoseconds. -/
def maxFutureSkew : Int := 2 * 60 * 1000000000

/-- Go's `(*EventPayload).Validate`: `none` is the nil error. -/
def EventPayload.Validate (J : JSONLib) (p : EventPayload) (now : Time) : Option String :=
  if TrimSpace p.EventName = [] then some "event_name is required"
  else if TrimSpace p.Channel = [] then some "channel is required"
  else if TrimSpace p.UserID = [] then some "user_id is required"
  else if p.Timestamp ≤ 0 then some "timestamp must be a positive unix timestamp"
  else
    match parseTimestamp p.Timestamp now with
    | .error err => some err
    | .ok (ts, _) =>
      if Time.After ts (Time.Add now maxFutureSkew) then
        some "timestamp must not be in the future"
      else if p.Metadata.length ≠ 0 ∧ ¬ J.Valid p.Metadata then
        some "metadata must be valid JSON"
      else none

/-- Go's `(*EventPayload).ToEvent`. -/
def EventPayload.ToEvent (J : JSONLib) (p : EventPayload) (now : Time) : Except String Event :=
  match parseTimestamp p.Timestamp now with
  | .error err => .error err
  | .ok (ts, tsKey) =>
    let normalizedTags := normalizeTags p.Tags
    let normalizedMetadata := normalizeMetadata J p.Metadata
    let dk := BuildDedupKey (TrimSpace p.EventName) (TrimSpace p.Channel) (TrimSpace p.CampaignID)
      (TrimSpace p.UserID) tsKey normalizedTags normalizedMetadata
    .ok {
      DedupKey := dk
      EventName := TrimSpace p.EventName
      Channel := TrimSpace p.Channel
      CampaignID := TrimSpace p.CampaignID
      UserID := TrimSpace p.UserID
      Timestamp := ts
      Tags := normalizedTags
      Metadata := normalizedMetadata }

/-! ## Specification-side definitions -/

/-- The metadata component of the canonical serialization: the canonical metadata bytes, or
the two bytes `{}` when the metadata is empty (spec §4.1, item 7). -/
def metadataOrSentinel (metadata : Bytes) : Bytes :=
  if metadata = [] then [0x7B, 0x7D] else metadata

/-- The canonical serialization as the spec words it (§4.1): the seven fields joined by the
single byte `|`, the timestamp in decimal ASCII, the tags joined by `,`. -/
def canonicalSerialization (eventName channel campaignID userID : Str) (ms : Int)
    (tags : List Str) (metadata : Bytes) : Bytes :=
  List.intercalate [0x7C]
    [utf8 eventName, utf8 channel, utf8 campaignID, utf8 userID, utf8 (Int.repr ms).toList,
      utf8 (List.intercalate [','] tags), metadataOrSentinel metadata]

/-- The instant a raw timestamp stands for, as the spec words it (§4.1): Unix milliseconds
when the integer is at least `10^12`, Unix seconds otherwise. -/
def parsedInstant (raw : Int) : Time :=
  if raw ≥ 1000000000000 then raw * 1000000 else raw * 1000000000

/-- The seven fields of the canonical serialization (spec §4.1, items 1 to 7). -/
structure KeyFields where
  EventName : Str
  Channel : Str
  CampaignID : Str
  UserID : Str
  UnixMilli : Int
  Tags : List Str
  Metadata : Bytes
deriving DecidableEq

/-- The normalized fields of an event that enter its dedup key, the timestamp in Unix
milliseconds and empty metadata read as `{}`. -/
def Event.keyFields (e : Event) : KeyFields :=
  { EventName := e.EventName, Channel := e.Channel, CampaignID := e.CampaignID,
    UserID := e.UserID, UnixMilli := Time.UnixMilli e.Timestamp, Tags := e.Tags,
    Metadata := metadataOrSentinel e.Metadata }

/-- The byte string that `BuildDedupKey` hashes for an event's fields. -/
def Event.canonicalBytes (e : Event) : Bytes :=
  dedupKeyBytes e.EventName e.Channel e.CampaignID e.UserID (Time.UnixMilli e.Timestamp) e.Tags
    e.Metadata

/-- None of the four text fields contains the field separator `|`, and no tag contains `|`
or the tag separator `,`. -/
def Event.delimiterFree (e : Event) : Prop :=
  '|' ∉ e.EventName ∧ '|' ∉ e.Channel ∧ '|' ∉ e.CampaignID ∧ '|' ∉ e.UserID ∧
    ∀ t ∈ e.Tags, '|' ∉ t ∧ ',' ∉ t

/-- The dedup key of the event that `ToEvent` returns, when it returns one. -/
def EventPayload.dedupKey (J : JSONLib) (p : EventPayload) (now : Time) : Option Str :=
  match p.ToEvent J now with
  | .ok e => some e.DedupKey
  | .error _ => none

/-- Relation "`t` is `s` without its leading and trailing run of characters satisfying `f`,
nothing else removed or changed". -/
def TrimmedOf (f : Char → Bool) (s t : Str) : Prop :=
  ∃ l r, s = l ++ t ++ r ∧ (∀ c ∈ l, f c = true) ∧ (∀ c ∈ r, f c = true) ∧
    (∀ c, t.head? = some c → f c = false) ∧ (∀ c, t.getLast? = some c → f c = false)

/-! ## Concrete data for the examples -/

/-- JSON white space: space, tab, line feed, carriage return. -/
def jsonSpace (b : Nat) : Bool := b == 0x20 || b == 0x09 || b == 0x0A || b == 0x0D

/-- A JSON library cut down to one document, the empty object `{}` with optional white
space; it instantiates the parameter `JSONLib` at concrete inputs. -/
def emptyObjectJSON : JSONLib where
  Value := Unit
  Unmarshal raw := if raw.filter (fun b => !jsonSpace b) = [0x7B, 0x7D] then some () else none
  Marshal _ := some [0x7B, 0x7D]
  Valid raw := decide (raw.filter (fun b => !jsonSpace b) = [0x7B, 0x7D])

/-- The payload of scenario 1 of the spec (§8) with a given raw timestamp. -/
def clickPayload (ts : Int) : EventPayload :=
  { EventName := "click".toList, Channel := "push".toList, CampaignID := [],
    UserID := "u1".toList, Timestamp := ts, Tags := [], Metadata := [] }

/-! ## Package `ingest`: errors, results, requests

Modelling conventions for the writer.

* A Go `error` is modelled by `GoError`: its text and the answers of `errors.Is` for the
  three sentinel errors that the handlers test.
* A `map[string]struct{}` is a finite set of strings, `Finset Str`.
* A store behind the interface `batchRepo` / `EventBatchStore` has a state `σ`; a call maps
  the state and the events to the returned pair (key set or error) and the next state.  The
  context argument is part of the store's behaviour: a store may answer with a deadline or
  cancellation error.
* A reply channel `chan response` of capacity 1 is addressed by a number, `request.resp`;
  `Slots` gives the buffered value of each channel.
* Go `int` values are modelled by `Int`; the code does no arithmetic on them that could
  wrap around.
* Logging is left out: it changes no state that the code reads.
-/

/-- A Go `error` value as far as the code looks at it. -/
structure GoError where
  /-- The text of `err.Error()`. -/
  msg : String
  /-- Answer of `errors.Is(err, context.Canceled)`. -/
  isCanceled : Bool
  /-- Answer of `errors.Is(err, context.DeadlineExceeded)`. -/
  isDeadlineExceeded : Bool
  /-- Answer of `errors.Is(err, ingest.ErrStopped)`. -/
  isStopped : Bool
deriving DecidableEq

/-- The sentinel `ErrStopped` of package `ingest`. -/
def ErrStopped : GoError :=
  { msg := "ingest writer stopped", isCanceled := false, isDeadlineExceeded := false,
    isStopped := true }

/-- The sentinel `context.Canceled`. -/
def contextCanceled : GoError :=
  { msg := "context canceled", isCanceled := true, isDeadlineExceeded := false,
    isStopped := false }

/-- The sentinel `context.DeadlineExceeded`. -/
def contextDeadlineExceeded : GoError :=
  { msg := "context deadline exceeded", isCanceled := false, isDeadlineExceeded := true,
    isStopped := false }

/-- Go's `Status`: `StatusInserted` is 0, `StatusDuplicate` is 1. -/
inductive Status where
  | StatusInserted
  | StatusDuplicate
deriving DecidableEq

/-- Go's `Result`. -/
structure Result where
  Status : EventIngest.Status
deriving DecidableEq

/-- The zero value `Result{}`: its `Status` is 0, that is `StatusInserted`. -/
def Result.zero : Result := { Status := .StatusInserted }

/-- Go's `Result.Inserted`. -/
def Result.Inserted (r : Result) : Bool := decide (r.Status = .StatusInserted)

/-- Go's `Result.Duplicate`. -/
def Result.Duplicate (r : Result) : Bool := decide (r.Status = .StatusDuplicate)

/-- Go's `response`; `err = none` is the nil error. -/
structure response where
  res : Result
  err : Option GoError
deriving DecidableEq

/-- Go's `request`; `resp` names the reply channel. -/
structure request where
  ev : Event
  resp : Nat
deriving DecidableEq

/-- The interface `batchRepo` (and `EventBatchStore`): one call of `InsertBatch` on a store
in state `σ`. -/
abbrev batchRepo (σ : Type) := σ → List Event → Except GoError (Finset Str) × σ

/-- Go's `ingest.Config`; `BatchWindow` in nanoseconds. -/
structure ingest.Config where
  BatchWindow : Int
  MaxBatch : Int
  QueueSize : Int
deriving DecidableEq

/-- The arguments of `SingleWriter.loop`'s `select` statements that can be chosen. -/
inductive LoopEvent where
  /-- The case `<-w.stopCh` of the steady `select`. -/
  | stop
  /-- The case `req := <-w.in` of either `select`. -/
  | recv (req : request)
  /-- The case `<-timerC` of the steady `select`: the batch window has expired. -/
  | timer
  /-- The case `<-quiet.C` of the draining `select`: the quiet window has expired. -/
  | quiet

/-- The local variables of `SingleWriter.loop` at the start of an iteration, and the calls of
`w.flush` made so far. -/
structure LoopState where
  /-- The variable `batch`. -/
  batch : List request
  /-- Whether `timerC != nil`. -/
  timerArmed : Bool
  /-- The variable `stopping`. -/
  stopping : Bool
  /-- Whether `loop` has returned. -/
  halted : Bool
  /-- The arguments of the calls of `w.flush` so far, oldest first. -/
  flushed : List (List request)
deriving DecidableEq

/-- The variables of `loop` before its first iteration. -/
def LoopState.init : LoopState :=
  { batch := [], timerArmed := false, stopping := false, halted := false, flushed := [] }

/-- Go's `SingleWriter`: its configuration, and one entry for every goroutine that runs
`loop` on it. -/
structure SingleWriter where
  cfg : ingest.Config
  loops : List LoopState
deriving DecidableEq

/-- Go's `NewSingleWriter`. -/
def NewSingleWriter (cfg : ingest.Config) : SingleWriter :=
  let cfg := if cfg.BatchWindow ≤ 0 then { cfg with BatchWindow := 2 * 1000000 } else cfg
  let cfg := if cfg.MaxBatch ≤ 0 then { cfg with MaxBatch := 800 } else cfg
  let cfg := if cfg.QueueSize ≤ 0 then { cfg with QueueSize := 50000 } else cfg
  { cfg := cfg, loops := [] }

/-- Go's `(*SingleWriter).Start`: `go w.loop()`. -/
def SingleWriter.Start (w : SingleWriter) : SingleWriter :=
  { w with loops := w.loops ++ [LoopState.init] }

/-- One iteration of the steady `select` of `loop` (`stopping` is false); `none` when the
chosen case cannot be taken. -/
def SingleWriter.steadyStep (cfg : ingest.Config) (s : LoopState) : LoopEvent → Option LoopState
  | .stop =>
    some { s with stopping := true, timerArmed := if s.timerArmed then false else s.timerArmed }
  | .recv req =>
    let batch := s.batch ++ [req]
    let timerArmed := if s.timerArmed = false then true else s.timerArmed
    if (batch.length : Int) ≥ cfg.MaxBatch then
      let timerArmed := if timerArmed then false else timerArmed
      some { s with batch := [], timerArmed := timerArmed, flushed := s.flushed ++ [batch] }
    else
      some { s with batch := batch, timerArmed := timerArmed }
  | .timer =>
    if s.timerArmed then
      if s.batch.length > 0 then
        some { s with batch := [], timerArmed := false, flushed := s.flushed ++ [s.batch] }
      else
        some { s with timerArmed := false }
    else none
  | .quiet => none

/-- One iteration of the draining `select` of `loop` (`stopping` is true). -/
def SingleWriter.drainStep (cfg : ingest.Config) (s : LoopState) : LoopEvent → Option LoopState
  | .recv req =>
    let batch := s.batch ++ [req]
    if (batch.length : Int) ≥ cfg.MaxBatch then
      some { s with batch := [], flushed := s.flushed ++ [batch] }
    else
      some { s with batch := batch }
  | .quiet =>
    if s.batch.length > 0 then
      some { s with halted := true, flushed := s.flushed ++ [s.batch] }
    else
      some { s with halted := true }
  | .stop => none
  | .timer => none

/-- One iteration of `loop`. -/
def SingleWriter.loopStep (cfg : ingest.Config) (s : LoopState) (e : LoopEvent) :
    Option LoopState :=
  if s.halted then none
  else if s.stopping then SingleWriter.drainStep cfg s e
  else SingleWriter.steadyStep cfg s e

/-- The loop run on a sequence of choices of its `select` statements. -/
def SingleWriter.loopRun (cfg : ingest.Config) : LoopState → List LoopEvent → Option LoopState
  | s, [] => some s
  | s, e :: es =>
    match SingleWriter.loopStep cfg s e with
    | none => none
    | some s' => SingleWriter.loopRun cfg s' es

/-- The buffers of the reply channels. -/
abbrev Slots := Nat → Option response

/-- The non-blocking send `select { case r.resp <- out: default: }` on a channel of
capacity 1. -/
def trySend (slots : Slots) (ch : Nat) (out : response) : Slots := fun c =>
  if c = ch then
    match slots ch with
    | none => some out
    | some old => some old
  else slots c

/-- First loop of `flush`: the events of the batch, in order. -/
def flushEvents : List request → List Event → List Event
  | [], events => events
  | r :: rest, events => flushEvents rest (events ++ [r.ev])

/-- The value `out` that the second loop of `flush` computes for a request. -/
def flushOut (result : Except GoError (Finset Str)) (r : request) : response :=
  match result with
  | .error err => { res := Result.zero, err := some err }
  | .ok insertedKeys =>
    if r.ev.DedupKey ∈ insertedKeys then { res := { Status := .StatusInserted }, err := none }
    else { res := { Status := .StatusDuplicate }, err := none }

/-- Second loop of `flush`: compute `out` for every request and offer it to its channel. -/
def flushReplies (result : Except GoError (Finset Str)) : List request → Slots → Slots
  | [], slots => slots
  | r :: rest, slots => flushReplies result rest (trySend slots r.resp (flushOut result r))

/-- Go's `(*SingleWriter).flush` against a store in state `st`. -/
def SingleWriter.flush {σ : Type} (repo : batchRepo σ) (st : σ) (slots : Slots)
    (batch : List request) : σ × Slots :=
  let events := flushEvents batch []
  let r := repo st events
  (r.2, flushReplies r.1 batch slots)

/-- What `Submit` returns when it receives `out` from the reply channel. -/
def SingleWriter.submitReturn (out : response) : Except GoError Result :=
  match out.err with
  | some err => .error err
  | none => .ok out.res

/-! ## Package `repo`: `buildInsertBatchSQL` -/

/-- The values that are passed as statement arguments (`any`). -/
inductive SQLArg where
  /-- A Go `string`. -/
  | str (s : Str)
  /-- The Go string `string(raw)` of a byte slice, given by its bytes. -/
  | text (b : Bytes)
  /-- A `time.Time`. -/
  | time (t : Time)
  /-- A `[]string`. -/
  | strs (l : List Str)
deriving DecidableEq

/-- Go's `toJSONBText`; the returned string is given by its bytes. -/
def toJSONBText (raw : Bytes) : Bytes :=
  if raw.length = 0 then utf8 ['{', '}'] else raw

/-- The text that `fmt.Sprintf` makes of the row format for `argPos`. -/
def sprintfRow (argPos : Int) : Str :=
  "($".toList ++ FormatInt argPos ++ ",$".toList ++ FormatInt (argPos + 1) ++ ",$".toList ++
    FormatInt (argPos + 2) ++ ",NULLIF($".toList ++ FormatInt (argPos + 3) ++ ",''),$".toList ++
    FormatInt (argPos + 4) ++ ",$".toList ++ FormatInt (argPos + 5) ++ ",$".toList ++
    FormatInt (argPos + 6) ++ ",$".toList ++ FormatInt (argPos + 7) ++ "::jsonb)".toList

/-- The loop of `buildInsertBatchSQL`.  Arguments: index, `argPos`, remaining events, builder
contents, `args`. -/
def buildInsertBatchLoop : Nat → Int → List Event → Str → List SQLArg → Str × List SQLArg
  | _, _, [], b, args => (b, args)
  | i, argPos, e :: rest, b, args =>
    let b := if i > 0 then b ++ ",\n".toList else b
    let b := b ++ sprintfRow argPos
    let args := args ++ [SQLArg.str e.DedupKey, SQLArg.str e.EventName, SQLArg.str e.Channel,
      SQLArg.str e.CampaignID, SQLArg.str e.UserID, SQLArg.time e.Timestamp, SQLArg.strs e.Tags,
      SQLArg.text (toJSONBText e.Metadata)]
    buildInsertBatchLoop (i + 1) (argPos + 8) rest b args

/-- Go's `buildInsertBatchSQL`. -/
def buildInsertBatchSQL (events : List Event) : Str × List SQLArg :=
  let b : Str := []
  let b := b ++ ("\n\tINSERT INTO events (dedup_key, event_name, channel, campaign_id, " ++
    "user_id, ts, tags, metadata)\n\tVALUES\n").toList
  let r := buildInsertBatchLoop 0 1 events b []
  (r.1 ++ "\n\tON CONFLICT (dedup_key) DO NOTHING\n\tRETURNING dedup_key;\n".toList, r.2)

/-! ## Package `httpserver`: `PostEvent`, `PostEventsBulk` -/

/-- What `PostEvent` writes: `writeError` with a status code and a message, or the success
body with `status` and `dedup_key`. -/
inductive EventReply where
  | error (code : Nat) (msg : String)
  | ok (status : String) (dedupKey : Str)
deriving DecidableEq

/-- The constant `statusClientClosedRequest`. -/
def statusClientClosedRequest : Nat := 499

/-- Go's `(*Handler).PostEvent`.  `body` is the result of `decodeJSON`, `now` the reading of
`h.clock`, `submit` the answer of `h.ingest.Submit` for an event. -/
def PostEvent (J : JSONLib) (now : Time) (submit : Event → Except GoError Result)
    (method : String) (body : Except String EventPayload) : EventReply :=
  if method ≠ "POST" then .error 405 "method not allowed"
  else
    match body with
    | .error err => .error 400 err
    | .ok p =>
      match p.Validate J now with
      | some err => .error 400 err
      | none =>
        match p.ToEvent J now with
        | .error err => .error 400 err
        | .ok ev =>
          match submit ev with
          | .error err =>
            if err.isCanceled || err.isDeadlineExceeded then
              .error statusClientClosedRequest "client closed request"
            else if err.isStopped then .error 503 "ingestion temporarily unavailable"
            else .error 500 "internal error"
          | .ok res =>
            .ok (if res.Duplicate then "duplicate" else "inserted") ev.DedupKey

/-- The counters of the bulk response body. -/
structure BulkCounts where
  received : Int
  processed : Int
  inserted : Int
  duplicate : Int
  invalid : Int
  batch_fail : Int
deriving DecidableEq

/-- What `PostEventsBulk` writes. -/
inductive BulkReply where
  | error (code : Nat) (msg : String)
  | ok (counts : BulkCounts)
deriving DecidableEq

/-- First loop of `PostEventsBulk`: validate and convert every payload.  Arguments: the
remaining payloads, `events`, `invalid`. -/
def bulkValidate (J : JSONLib) (now : Time) : List EventPayload → List Event → Int →
    List Event × Int
  | [], events, invalid => (events, invalid)
  | p :: rest, events, invalid =>
    match p.Validate J now with
    | some _ => bulkValidate J now rest events (invalid + 1)
    | none =>
      match p.ToEvent J now with
      | .error _ => bulkValidate J now rest events (invalid + 1)
      | .ok ev => bulkValidate J now rest (events ++ [ev]) invalid

/-- The constant `chunkSize`. -/
def chunkSize : Nat := 4000

/-- The variables of the chunk loop of `PostEventsBulk`, and the store. -/
structure BulkAcc (σ : Type) where
  store : σ
  inserted : Int
  duplicate : Int
  batchFail : Int

/-- Second loop of `PostEventsBulk`, `for start := 0; start < len(events); start += chunkSize`.
Arguments: a bound on the number of iterations, `start`, `events`, the accumulators. -/
def bulkInsert {σ : Type} (repo : batchRepo σ) : Nat → Nat → List Event → BulkAcc σ → BulkAcc σ
  | 0, _, _, acc => acc
  | fuel + 1, start, events, acc =>
    if start < events.length then
      let end_ := if start + chunkSize > events.length then events.length else start + chunkSize
      let chunk := (events.take end_).drop start
      let r := repo acc.store chunk
      match r.1 with
      | .error _ =>
        bulkInsert repo fuel (start + chunkSize) events
          { acc with store := r.2, batchFail := acc.batchFail + chunk.length }
      | .ok insertedKeys =>
        bulkInsert repo fuel (start + chunkSize) events
          { store := r.2, inserted := acc.inserted + insertedKeys.card,
            duplicate := acc.duplicate + (chunk.length - insertedKeys.card),
            batchFail := acc.batchFail }
    else acc

/-- Go's `(*Handler).PostEventsBulk` on a store in state `st`.  `body` is the result of
`decodeJSON`, `now` the reading of `h.clock`.  The chunk loop gets `len(events)` iterations,
which is more than it takes. -/
def PostEventsBulk {σ : Type} (J : JSONLib) (now : Time) (repo : batchRepo σ) (st : σ)
    (method : String) (body : Except String (List EventPayload)) : BulkReply × σ :=
  if method ≠ "POST" then (.error 405 "method not allowed", st)
  else
    match body with
    | .error err => (.error 400 err, st)
    | .ok payloads =>
      if payloads.length = 0 then (.error 400 "empty payload", st)
      else
        let v := bulkValidate J now payloads [] 0
        let events := v.1
        let invalid := v.2
        if events.length = 0 then
          (.ok { received := payloads.length, inserted := 0, duplicate := 0, invalid := invalid,
                 processed := 0, batch_fail := 0 }, st)
        else
          let acc := bulkInsert repo events.length 0 events
            { store := st, inserted := 0, duplicate := 0, batchFail := 0 }
          (.ok { received := payloads.length, processed := events.length,
                 inserted := acc.inserted, duplicate := acc.duplicate, invalid := invalid,
                 batch_fail := acc.batchFail }, acc.store)

/-! ## Packages `config` and `app` -/

/-- The part of package `os` and of the parsers that `config.Load` uses. -/
structure OSEnv where
  /-- Result of `os.Getenv`; the empty string for an unset variable. -/
  Getenv : String → String
  /-- Result of `strconv.Atoi`; `none` is an error. -/
  Atoi : String → Option Int
  /-- Result of `time.ParseDuration`, in nanoseconds; `none` is an error. -/
  ParseDuration : String → Option Int

/-- Go's `HTTPConfig`; durations in nanoseconds. -/
structure config.HTTPConfig where
  Port : Int
  RequestTimeout : Int
deriving DecidableEq

/-- Go's `DBConfig`. -/
structure config.DBConfig where
  DatabaseURL : String
  MinConns : Int
  MaxConns : Int
  MaxConnIdleTime : Int
  MaxConnLifetime : Int
  HealthCheckPeriod : Int
  ConnectTimeout : Int
deriving DecidableEq

/-- Go's `IngestConfig`. -/
structure config.IngestConfig where
  BatchWindow : Int
  MaxBatch : Int
  QueueSize : Int
deriving DecidableEq

/-- Go's `config.Config`. -/
structure config.Config where
  HTTP : config.HTTPConfig
  DB : config.DBConfig
  Ingest : config.IngestConfig
deriving DecidableEq

/-- The constant `time.Millisecond`, in nanoseconds. -/
def Millisecond : Int := 1000000

/-- The constant `time.Second`. -/
def Second : Int := 1000 * Millisecond

/-- The constant `time.Minute`. -/
def Minute : Int := 60 * Second

/-- The conversion `int32(n)` of an `int`. -/
def toInt32 (n : Int) : Int := (n + 2147483648) % 4294967296 - 2147483648

/-- Go's `envInt`; the panic on an invalid value is the error case, its text without the
quoted value. -/
def config.envInt (os : OSEnv) (key : String) (defaultVal : Int) : Except String Int :=
  if os.Getenv key = "" then .ok defaultVal
  else
    match os.Atoi (os.Getenv key) with
    | none => .error (key ++ " must be an integer")
    | some n => .ok n

/-- Go's `envDuration`; the panic on an invalid value is the error case. -/
def config.envDuration (os : OSEnv) (key : String) (defaultVal : Int) : Except String Int :=
  if os.Getenv key = "" then .ok defaultVal
  else
    match os.ParseDuration (os.Getenv key) with
    | none => .error (key ++ " must be a valid duration (e.g. 200ms, 2s, 1m).")
    | some d => .ok d

/-- Go's `config.validate`: `none` is the nil error; the error texts stop before the
formatted value `(got ...)`. -/
def config.validate (cfg : config.Config) : Option String :=
  if cfg.HTTP.Port < 1 ∨ cfg.HTTP.Port > 65535 then some "PORT must be between 1 and 65535"
  else if cfg.HTTP.RequestTimeout ≤ 0 then some "REQUEST_TIMEOUT must be > 0"
  else if cfg.DB.MaxConns ≤ 0 then some "DB_MAX_CONNS must be > 0"
  else if cfg.DB.MinConns < 0 then some "DB_MIN_CONNS must be >= 0"
  else if cfg.DB.MinConns > cfg.DB.MaxConns then some "DB_MIN_CONNS must be <= DB_MAX_CONNS"
  else if cfg.DB.MaxConnIdleTime < 0 then some "DB_MAX_CONN_IDLE_TIME must be >= 0"
  else if cfg.DB.MaxConnLifetime < 0 then some "DB_MAX_CONN_LIFETIME must be >= 0"
  else if cfg.DB.HealthCheckPeriod ≤ 0 then some "DB_HEALTHCHECK_PERIOD must be > 0"
  else if cfg.DB.ConnectTimeout ≤ 0 then some "DB_CONNECT_TIMEOUT must be > 0"
  else if cfg.Ingest.BatchWindow ≤ 0 then some "WRITER_BATCH_WINDOW must be > 0"
  else if cfg.Ingest.MaxBatch ≤ 0 then some "WRITER_MAX_BATCH must be > 0"
  else if cfg.Ingest.QueueSize ≤ 0 then some "WRITER_QUEUE_SIZE must be > 0"
  else none

/-- Go's `config.Load`; an error return and a panic of `envInt` / `envDuration` are both the
error case. -/
def config.Load (os : OSEnv) : Except String config.Config := do
  let port ← config.envInt os "PORT" 8080
  let requestTimeout ← config.envDuration os "REQUEST_TIMEOUT" (200 * Millisecond)
  let databaseURL := os.Getenv "DATABASE_URL"
  if databaseURL = "" then
    throw "DATABASE_URL is required"
  let maxConns ← config.envInt os "DB_MAX_CONNS" 20
  let minConns ← config.envInt os "DB_MIN_CONNS" 5
  let maxConnIdleTime ← config.envDuration os "DB_MAX_CONN_IDLE_TIME" (2 * Minute)
  let maxConnLifetime ← config.envDuration os "DB_MAX_CONN_LIFETIME" (30 * Minute)
  let healthCheckPeriod ← config.envDuration os "DB_HEALTHCHECK_PERIOD" (30 * Second)
  let connectTimeout ← config.envDuration os "DB_CONNECT_TIMEOUT" (3 * Second)
  let batchWindow ← config.envDuration os "WRITER_BATCH_WINDOW" (500 * Millisecond)
  let maxBatch ← config.envInt os "WRITER_MAX_BATCH" 800
  let queueSize ← config.envInt os "WRITER_QUEUE_SIZE" 50000
  let cfg : config.Config :=
    { HTTP := { Port := port, RequestTimeout := requestTimeout }
      DB := { DatabaseURL := databaseURL, MinConns := toInt32 minConns,
              MaxConns := toInt32 maxConns, MaxConnIdleTime := maxConnIdleTime,
              MaxConnLifetime := maxConnLifetime, HealthCheckPeriod := healthCheckPeriod,
              ConnectTimeout := connectTimeout }
      Ingest := { BatchWindow := batchWindow, MaxBatch := maxBatch, QueueSize := queueSize } }
  match config.validate cfg with
  | some err => throw err
  | none => pure cfg

/-- Go's `defaultDuration` of package `app`. -/
def app.defaultDuration (v def_ : Int) : Int := if v ≤ 0 then def_ else v

/-- Go's `defaultInt` of package `app`. -/
def app.defaultInt (v def_ : Int) : Int := if v ≤ 0 then def_ else v

/-- The writer that `app.Run` builds from the loaded configuration and starts. -/
def app.newWriter (cfg : config.Config) : SingleWriter :=
  (NewSingleWriter
    { BatchWindow := app.defaultDuration cfg.Ingest.BatchWindow (2 * Millisecond)
      MaxBatch := app.defaultInt cfg.Ingest.MaxBatch 800
      QueueSize := app.defaultInt cfg.Ingest.QueueSize 50000 }).Start

/-! ## Stores and data for the writer and the bulk endpoint -/

/-- The store that the spec describes (§4.2, I2): it keeps one row per dedup key and
answers `InsertBatch` with the set of keys that it newly inserted.  Its state is the set of
stored keys. -/
def uniqueKeyStore : batchRepo (Finset Str) := fun st events =>
  ((.ok ((events.map Event.DedupKey).toFinset \ st)),
    st ∪ (events.map Event.DedupKey).toFinset)

/-- A store that fails every call with the given error. -/
def failingStore (err : GoError) : batchRepo Unit := fun st _ => (.error err, st)

/-- A store together with a record of the calls made to it: the events passed and the
answer, oldest first. -/
def recordCalls {σ : Type} (repo : batchRepo σ) :
    batchRepo (σ × List (List Event × Except GoError (Finset Str))) := fun st events =>
  ((repo st.1 events).1, ((repo st.1 events).2, st.2 ++ [(events, (repo st.1 events).1)]))

/-- Total number of keys reported as inserted in a record of calls. -/
def insertedTotal : List (List Event × Except GoError (Finset Str)) → Int
  | [] => 0
  | (_, .ok keys) :: rest => keys.card + insertedTotal rest
  | (_, .error _) :: rest => insertedTotal rest

/-- Total number of rows in the calls of a record that failed. -/
def failedRows : List (List Event × Except GoError (Finset Str)) → Int
  | [] => 0
  | (_, .ok _) :: rest => failedRows rest
  | (chunk, .error _) :: rest => chunk.length + failedRows rest

/-- The events of the valid payloads, in payload order: those that pass `Validate` and that
`ToEvent` converts. -/
def validEvents (J : JSONLib) (now : Time) (payloads : List EventPayload) : List Event :=
  payloads.filterMap fun p =>
    match p.Validate J now with
    | some _ => none
    | none =>
      match p.ToEvent J now with
      | .error _ => none
      | .ok ev => some ev

/-- The number of payloads that fail `Validate` or `ToEvent`. -/
def invalidCount (J : JSONLib) (now : Time) (payloads : List EventPayload) : Int :=
  (payloads.filter fun p =>
    match p.Validate J now with
    | some _ => true
    | none =>
      match p.ToEvent J now with
      | .error _ => true
      | .ok _ => false).length

/-- The text of the value tuple of row `i` (counted from 0) as the spec describes it (§4.2):
the placeholders `$(8i+1)` to `$(8i+8)` in increasing order, the fourth one wrapped in
`NULLIF(.,'')`, the last one cast to `jsonb`. -/
def valueTuple (i : Nat) : Str :=
  ("($" ++ toString (8 * i + 1) ++ ",$" ++ toString (8 * i + 2) ++ ",$" ++
    toString (8 * i + 3) ++ ",NULLIF($" ++ toString (8 * i + 4) ++ ",''),$" ++
    toString (8 * i + 5) ++ ",$" ++ toString (8 * i + 6) ++ ",$" ++ toString (8 * i + 7) ++
    ",$" ++ toString (8 * i + 8) ++ "::jsonb)").toList

/-- The eight arguments of a row in the schema order of the spec (§3). -/
def rowArgs (e : Event) : List SQLArg :=
  [.str e.DedupKey, .str e.EventName, .str e.Channel, .str e.CampaignID, .str e.UserID,
    .time e.Timestamp, .strs e.Tags, .text (toJSONBText e.Metadata)]

/-- The event of the payload of scenario 1 (timestamp 1700000000). -/
def clickEvent : Event :=
  { DedupKey := "6da49d8418041c3f10e1f29635060c90d7f0e90d4bb9e33c722c6fa729767361".toList
    EventName := "click".toList, Channel := "push".toList, CampaignID := [],
    UserID := "u1".toList, Timestamp := 1700000000000000000, Tags := [], Metadata := [] }

/-- The environment with `DATABASE_URL` set and every other variable unset. -/
def bareEnv : OSEnv where
  Getenv key := if key = "DATABASE_URL" then "postgres://localhost/events" else ""
  Atoi _ := none
  ParseDuration _ := none

/-- The configuration that `config.Load` returns for `bareEnv`. -/
def defaultConfig : config.Config :=
  { HTTP := { Port := 8080, RequestTimeout := 200000000 }
    DB := { DatabaseURL := "postgres://localhost/events", MinConns := 5, MaxConns := 20,
            MaxConnIdleTime := 120000000000, MaxConnLifetime := 1800000000000,
            HealthCheckPeriod := 30000000000, ConnectTimeout := 3000000000 }
    Ingest := { BatchWindow := 500000000, MaxBatch := 800, QueueSize := 50000 } }

/-- The environment `bareEnv` with `WRITER_MAX_BATCH=10000`. -/
def bigBatchEnv : OSEnv where
  Getenv key :=
    if key = "DATABASE_URL" then "postgres://localhost/events"
    else if key = "WRITER_MAX_BATCH" then "10000" else ""
  Atoi s := if s = "10000" then some 10000 else none
  ParseDuration _ := none

/-- The state invariant of the writer loop (spec §4.3): while the loop runs the batch is
shorter than `max_batch`; while it runs and is not stopping the timer is armed exactly when
the batch is non-empty; every flush so far got between 1 and `max_batch` requests; once
stopping the batch window timer stays disarmed. -/
def LoopInvariant (cfg : ingest.Config) (s : LoopState) : Prop :=
  (s.halted = false → (s.batch.length : Int) < cfg.MaxBatch) ∧
    (s.halted = false → s.stopping = false → (s.timerArmed = true ↔ s.batch ≠ [])) ∧
    (∀ b ∈ s.flushed, 1 ≤ b.length ∧ (b.length : Int) ≤ cfg.MaxBatch) ∧
    (s.stopping = true → s.timerArmed = false)

/-- The five payloads of scenario 5 of the spec (§8): two new ones, a duplicate of the first
(the same instant written in milliseconds), one with an empty `user_id`, one more new one. -/
def bulkScenario : List EventPayload :=
  [clickPayload 1700000000,
    { clickPayload 1700000000 with UserID := "u2".toList },
    clickPayload 1700000000000,
    { clickPayload 1700000000 with UserID := [] },
    { clickPayload 1700000000 with UserID := "u3".toList }]

/-- The requests that a sequence of choices of the `select` statements of `loop` receives
from `w.in`, in the order of the receives. -/
def dequeued : List LoopEvent → List request
  | [] => []
  | .recv req :: es => req :: dequeued es
  | .stop :: es => dequeued es
  | .timer :: es => dequeued es
  | .quiet :: es => dequeued es

/-- The calls of `w.flush` of a run of `loop`, made one after the other on the batches of the
log, oldest first, against a store in state `st` and the reply channels. -/
def SingleWriter.flushAll {σ : Type} (repo : batchRepo σ) :
    σ → Slots → List (List request) → σ × Slots
  | st, slots, [] => (st, slots)
  | st, slots, batch :: rest =>
    SingleWriter.flushAll repo (SingleWriter.flush repo st slots batch).1
      (SingleWriter.flush repo st slots batch).2 rest

/-- The sends `r.resp <- out` that the second loop of `flush` offers, in order: the channel
and the value. -/
def flushSends (result : Except GoError (Finset Str)) : List request → List (Nat × response)
  | [] => []
  | r :: rest => (r.resp, flushOut result r) :: flushSends result rest

/-- The sends offered by the calls of `w.flush` of a run, oldest first, against a store in
state `st`. -/
def SingleWriter.sendsAll {σ : Type} (repo : batchRepo σ) :
    σ → List (List request) → List (Nat × response)
  | _, [] => []
  | st, batch :: rest =>
    flushSends (repo st (flushEvents batch [])).1 batch ++
      SingleWriter.sendsAll repo (repo st (flushEvents batch [])).2 rest

/-- A run of `loop` with `max_batch` = 2 on four requests with reply channels 1 to 4: two
arrivals, a third arrival and the batch window timer, a fourth arrival, the stop signal and
the quiet window. -/
def fourRequestRun : List LoopEvent :=
  [.recv { ev := clickEvent, resp := 1 }, .recv { ev := clickEvent, resp := 2 },
    .recv { ev := clickEvent, resp := 3 }, .timer, .recv { ev := clickEvent, resp := 4 },
    .stop, .quiet]

/-- The state of `loop` when it returns from `fourRequestRun`. -/
def fourRequestFinal : LoopState :=
  { batch := [{ ev := clickEvent, resp := 4 }], timerArmed := false, stopping := true,
    halted := true,
    flushed := [[{ ev := clickEvent, resp := 1 }, { ev := clickEvent, resp := 2 }],
      [{ ev := clickEvent, resp := 3 }], [{ ev := clickEvent, resp := 4 }]] }

/-! ## Facts about `TrimSpace` -/

theorem asciiSpace_eq_isSpace {c : Char} (h : ¬ 0x80 ≤ c.toNat) : asciiSpace c = isSpace c := by
  have h1 : c.toNat ≤ 0xFF := by omega
  have h2 : ¬ c.toNat = 0x85 := by omega
  have h3 : ¬ c.toNat = 0xA0 := by omega
  simp only [asciiSpace, isSpace, h1, if_true]
  rw [Bool.eq_iff_iff]
  simp only [Bool.or_eq_true, beq_iff_eq]
  omega

theorem trimSpaceStop_eq (r : Str) : trimSpaceStop r = (r.dropWhile isSpace).reverse := by
  induction r with
  | nil => rfl
  | cons c rest ih =>
    unfold trimSpaceStop
    split
    · simp [trimRightFunc]
    · rename_i h
      rw [asciiSpace_eq_isSpace h]
      split
      · rename_i hs
        rw [ih, List.dropWhile_cons_of_pos hs]
      · rename_i hs
        rw [List.dropWhile_cons_of_neg hs]

theorem trimSpaceStart_eq (s : Str) : trimSpaceStart s = trimFunc isSpace s := by
  induction s with
  | nil => rfl
  | cons c rest ih =>
    unfold trimSpaceStart
    split
    · rfl
    · rename_i h
      rw [asciiSpace_eq_isSpace h]
      split
      · rename_i hs
        rw [ih]
        simp only [trimFunc, trimLeftFunc, List.dropWhile_cons_of_pos hs]
      · rename_i hs
        rw [trimSpaceStop_eq]
        simp only [trimFunc, trimLeftFunc, trimRightFunc, List.dropWhile_cons_of_neg hs]

/-- `TrimSpace` strips the leading and the trailing run of `unicode.IsSpace` runes. -/
theorem TrimSpace_eq (s : Str) :
    TrimSpace s = ((s.dropWhile isSpace).reverse.dropWhile isSpace).reverse :=
  trimSpaceStart_eq s

theorem TrimSpace_nil : TrimSpace [] = [] := rfl

theorem dropWhile_eq_self_of_head {p : Char → Bool} :
    ∀ {l : Str}, (∀ c, l.head? = some c → p c = false) → l.dropWhile p = l
  | [], _ => rfl
  | c :: l, h => List.dropWhile_cons_of_neg (by simp [h c rfl])

theorem head?_dropWhile_isSpace (s : Str) (c : Char) (h : (s.dropWhile isSpace).head? = some c) :
    isSpace c = false := by
  have := List.head?_dropWhile_not isSpace s
  rw [h] at this
  simpa using this

/-- Decomposition of a string around its trimmed part. -/
theorem TrimSpace_decomp (s : Str) :
    s = s.takeWhile isSpace ++ TrimSpace s ++
      ((s.dropWhile isSpace).reverse.takeWhile isSpace).reverse := by
  rw [TrimSpace_eq, List.append_assoc, ← List.reverse_append, List.takeWhile_append_dropWhile,
    List.reverse_reverse, List.takeWhile_append_dropWhile]

theorem TrimSpace_head (s : Str) (c : Char) (h : (TrimSpace s).head? = some c) :
    isSpace c = false := by
  have h1 : s.dropWhile isSpace =
      TrimSpace s ++ ((s.dropWhile isSpace).reverse.takeWhile isSpace).reverse := by
    rw [TrimSpace_eq, ← List.reverse_append, List.takeWhile_append_dropWhile,
      List.reverse_reverse]
  apply head?_dropWhile_isSpace s c
  rw [h1]
  cases hts : TrimSpace s with
  | nil => rw [hts] at h; simp at h
  | cons a t => rw [hts] at h; simpa using h

theorem TrimSpace_last (s : Str) (c : Char) (h : (TrimSpace s).getLast? = some c) :
    isSpace c = false := by
  rw [TrimSpace_eq, List.getLast?_reverse] at h
  exact head?_dropWhile_isSpace _ c h

/-- A string that neither starts nor ends with white space is left alone. -/
theorem TrimSpace_eq_self {t : Str} (hh : ∀ c, t.head? = some c → isSpace c = false)
    (hl : ∀ c, t.getLast? = some c → isSpace c = false) : TrimSpace t = t := by
  rw [TrimSpace_eq, dropWhile_eq_self_of_head hh, dropWhile_eq_self_of_head, List.reverse_reverse]
  intro c hc
  rw [List.head?_reverse] at hc
  exact hl c hc

theorem TrimSpace_idem (s : Str) : TrimSpace (TrimSpace s) = TrimSpace s :=
  TrimSpace_eq_self (TrimSpace_head s) (TrimSpace_last s)

theorem TrimSpace_eq_nil_iff (s : Str) : TrimSpace s = [] ↔ ∀ c ∈ s, isSpace c = true := by
  constructor
  · intro h c hc
    have hd := TrimSpace_decomp s
    rw [h, List.append_nil] at hd
    rw [hd] at hc
    rcases List.mem_append.1 hc with hc | hc
    · exact List.mem_takeWhile_imp hc
    · exact List.mem_takeWhile_imp (List.mem_reverse.1 hc)
  · intro h
    have : s.dropWhile isSpace = [] := by
      rw [List.dropWhile_eq_nil_iff]; exact h
    rw [TrimSpace_eq, this]; rfl

/-! ## Facts about UTF-8 and the byte order -/

theorem char_toNat_lt (c : Char) : c.toNat < 0x110000 := by
  have h := c.valid
  unfold UInt32.isValidChar Nat.isValidChar at h
  unfold Char.toNat
  omega

theorem char_eq_of_toNat_eq {c d : Char} (h : c.toNat = d.toNat) : c = d := by
  rw [← Char.ofNat_toNat c, ← Char.ofNat_toNat d, h]

/-- The encoding of a code point is self-delimiting. -/
theorem utf8EncodeRune_append_inj {c d : Char} {x y : Bytes}
    (h : utf8EncodeRune c ++ x = utf8EncodeRune d ++ y) : c = d ∧ x = y := by
  have hc := char_toNat_lt c
  have hd := char_toNat_lt d
  unfold utf8EncodeRune at h
  split_ifs at h <;>
    simp only [List.cons_append, List.nil_append, List.cons.injEq] at h <;>
    first
      | (exfalso; omega)
      | (exact ⟨char_eq_of_toNat_eq (by omega), by simp only [h]⟩)

theorem utf8_nil : utf8 [] = [] := rfl

theorem utf8_cons (c : Char) (s : Str) : utf8 (c :: s) = utf8EncodeRune c ++ utf8 s := by
  simp [utf8, List.flatMap_cons]

theorem utf8_append (s t : Str) : utf8 (s ++ t) = utf8 s ++ utf8 t := by
  simp [utf8, List.flatMap_append]

theorem utf8EncodeRune_ne_nil (c : Char) : utf8EncodeRune c ≠ [] := by
  unfold utf8EncodeRune
  split_ifs <;> simp

theorem utf8_eq_nil_iff {s : Str} : utf8 s = [] ↔ s = [] := by
  cases s with
  | nil => simp [utf8_nil]
  | cons c s => simp [utf8_cons, utf8EncodeRune_ne_nil]

/-- Two strings with the same bytes are the same string. -/
theorem utf8_injective : ∀ {s t : Str}, utf8 s = utf8 t → s = t
  | [], t, h => by rw [utf8_nil] at h; exact (utf8_eq_nil_iff.1 h.symm).symm
  | c :: s, [], h => by rw [utf8_nil] at h; exact utf8_eq_nil_iff.1 h
  | c :: s, d :: t, h => by
    rw [utf8_cons, utf8_cons] at h
    obtain ⟨h1, h2⟩ := utf8EncodeRune_append_inj h
    rw [h1, utf8_injective h2]

/-- An ASCII byte occurs in the encoding of a string only as the encoding of that very
character. -/
theorem mem_utf8_ascii {s : Str} {b : Nat} (hb : b < 0x80) (h : b ∈ utf8 s) :
    ∃ c ∈ s, c.toNat = b := by
  induction s with
  | nil => simp [utf8_nil] at h
  | cons c s ih =>
    rw [utf8_cons, List.mem_append] at h
    rcases h with h | h
    · refine ⟨c, List.mem_cons_self _ _, ?_⟩
      unfold utf8EncodeRune at h
      split_ifs at h <;> simp only [List.mem_cons, List.mem_singleton, List.not_mem_nil,
        or_false] at h <;> omega
    · obtain ⟨c', hc', h'⟩ := ih h
      exact ⟨c', List.mem_cons_of_mem _ hc', h'⟩

theorem bytesLess_irrefl : ∀ a : Bytes, bytesLess a a = false
  | [] => rfl
  | a :: as => by simp [bytesLess, bytesLess_irrefl as]

theorem bytesLess_trans : ∀ {a b c : Bytes}, bytesLess a b = true → bytesLess b c = true →
    bytesLess a c = true
  | _, [], _, h, _ => by cases ‹Bytes› <;> simp [bytesLess] at h
  | _, _ :: _, [], _, h => by simp [bytesLess] at h
  | [], _ :: _, _ :: _, _, _ => rfl
  | a :: as, b :: bs, c :: cs, h1, h2 => by
    simp only [bytesLess, Bool.or_eq_true, Bool.and_eq_true, decide_eq_true_eq] at h1 h2 ⊢
    rcases h1 with h1 | ⟨h1, h1'⟩ <;> rcases h2 with h2 | ⟨h2, h2'⟩
    · left; omega
    · left; omega
    · left; omega
    · right; exact ⟨by omega, bytesLess_trans h1' h2'⟩

theorem bytesLess_total : ∀ (a b : Bytes), bytesLess a b = true ∨ a = b ∨ bytesLess b a = true
  | [], [] => Or.inr (Or.inl rfl)
  | [], _ :: _ => Or.inl rfl
  | _ :: _, [] => Or.inr (Or.inr rfl)
  | a :: as, b :: bs => by
    simp only [bytesLess, Bool.or_eq_true, Bool.and_eq_true, decide_eq_true_eq, List.cons.injEq]
    rcases Nat.lt_trichotomy a b with h | h | h
    · left; left; exact h
    · rcases bytesLess_total as bs with h' | h' | h'
      · left; right; exact ⟨h, h'⟩
      · right; left; exact ⟨h, h'⟩
      · right; right; right; exact ⟨h.symm, h'⟩
    · right; right; left; exact h

theorem bytesLess_asymm {a b : Bytes} (h : bytesLess a b = true) : bytesLess b a = false := by
  cases hba : bytesLess b a with
  | false => rfl
  | true => have := bytesLess_trans h hba; rw [bytesLess_irrefl] at this; cases this

theorem strLess_irrefl (a : Str) : strLess a a = false := bytesLess_irrefl _

theorem strLess_trans {a b c : Str} (h1 : strLess a b = true) (h2 : strLess b c = true) :
    strLess a c = true := bytesLess_trans h1 h2

theorem strLess_asymm {a b : Str} (h : strLess a b = true) : strLess b a = false :=
  bytesLess_asymm h

theorem strLess_total (a b : Str) : strLess a b = true ∨ a = b ∨ strLess b a = true := by
  rcases bytesLess_total (utf8 a) (utf8 b) with h | h | h
  · exact Or.inl h
  · exact Or.inr (Or.inl (utf8_injective h))
  · exact Or.inr (Or.inr h)

/-! ## Facts about `sort.Strings` and the two loops of `normalizeTags` -/

instance strLE.isTotal : IsTotal Str strLE :=
  ⟨fun a b => by
    unfold strLE
    cases h : strLess b a with
    | false => exact Or.inl rfl
    | true => exact Or.inr (strLess_asymm h)⟩

instance strLE.isTrans : IsTrans Str strLE :=
  ⟨fun a b c hab hbc => by
    unfold strLE at *
    cases hca : strLess c a with
    | false => rfl
    | true =>
      rcases strLess_total a b with h | h | h
      · rw [strLess_trans hca h] at hbc; cases hbc
      · subst h; rw [hca] at hbc; cases hbc
      · rw [h] at hab; cases hab⟩

instance strLE.isAntisymm : IsAntisymm Str strLE :=
  ⟨fun a b hab hba => by
    unfold strLE at *
    rcases strLess_total a b with h | h | h
    · rw [h] at hba; cases hba
    · exact h
    · rw [h] at hab; cases hab⟩

theorem sortStrings_sorted (l : List Str) : (sortStrings l).Sorted strLE :=
  List.sorted_insertionSort strLE l

theorem sortStrings_perm (l : List Str) : (sortStrings l).Perm l :=
  List.perm_insertionSort strLE l

/-- Any sorted rearrangement of a list is the one `sortStrings` returns. -/
theorem sortStrings_unique {l l' : List Str} (hp : l'.Perm l) (hs : l'.Sorted strLE) :
    l' = sortStrings l :=
  List.eq_of_perm_of_sorted (hp.trans (sortStrings_perm l).symm) hs (sortStrings_sorted l)

theorem trimTags_eq (l tmp : List Str) :
    trimTags l tmp = tmp ++ (l.map TrimSpace).filter (fun t => decide (t ≠ [])) := by
  induction l generalizing tmp with
  | nil => simp [trimTags]
  | cons t rest ih =>
    unfold trimTags
    split
    · rename_i h
      rw [ih]; simp [h]
    · rename_i h
      rw [ih]; simp [h]

theorem dedupTags_eq (i : Nat) (hi : 0 < i) (prev : Str) (l init : List Str) :
    dedupTags i prev l (init ++ [prev]) = init ++ List.destutter' (· ≠ ·) prev l := by
  induction l generalizing i prev init with
  | nil => simp [dedupTags]
  | cons t rest ih =>
    unfold dedupTags
    have hi0 : i ≠ 0 := by omega
    by_cases h : t = prev
    · subst h
      simp only [hi0, false_or, ne_eq, not_true_eq_false, if_false, List.destutter']
      exact ih (i + 1) (by omega) t init
    · have h' : prev ≠ t := fun e => h e.symm
      simp only [hi0, false_or, ne_eq, h, not_false_eq_true, if_true, List.destutter', h']
      rw [ih (i + 1) (by omega) t (init ++ [prev])]
      simp

theorem dedupTags_zero (l : List Str) : dedupTags 0 [] l [] = l.destutter (· ≠ ·) := by
  cases l with
  | nil => rfl
  | cons t rest =>
    unfold dedupTags
    simp only [true_or, if_true, List.nil_append, List.destutter]
    simpa using dedupTags_eq 1 (by omega) t rest []

/-- Closed form of `normalizeTags`: trim, drop the empty, sort, drop adjacent repeats. -/
theorem normalizeTags_eq (tags : List Str) :
    normalizeTags tags =
      (sortStrings ((tags.map TrimSpace).filter (fun t => decide (t ≠ [])))).destutter (· ≠ ·) := by
  unfold normalizeTags
  simp only [trimTags_eq, List.nil_append, dedupTags_zero]
  split
  · rename_i h
    rw [List.length_eq_zero] at h
    subst h; rfl
  · split
    · rename_i h
      rw [List.length_eq_zero] at h
      rw [h]; rfl
    · rfl

theorem mem_destutter'_of_mem {a x : Str} {l : List Str} (h : x ∈ a :: l) :
    x ∈ List.destutter' (· ≠ ·) a l := by
  induction l generalizing a with
  | nil => simpa [List.destutter'] using h
  | cons b l ih =>
    unfold List.destutter'
    split
    · rcases List.mem_cons.1 h with h | h
      · subst h; exact List.mem_cons_self _ _
      · exact List.mem_cons_of_mem _ (ih h)
    · rename_i hab
      have hab' : a = b := by simpa using hab
      subst hab'
      apply ih
      rcases List.mem_cons.1 h with h | h
      · subst h; exact List.mem_cons_self _ _
      · exact h

theorem mem_destutter_iff {x : Str} {l : List Str} : x ∈ l.destutter (· ≠ ·) ↔ x ∈ l := by
  constructor
  · exact fun h => (List.destutter_sublist _ l).subset h
  · intro h
    cases l with
    | nil => cases h
    | cons a l => exact mem_destutter'_of_mem h

/-- What `normalizeTags` returns, element by element. -/
theorem mem_normalizeTags {x : Str} {tags : List Str} :
    x ∈ normalizeTags tags ↔ x ≠ [] ∧ ∃ y ∈ tags, TrimSpace y = x := by
  rw [normalizeTags_eq, mem_destutter_iff, (sortStrings_perm _).mem_iff]
  simp only [List.mem_filter, List.mem_map, decide_eq_true_eq]
  tauto

theorem strLess_of_le_of_ne {a b : Str} (h : strLE a b) (hne : a ≠ b) : strLess a b = true := by
  unfold strLE at h
  rcases strLess_total a b with h' | h' | h'
  · exact h'
  · exact absurd h' hne
  · rw [h] at h'; cases h'

theorem pairwise_strLess_of_sorted_of_chain :
    ∀ {l : List Str}, l.Pairwise strLE → l.Chain' (· ≠ ·) →
      l.Pairwise (fun a b => strLess a b = true)
  | [], _, _ => List.Pairwise.nil
  | [a], _, _ => List.pairwise_singleton _ _
  | a :: b :: l, hp, hc => by
    have hp' := List.pairwise_cons.1 hp
    have hc' := List.chain'_cons.1 hc
    have ih := pairwise_strLess_of_sorted_of_chain hp'.2 hc'.2
    have hab : strLess a b = true :=
      strLess_of_le_of_ne (hp'.1 b (List.mem_cons_self _ _)) hc'.1
    refine List.pairwise_cons.2 ⟨?_, ih⟩
    intro x hx
    rcases List.mem_cons.1 hx with hx | hx
    · subst hx; exact hab
    · exact strLess_trans hab ((List.pairwise_cons.1 ih).1 x hx)

/-- The result of `normalizeTags` is strictly increasing in byte order. -/
theorem normalizeTags_pairwise (tags : List Str) :
    (normalizeTags tags).Pairwise (fun a b => strLess a b = true) := by
  rw [normalizeTags_eq]
  exact pairwise_strLess_of_sorted_of_chain
    ((sortStrings_sorted _).sublist (List.destutter_sublist _ _))
    (List.destutter_is_chain' _ _)

theorem normalizeTags_nodup (tags : List Str) : (normalizeTags tags).Nodup :=
  (normalizeTags_pairwise tags).imp fun {a b} h e => by
    subst e; rw [strLess_irrefl] at h; cases h

/-- Two strictly increasing lists with the same elements are equal. -/
theorem eq_of_pairwise_strLess {l₁ l₂ : List Str}
    (h₁ : l₁.Pairwise (fun a b => strLess a b = true))
    (h₂ : l₂.Pairwise (fun a b => strLess a b = true)) (h : ∀ x, x ∈ l₁ ↔ x ∈ l₂) : l₁ = l₂ := by
  have n₁ : l₁.Nodup := h₁.imp fun {a b} h e => by
    subst e; rw [strLess_irrefl] at h; cases h
  have n₂ : l₂.Nodup := h₂.imp fun {a b} h e => by
    subst e; rw [strLess_irrefl] at h; cases h
  have s₁ : l₁.Sorted strLE := h₁.imp fun {a b} h => strLess_asymm h
  have s₂ : l₂.Sorted strLE := h₂.imp fun {a b} h => strLess_asymm h
  exact List.eq_of_perm_of_sorted ((List.perm_ext_iff_of_nodup n₁ n₂).2 h) s₁ s₂

/-- A strictly increasing list of trimmed, non-empty tags is already normalized. -/
theorem normalizeTags_eq_self {l : List Str} (hp : l.Pairwise (fun a b => strLess a b = true))
    (ht : ∀ x ∈ l, TrimSpace x = x) (hne : ∀ x ∈ l, x ≠ []) : normalizeTags l = l := by
  apply eq_of_pairwise_strLess (normalizeTags_pairwise l) hp
  intro x
  rw [mem_normalizeTags]
  constructor
  · rintro ⟨_, y, hy, rfl⟩
    rw [ht y hy]; exact hy
  · intro hx
    exact ⟨hne x hx, x, hx, ht x hx⟩

theorem normalizeTags_idem (tags : List Str) :
    normalizeTags (normalizeTags tags) = normalizeTags tags := by
  apply normalizeTags_eq_self (normalizeTags_pairwise tags)
  · intro x hx
    obtain ⟨_, y, _, rfl⟩ := mem_normalizeTags.1 hx
    exact TrimSpace_idem y
  · intro x hx
    exact (mem_normalizeTags.1 hx).1

/-! ## Facts about `FormatInt` -/

theorem digit_toNat (d : Nat) (h : d < 10) : (Char.ofNat (48 + d)).toNat = 48 + d := by
  interval_cases d <;> rfl

theorem digit_eq_digitChar (d : Nat) (h : d < 10) : Char.ofNat (48 + d) = Nat.digitChar d := by
  interval_cases d <;> rfl

theorem decimalDigits_eq_toDigitsCore (fuel n : Nat) (ds : Str) :
    decimalDigits fuel n ds = Nat.toDigitsCore 10 fuel n ds := by
  induction fuel generalizing n ds with
  | zero => rfl
  | succ fuel ih =>
    simp only [decimalDigits, Nat.toDigitsCore, ih,
      digit_eq_digitChar (n % 10) (Nat.mod_lt _ (by omega))]

/-- The model of `strconv.FormatInt` agrees with the decimal rendering of integers. -/
theorem FormatInt_eq_repr (i : Int) : FormatInt i = (Int.repr i).toList := by
  unfold FormatInt
  cases i with
  | ofNat m =>
    have h : ¬ (Int.ofNat m < 0) := by simp
    simp only [h, if_false, decimalDigits_eq_toDigitsCore, Int.repr, Nat.repr, Nat.toDigits,
      List.asString, String.toList]
    rfl
  | negSucc m =>
    have h : Int.negSucc m < 0 := Int.negSucc_lt_zero m
    simp only [h, if_true, decimalDigits_eq_toDigitsCore, Int.repr, Nat.repr, Nat.toDigits,
      List.asString, String.toList]
    rfl

theorem mem_decimalDigits {fuel n : Nat} {ds : Str} {c : Char}
    (h : c ∈ decimalDigits fuel n ds) : c ∈ ds ∨ (48 ≤ c.toNat ∧ c.toNat ≤ 57) := by
  induction fuel generalizing n ds with
  | zero => exact Or.inl h
  | succ fuel ih =>
    have hd := digit_toNat (n % 10) (Nat.mod_lt _ (by omega))
    have hlt : n % 10 < 10 := Nat.mod_lt _ (by omega)
    unfold decimalDigits at h
    split at h
    · rcases List.mem_cons.1 h with h | h
      · right; rw [h, hd]; omega
      · exact Or.inl h
    · rcases ih h with h | h
      · rcases List.mem_cons.1 h with h | h
        · right; rw [h, hd]; omega
        · exact Or.inl h
      · exact Or.inr h

/-- Reading a digit string back. -/
theorem decimalDigits_foldl {fuel n : Nat} {ds : Str} (h : n < fuel) :
    (decimalDigits fuel n ds).foldl (fun a c => a * 10 + (c.toNat - 48)) 0 =
      ds.foldl (fun a c => a * 10 + (c.toNat - 48)) n := by
  induction fuel generalizing n ds with
  | zero => omega
  | succ fuel ih =>
    have hd := digit_toNat (n % 10) (Nat.mod_lt _ (by omega))
    unfold decimalDigits
    split
    · rename_i h0
      simp only [List.foldl_cons, hd]
      congr 1; omega
    · rename_i h0
      rw [ih (by omega)]
      simp only [List.foldl_cons, hd]
      congr 1; omega

theorem decimalDigits_injective {n m : Nat}
    (h : decimalDigits (n + 1) n [] = decimalDigits (m + 1) m []) : n = m := by
  have h1 := @decimalDigits_foldl (n + 1) n [] (by omega)
  have h2 := @decimalDigits_foldl (m + 1) m [] (by omega)
  rw [h] at h1
  rw [h1] at h2
  simpa using h2

theorem mem_FormatInt {i : Int} {c : Char} (h : c ∈ FormatInt i) :
    c.toNat = 45 ∨ (48 ≤ c.toNat ∧ c.toNat ≤ 57) := by
  unfold FormatInt at h
  split at h
  · rcases List.mem_cons.1 h with h | h
    · left; rw [h]; rfl
    · rcases mem_decimalDigits h with h | h
      · cases h
      · exact Or.inr h
  · rcases mem_decimalDigits h with h | h
    · cases h
    · exact Or.inr h

theorem FormatInt_injective {i j : Int} (h : FormatInt i = FormatInt j) : i = j := by
  unfold FormatInt at h
  split at h <;> split at h
  · have := decimalDigits_injective (List.cons.inj h).2
    omega
  · exfalso
    have hm : '-' ∈ decimalDigits (j.natAbs + 1) j.natAbs [] := by
      rw [← h]; exact List.mem_cons_self _ _
    rcases mem_decimalDigits hm with h' | h'
    · cases h'
    · have : ('-' : Char).toNat = 45 := rfl
      omega
  · exfalso
    have hm : '-' ∈ decimalDigits (i.natAbs + 1) i.natAbs [] := by
      rw [h]; exact List.mem_cons_self _ _
    rcases mem_decimalDigits hm with h' | h'
    · cases h'
    · have : ('-' : Char).toNat = 45 := rfl
      omega
  · have := decimalDigits_injective h
    omega

/-! ## The bytes that `BuildDedupKey` hashes -/

theorem intercalate_cons_cons {α : Type} (sep a b : List α) (l : List (List α)) :
    List.intercalate sep (a :: b :: l) = a ++ sep ++ List.intercalate sep (b :: l) := by
  simp [List.intercalate, List.intersperse]

theorem intercalate_singleton {α : Type} (sep a : List α) : List.intercalate sep [a] = a := by
  simp [List.intercalate, List.intersperse]

theorem intercalate_nil {α : Type} (sep : List α) : List.intercalate sep [] = [] := by
  simp [List.intercalate, List.intersperse]

theorem utf8_intercalate (sep : Str) : ∀ l : List Str,
    utf8 (List.intercalate sep l) = List.intercalate (utf8 sep) (l.map utf8)
  | [] => by simp [intercalate_nil, utf8_nil]
  | [a] => by simp [intercalate_singleton]
  | a :: b :: l => by
    rw [intercalate_cons_cons, utf8_append, utf8_append, utf8_intercalate sep (b :: l)]
    simp only [List.map_cons, intercalate_cons_cons]

theorem writeTags_succ (i : Nat) (tags : List Str) (b : Bytes) :
    writeTags (i + 1) tags b = b ++ tags.flatMap (fun t => 0x2C :: utf8 t) := by
  induction tags generalizing i b with
  | nil => simp [writeTags]
  | cons t rest ih =>
    unfold writeTags
    rw [ih]
    have : utf8 [','] = [0x2C] := rfl
    simp [this]

theorem intercalate_cons_eq (sep : Nat) (a : Bytes) (l : List Bytes) :
    List.intercalate [sep] (a :: l) = a ++ l.flatMap (fun t => sep :: t) := by
  induction l generalizing a with
  | nil => simp [intercalate_singleton]
  | cons b l ih => rw [intercalate_cons_cons, ih]; simp

theorem writeTags_zero (tags : List Str) (b : Bytes) :
    writeTags 0 tags b = b ++ List.intercalate [0x2C] (tags.map utf8) := by
  cases tags with
  | nil => simp [writeTags, intercalate_nil]
  | cons t rest =>
    unfold writeTags
    rw [writeTags_succ, List.map_cons, intercalate_cons_eq]
    simp [List.flatMap_map]

/-- Closed form of the builder contents. -/
theorem dedupKeyBytes_eq (e c ca u : Str) (ms : Int) (tags : List Str) (md : Bytes) :
    dedupKeyBytes e c ca u ms tags md =
      utf8 e ++ 0x7C :: (utf8 c ++ 0x7C :: (utf8 ca ++ 0x7C :: (utf8 u ++ 0x7C ::
        (utf8 (FormatInt ms) ++ 0x7C :: (List.intercalate [0x2C] (tags.map utf8) ++ 0x7C ::
          metadataOrSentinel md))))) := by
  have h1 : utf8 ['|'] = [0x7C] := rfl
  have h2 : utf8 ['{', '}'] = [0x7B, 0x7D] := rfl
  unfold dedupKeyBytes metadataOrSentinel
  simp only [h1, h2, writeTags_zero, List.length_eq_zero, List.nil_append]
  split <;> simp

theorem dedupKeyBytes_eq_canonical (e c ca u : Str) (ms : Int) (tags : List Str) (md : Bytes) :
    dedupKeyBytes e c ca u ms tags md = canonicalSerialization e c ca u ms tags md := by
  have h3 : utf8 [','] = [0x2C] := rfl
  rw [dedupKeyBytes_eq, canonicalSerialization, utf8_intercalate, h3, ← FormatInt_eq_repr]
  simp [intercalate_cons_cons, intercalate_singleton]

/-! ## The serialization is injective on delimiter-free fields -/

theorem append_sep_inj {s : Nat} : ∀ {a a' r r' : Bytes}, s ∉ a → s ∉ a' →
    a ++ s :: r = a' ++ s :: r' → a = a' ∧ r = r'
  | [], [], _, _, _, _, h => ⟨rfl, (List.cons.inj h).2⟩
  | [], x :: a', _, _, _, h', h => by
    have := (List.cons.inj h).1
    exact absurd (this ▸ List.mem_cons_self _ _) h'
  | x :: a, [], _, _, h', _, h => by
    have := (List.cons.inj h).1
    exact absurd (this ▸ List.mem_cons_self _ _) h'
  | x :: a, y :: a', _, _, ha, ha', h => by
    obtain ⟨h1, h2⟩ := List.cons.inj h
    obtain ⟨h3, h4⟩ := append_sep_inj (fun m => ha (List.mem_cons_of_mem _ m))
      (fun m => ha' (List.mem_cons_of_mem _ m)) h2
    exact ⟨by rw [h1, h3], h4⟩

theorem not_mem_utf8_of_not_mem {s : Str} {c : Char} (hc : c.toNat < 0x80) (h : c ∉ s) :
    c.toNat ∉ utf8 s := by
  intro hm
  obtain ⟨d, hd, hcd⟩ := mem_utf8_ascii hc hm
  exact h (char_eq_of_toNat_eq hcd ▸ hd)

theorem bar_not_mem_utf8 {s : Str} (h : '|' ∉ s) : 0x7C ∉ utf8 s :=
  @not_mem_utf8_of_not_mem s '|' (by decide) h

theorem comma_not_mem_utf8 {s : Str} (h : ',' ∉ s) : 0x2C ∉ utf8 s :=
  @not_mem_utf8_of_not_mem s ',' (by decide) h

theorem bar_not_mem_FormatInt (i : Int) : 0x7C ∉ utf8 (FormatInt i) := by
  apply bar_not_mem_utf8
  intro h
  have h1 := mem_FormatInt h
  have h2 : ('|' : Char).toNat = 124 := rfl
  omega

theorem mem_intercalate_tags {tags : List Str} {b : Nat}
    (h : b ∈ List.intercalate [0x2C] (tags.map utf8)) : b = 0x2C ∨ ∃ t ∈ tags, b ∈ utf8 t := by
  cases tags with
  | nil => simp [intercalate_nil] at h
  | cons t rest =>
    rw [List.map_cons, intercalate_cons_eq, List.mem_append, List.mem_flatMap] at h
    rcases h with h | ⟨x, hx, h⟩
    · exact Or.inr ⟨t, List.mem_cons_self _ _, h⟩
    · obtain ⟨y, hy, rfl⟩ := List.mem_map.1 hx
      rcases List.mem_cons.1 h with h | h
      · exact Or.inl h
      · exact Or.inr ⟨y, List.mem_cons_of_mem _ hy, h⟩

theorem bar_not_mem_tags {tags : List Str} (h : ∀ t ∈ tags, '|' ∉ t) :
    0x7C ∉ List.intercalate [0x2C] (tags.map utf8) := by
  intro hm
  rcases mem_intercalate_tags hm with h' | ⟨t, ht, h'⟩
  · omega
  · exact bar_not_mem_utf8 (h t ht) h'

/-- Tags without a comma, none of them empty, can be read back from their joined form. -/
theorem intercalate_tags_inj : ∀ {l l' : List Str}, (∀ t ∈ l, ',' ∉ t ∧ t ≠ []) →
    (∀ t ∈ l', ',' ∉ t ∧ t ≠ []) →
    List.intercalate [0x2C] (l.map utf8) = List.intercalate [0x2C] (l'.map utf8) → l = l'
  | [], [], _, _, _ => rfl
  | [], t :: l', _, h', h => by
    exfalso
    rw [List.map_nil, intercalate_nil, List.map_cons, intercalate_cons_eq] at h
    have := (List.append_eq_nil.1 h.symm).1
    exact (h' t (List.mem_cons_self _ _)).2 (utf8_eq_nil_iff.1 this)
  | t :: l, [], h', _, h => by
    exfalso
    rw [List.map_nil, intercalate_nil, List.map_cons, intercalate_cons_eq] at h
    have := (List.append_eq_nil.1 h).1
    exact (h' t (List.mem_cons_self _ _)).2 (utf8_eq_nil_iff.1 this)
  | [a], [b], _, _, h => by
    simp only [List.map_cons, List.map_nil, intercalate_singleton] at h
    rw [utf8_injective h]
  | [a], b :: c :: l', ha, hb, h => by
    exfalso
    simp only [List.map_cons, List.map_nil, intercalate_singleton, intercalate_cons_cons] at h
    apply comma_not_mem_utf8 (ha a (List.mem_cons_self _ _)).1
    rw [h]
    simp
  | a :: c :: l, [b], ha, hb, h => by
    exfalso
    simp only [List.map_cons, List.map_nil, intercalate_singleton, intercalate_cons_cons] at h
    apply comma_not_mem_utf8 (hb b (List.mem_cons_self _ _)).1
    rw [← h]
    simp
  | a :: c :: l, b :: d :: l', ha, hb, h => by
    simp only [List.map_cons, intercalate_cons_cons, List.append_assoc, List.singleton_append]
      at h
    obtain ⟨h1, h2⟩ := append_sep_inj (comma_not_mem_utf8 (ha a (List.mem_cons_self _ _)).1)
      (comma_not_mem_utf8 (hb b (List.mem_cons_self _ _)).1) h
    have ih := @intercalate_tags_inj (c :: l) (d :: l')
      (fun t ht => ha t (List.mem_cons_of_mem _ ht))
      (fun t ht => hb t (List.mem_cons_of_mem _ ht)) (by simpa using h2)
    rw [utf8_injective h1, ih]

/-- On delimiter-free fields the bytes that are hashed determine every field. -/
theorem dedupKeyBytes_inj {e c ca u e' c' ca' u' : Str} {ms ms' : Int} {tags tags' : List Str}
    {md md' : Bytes}
    (he : '|' ∉ e) (hc : '|' ∉ c) (hca : '|' ∉ ca) (hu : '|' ∉ u)
    (he' : '|' ∉ e') (hc' : '|' ∉ c') (hca' : '|' ∉ ca') (hu' : '|' ∉ u')
    (ht : ∀ t ∈ tags, ('|' ∉ t ∧ ',' ∉ t) ∧ t ≠ [])
    (ht' : ∀ t ∈ tags', ('|' ∉ t ∧ ',' ∉ t) ∧ t ≠ [])
    (h : dedupKeyBytes e c ca u ms tags md = dedupKeyBytes e' c' ca' u' ms' tags' md') :
    e = e' ∧ c = c' ∧ ca = ca' ∧ u = u' ∧ ms = ms' ∧ tags = tags' ∧
      metadataOrSentinel md = metadataOrSentinel md' := by
  rw [dedupKeyBytes_eq, dedupKeyBytes_eq] at h
  obtain ⟨h1, h⟩ := append_sep_inj (bar_not_mem_utf8 he) (bar_not_mem_utf8 he') h
  obtain ⟨h2, h⟩ := append_sep_inj (bar_not_mem_utf8 hc) (bar_not_mem_utf8 hc') h
  obtain ⟨h3, h⟩ := append_sep_inj (bar_not_mem_utf8 hca) (bar_not_mem_utf8 hca') h
  obtain ⟨h4, h⟩ := append_sep_inj (bar_not_mem_utf8 hu) (bar_not_mem_utf8 hu') h
  obtain ⟨h5, h⟩ := append_sep_inj (bar_not_mem_FormatInt ms) (bar_not_mem_FormatInt ms') h
  obtain ⟨h6, h⟩ := append_sep_inj (bar_not_mem_tags fun t m => (ht t m).1.1)
    (bar_not_mem_tags fun t m => (ht' t m).1.1) h
  exact ⟨utf8_injective h1, utf8_injective h2, utf8_injective h3, utf8_injective h4,
    FormatInt_injective (utf8_injective h5),
    intercalate_tags_inj (fun t m => ⟨(ht t m).1.2, (ht t m).2⟩)
      (fun t m => ⟨(ht' t m).1.2, (ht' t m).2⟩) h6, h⟩

/-! ## Facts about `parseTimestamp` and `ToEvent` -/

theorem parseTimestamp_ok {raw : Int} (now : Time) (h : 0 < raw) :
    parseTimestamp raw now =
      .ok (parsedInstant raw, if raw ≥ 1000000000000 then raw else raw * 1000) := by
  unfold parseTimestamp parsedInstant timeUnixMilli timeUnix Time.UnixMilli
  have h0 : ¬ raw ≤ 0 := by omega
  simp only [h0, if_false]
  split
  · congr 2; omega
  · congr 2; omega

theorem parseTimestamp_error {raw : Int} (now : Time) (h : raw ≤ 0) :
    parseTimestamp raw now = .error "timestamp must be positive" := by
  unfold parseTimestamp
  simp [h]

theorem unixMilli_parsedInstant (raw : Int) :
    Time.UnixMilli (parsedInstant raw) = if raw ≥ 1000000000000 then raw else raw * 1000 := by
  unfold parsedInstant Time.UnixMilli
  split <;> omega

/-- What `ToEvent` returns on a positive timestamp. -/
theorem ToEvent_ok (J : JSONLib) (p : EventPayload) (now : Time) (h : 0 < p.Timestamp) :
    p.ToEvent J now = .ok {
      DedupKey := BuildDedupKey (TrimSpace p.EventName) (TrimSpace p.Channel)
        (TrimSpace p.CampaignID) (TrimSpace p.UserID)
        (if p.Timestamp ≥ 1000000000000 then p.Timestamp else p.Timestamp * 1000)
        (normalizeTags p.Tags) (normalizeMetadata J p.Metadata)
      EventName := TrimSpace p.EventName
      Channel := TrimSpace p.Channel
      CampaignID := TrimSpace p.CampaignID
      UserID := TrimSpace p.UserID
      Timestamp := parsedInstant p.Timestamp
      Tags := normalizeTags p.Tags
      Metadata := normalizeMetadata J p.Metadata } := by
  unfold EventPayload.ToEvent
  rw [parseTimestamp_ok now h]

theorem ToEvent_error (J : JSONLib) (p : EventPayload) (now : Time) (h : p.Timestamp ≤ 0) :
    p.ToEvent J now = .error "timestamp must be positive" := by
  unfold EventPayload.ToEvent
  rw [parseTimestamp_error now h]

theorem ToEvent_pos {J : JSONLib} {p : EventPayload} {now : Time} {e : Event}
    (h : p.ToEvent J now = .ok e) : 0 < p.Timestamp := by
  by_contra hn
  rw [ToEvent_error J p now (by omega)] at h
  cases h

/-- The dedup key of a returned event is the hash of the event's own canonical bytes. -/
theorem ToEvent_dedupKey {J : JSONLib} {p : EventPayload} {now : Time} {e : Event}
    (h : p.ToEvent J now = .ok e) :
    e.DedupKey = hexEncodeToString (SHA256.Sum256 e.canonicalBytes) := by
  rw [ToEvent_ok J p now (ToEvent_pos h)] at h
  cases h
  simp only [Event.canonicalBytes, BuildDedupKey, unixMilli_parsedInstant]

/-! ## Claims C1 to C4: the dedup key -/

theorem hexDigit_mem (n : Nat) (h : n < 16) : hexDigit n ∈ "0123456789abcdef".toList := by
  interval_cases n <;> decide

theorem hexEncodeToString_length (b : Bytes) : (hexEncodeToString b).length = 2 * b.length := by
  induction b with
  | nil => rfl
  | cons x b ih =>
    have : hexEncodeToString (x :: b) =
        hexDigit (x / 16) :: hexDigit (x % 16) :: hexEncodeToString b := by
      simp [hexEncodeToString, List.flatMap_cons]
    rw [this]
    simp only [List.length_cons, ih]
    omega

theorem mem_hexEncodeToString {b : Bytes} (hb : ∀ x ∈ b, x < 256) {c : Char}
    (h : c ∈ hexEncodeToString b) : c ∈ "0123456789abcdef".toList := by
  unfold hexEncodeToString at h
  obtain ⟨x, hx, hc⟩ := List.mem_flatMap.1 h
  have hx' := hb x hx
  simp only [List.mem_cons, List.mem_singleton, List.not_mem_nil, or_false] at hc
  rcases hc with hc | hc
  · rw [hc]; exact hexDigit_mem _ (by omega)
  · rw [hc]; exact hexDigit_mem _ (Nat.mod_lt _ (by omega))

theorem Sum256_length (m : Bytes) : (SHA256.Sum256 m).length = 32 := by
  simp [SHA256.Sum256, List.flatMap_cons]

theorem Sum256_lt (m : Bytes) : ∀ x ∈ SHA256.Sum256 m, x < 256 := by
  intro x hx
  simp only [SHA256.Sum256, List.flatMap_cons, List.flatMap_nil, List.mem_append, List.mem_cons,
    List.mem_singleton, List.not_mem_nil, or_false] at hx
  rcases hx with hx | hx | hx | hx | hx | hx | hx | hx <;>
    rcases hx with hx | hx | hx | hx <;> rw [hx] <;> exact Nat.mod_lt _ (by omega)

/-- C1: for all arguments `BuildDedupKey` returns the lowercase hex rendering (64 characters
out of `0123456789abcdef`) of SHA-256 applied to exactly the canonical serialization
`event_name|channel|campaign_id|user_id|decimal(ms)|tags joined by ','|M`, with `M` the
metadata bytes or `{}` when they are empty; on the canonical vector the hashed bytes are
`purchase|email|c1|u1|1700000000000|eu,vip|{"amount":10}` and the key is their SHA-256. -/
theorem C1_BuildDedupKey_hashes_canonical_serialization :
    (∀ (e c ca u : Str) (ms : Int) (tags : List Str) (md : Bytes),
      BuildDedupKey e c ca u ms tags md =
          hexEncodeToString (SHA256.Sum256 (canonicalSerialization e c ca u ms tags md)) ∧
        (BuildDedupKey e c ca u ms tags md).length = 64 ∧
        ∀ x ∈ BuildDedupKey e c ca u ms tags md, x ∈ "0123456789abcdef".toList) ∧
    dedupKeyBytes "purchase".toList "email".toList "c1".toList "u1".toList 1700000000000
        ["eu".toList, "vip".toList] (utf8 "\x7b\"amount\":10\x7d".toList) =
      utf8 "purchase|email|c1|u1|1700000000000|eu,vip|\x7b\"amount\":10\x7d".toList ∧
    BuildDedupKey "purchase".toList "email".toList "c1".toList "u1".toList 1700000000000
        ["eu".toList, "vip".toList] (utf8 "\x7b\"amount\":10\x7d".toList) =
      "f18c16f03a72686762d8daf31b8e6e0c60c4fcb3ae5ef72b66fd0b63f3060b41".toList := by
  refine ⟨fun e c ca u ms tags md => ⟨?_, ?_, ?_⟩, by decide, by decide⟩
  · rw [BuildDedupKey, dedupKeyBytes_eq_canonical]
  · rw [BuildDedupKey, hexEncodeToString_length, Sum256_length]
  · intro x hx
    exact mem_hexEncodeToString (Sum256_lt _) hx

/-- C2, as the claim states it, fails: the payload of scenario 1 with timestamp 1 (Unix
seconds) and with timestamp 1000 (the same instant in Unix milliseconds) get different dedup
keys, because 1000 is below `10^12` and is read as seconds again. -/
theorem C2_counterexample_small_seconds :
    EventPayload.dedupKey emptyObjectJSON (clickPayload 1) 0 =
        some "334497a7437488670ffe412eef62004b56c5b53022b175f2a3b13ce5f1026276".toList ∧
      EventPayload.dedupKey emptyObjectJSON (clickPayload (1000 * 1)) 0 =
        some "ee3ed03549ba11dc46609aea2f1eabdfa94ecd6cd90bcb98a933697daac9562e".toList ∧
      EventPayload.dedupKey emptyObjectJSON (clickPayload 1) 0 ≠
        EventPayload.dedupKey emptyObjectJSON (clickPayload (1000 * 1)) 0 := by
  decide

/-- C2, amended: for every payload and every `s` with `10^9 ≤ s < 10^12`, `ToEvent` with
timestamp `s` and with timestamp `1000 * s` both return an event, with the same dedup key. -/
theorem C2_seconds_millis_same_key (J : JSONLib) (p : EventPayload) (now : Time) (s : Int)
    (h1 : 1000000000 ≤ s) (h2 : s < 1000000000000) :
    ∃ k, EventPayload.dedupKey J { p with Timestamp := s } now = some k ∧
      EventPayload.dedupKey J { p with Timestamp := 1000 * s } now = some k := by
  unfold EventPayload.dedupKey
  rw [ToEvent_ok J _ now (show 0 < ({ p with Timestamp := s } : EventPayload).Timestamp by
      show 0 < s; omega),
    ToEvent_ok J _ now (show 0 < ({ p with Timestamp := 1000 * s } : EventPayload).Timestamp by
      show 0 < 1000 * s; omega)]
  refine ⟨_, rfl, ?_⟩
  have e1 : ¬ s ≥ 1000000000000 := by omega
  have e2 : 1000 * s ≥ 1000000000000 := by omega
  simp only [e1, e2, if_true, if_false]
  rw [Int.mul_comm s 1000]

/-- C2, amended, at the timestamps of scenario 1. -/
theorem C2_seconds_millis_same_key_witness :
    (1000000000 : Int) ≤ 1700000000 ∧ (1700000000 : Int) < 1000000000000 ∧
      ∃ k, EventPayload.dedupKey emptyObjectJSON
          { clickPayload 0 with Timestamp := 1700000000 } 0 = some k ∧
        EventPayload.dedupKey emptyObjectJSON
          { clickPayload 0 with Timestamp := 1000 * 1700000000 } 0 = some k :=
  ⟨by decide, by decide,
    C2_seconds_millis_same_key emptyObjectJSON (clickPayload 0) 0 1700000000 (by decide)
      (by decide)⟩

/-- C3: two tag sequences with the same set of non-empty tags are normalized to the same
list, and `ToEvent` on a payload with the one or the other returns the same result (same
`Tags`, same dedup key); it returns an event whenever the timestamp is positive. -/
theorem C3_same_tag_set_same_key (J : JSONLib) (p : EventPayload) (now : Time)
    (t1 t2 : List Str) (h : ∀ x : Str, x ≠ [] → (x ∈ t1 ↔ x ∈ t2)) :
    normalizeTags t1 = normalizeTags t2 ∧
      EventPayload.ToEvent J { p with Tags := t1 } now =
        EventPayload.ToEvent J { p with Tags := t2 } now ∧
      EventPayload.dedupKey J { p with Tags := t1 } now =
        EventPayload.dedupKey J { p with Tags := t2 } now ∧
      (0 < p.Timestamp → ∃ e, EventPayload.ToEvent J { p with Tags := t1 } now = .ok e ∧
        e.Tags = normalizeTags t2) := by
  have hn : normalizeTags t1 = normalizeTags t2 := by
    apply eq_of_pairwise_strLess (normalizeTags_pairwise t1) (normalizeTags_pairwise t2)
    intro x
    rw [mem_normalizeTags, mem_normalizeTags]
    constructor
    · rintro ⟨hx, y, hy, rfl⟩
      have hy0 : y ≠ [] := fun e => hx (by rw [e]; rfl)
      exact ⟨hx, y, (h y hy0).1 hy, rfl⟩
    · rintro ⟨hx, y, hy, rfl⟩
      have hy0 : y ≠ [] := fun e => hx (by rw [e]; rfl)
      exact ⟨hx, y, (h y hy0).2 hy, rfl⟩
  have he : EventPayload.ToEvent J { p with Tags := t1 } now =
      EventPayload.ToEvent J { p with Tags := t2 } now := by
    unfold EventPayload.ToEvent
    simp only [hn]
  refine ⟨hn, he, ?_, ?_⟩
  · unfold EventPayload.dedupKey
    rw [he]
  · intro hp
    rw [ToEvent_ok J _ now (show 0 < ({ p with Tags := t1 } : EventPayload).Timestamp from hp)]
    exact ⟨_, rfl, hn⟩

/-- C3 at the tag lists of scenario 2, `["b","a","","a"]` and `["a","b"]`. -/
theorem C3_same_tag_set_same_key_witness :
    (∀ x : Str, x ≠ [] → (x ∈ [['b'], ['a'], [], ['a']] ↔ x ∈ [['a'], ['b']])) ∧
      EventPayload.dedupKey emptyObjectJSON
          { clickPayload 1700000000 with Tags := [['b'], ['a'], [], ['a']] } 0 =
        EventPayload.dedupKey emptyObjectJSON
          { clickPayload 1700000000 with Tags := [['a'], ['b']] } 0 :=
  ⟨fun x hx => by simp only [List.mem_cons, List.mem_singleton, List.not_mem_nil]; tauto,
    (C3_same_tag_set_same_key emptyObjectJSON (clickPayload 1700000000) 0
      [['b'], ['a'], [], ['a']] [['a'], ['b']]
      (fun x hx => by simp only [List.mem_cons, List.mem_singleton, List.not_mem_nil]; tauto)).2.2.1⟩

/-- C4: when the canonical bytes of a payload's metadata are `{}`, `ToEvent` gives the
payload the dedup key it gives the same payload without metadata, and it does return an
event whenever the timestamp is positive: `BuildDedupKey` writes `{}` for empty metadata. -/
theorem C4_metadata_sentinel (J : JSONLib) (p : EventPayload) (now : Time) (m : Bytes)
    (h : normalizeMetadata J m = [0x7B, 0x7D]) :
    EventPayload.dedupKey J { p with Metadata := [] } now =
        EventPayload.dedupKey J { p with Metadata := m } now ∧
      (0 < p.Timestamp → ∃ k, EventPayload.dedupKey J { p with Metadata := [] } now = some k) ∧
      ∀ (e c ca u : Str) (ms : Int) (tags : List Str),
        dedupKeyBytes e c ca u ms tags [] = dedupKeyBytes e c ca u ms tags [0x7B, 0x7D] := by
  have hs : ∀ (e c ca u : Str) (ms : Int) (tags : List Str),
      dedupKeyBytes e c ca u ms tags [] = dedupKeyBytes e c ca u ms tags [0x7B, 0x7D] := by
    intro e c ca u ms tags
    rw [dedupKeyBytes_eq, dedupKeyBytes_eq]
    rfl
  refine ⟨?_, ?_, hs⟩
  · unfold EventPayload.dedupKey EventPayload.ToEvent
    cases parseTimestamp p.Timestamp now with
    | error err => rfl
    | ok r =>
      obtain ⟨ts, tsKey⟩ := r
      simp only [h, BuildDedupKey]
      rw [show normalizeMetadata J [] = [] from rfl, hs]
  · intro hp
    unfold EventPayload.dedupKey
    rw [ToEvent_ok J _ now (show 0 < ({ p with Metadata := [] } : EventPayload).Timestamp from hp)]
    exact ⟨_, rfl⟩

/-- C4 at scenario 3: metadata ` {} ` against no metadata. -/
theorem C4_metadata_sentinel_witness :
    normalizeMetadata emptyObjectJSON [0x20, 0x7B, 0x7D, 0x20] = [0x7B, 0x7D] ∧
      EventPayload.dedupKey emptyObjectJSON { clickPayload 1700000000 with Metadata := [] } 0 =
        EventPayload.dedupKey emptyObjectJSON
          { clickPayload 1700000000 with Metadata := [0x20, 0x7B, 0x7D, 0x20] } 0 :=
  ⟨by decide,
    (C4_metadata_sentinel emptyObjectJSON (clickPayload 1700000000) 0 [0x20, 0x7B, 0x7D, 0x20]
      (by decide)).1⟩

/-! ## Claim C5: dedup locality -/

/-- C5, as the claim states it, fails: the field separator is not escaped.  The payloads
with `event_name = "a|b"`, `channel = "c"` and with `event_name = "a"`, `channel = "b|c"`
differ in two normalized fields, yet the bytes that are hashed are the same, and so are the
two dedup keys, without any SHA-256 collision. -/
theorem C5_counterexample_separator_in_field :
    ∃ e1 e2 : Event,
      EventPayload.ToEvent emptyObjectJSON
          { clickPayload 1700000000 with EventName := "a|b".toList, Channel := "c".toList } 0 =
        .ok e1 ∧
      EventPayload.ToEvent emptyObjectJSON
          { clickPayload 1700000000 with EventName := "a".toList, Channel := "b|c".toList } 0 =
        .ok e2 ∧
      e1.keyFields ≠ e2.keyFields ∧ e1.canonicalBytes = e2.canonicalBytes ∧
      e1.DedupKey = e2.DedupKey :=
  ⟨_, _, rfl, rfl, by decide, by decide, by decide⟩

/-- C5, amended: for two events returned by `ToEvent` in whose text fields the separator `|`
does not occur and whose tags contain neither `|` nor `,`: when the normalized fields
(timestamp in milliseconds, empty metadata read as `{}`) differ in at least one field, the
byte strings that `BuildDedupKey` hashes are different; each dedup key is the hex SHA-256 of
its byte string, so the keys can only coincide through a SHA-256 collision. -/
theorem C5_dedup_locality (J : JSONLib) (p1 p2 : EventPayload) (now : Time) (e1 e2 : Event)
    (h1 : EventPayload.ToEvent J p1 now = .ok e1) (h2 : EventPayload.ToEvent J p2 now = .ok e2)
    (hd1 : e1.delimiterFree) (hd2 : e2.delimiterFree) (hne : e1.keyFields ≠ e2.keyFields) :
    e1.canonicalBytes ≠ e2.canonicalBytes ∧
      e1.DedupKey = hexEncodeToString (SHA256.Sum256 e1.canonicalBytes) ∧
      e2.DedupKey = hexEncodeToString (SHA256.Sum256 e2.canonicalBytes) := by
  refine ⟨?_, ToEvent_dedupKey h1, ToEvent_dedupKey h2⟩
  intro hb
  apply hne
  have t1 : ∀ t ∈ e1.Tags, t ≠ [] := by
    rw [ToEvent_ok J p1 now (ToEvent_pos h1)] at h1
    cases h1
    exact fun t ht => (mem_normalizeTags.1 ht).1
  have t2 : ∀ t ∈ e2.Tags, t ≠ [] := by
    rw [ToEvent_ok J p2 now (ToEvent_pos h2)] at h2
    cases h2
    exact fun t ht => (mem_normalizeTags.1 ht).1
  obtain ⟨a1, a2, a3, a4, a5⟩ := hd1
  obtain ⟨b1, b2, b3, b4, b5⟩ := hd2
  obtain ⟨r1, r2, r3, r4, r5, r6, r7⟩ := dedupKeyBytes_inj a1 a2 a3 a4 b1 b2 b3 b4
    (fun t ht => ⟨a5 t ht, t1 t ht⟩) (fun t ht => ⟨b5 t ht, t2 t ht⟩) hb
  simp only [Event.keyFields, r1, r2, r3, r4, r5, r6, r7]

/-- C5, amended, at two payloads that differ in the channel only. -/
theorem C5_dedup_locality_witness :
    ∃ e1 e2 : Event,
      EventPayload.ToEvent emptyObjectJSON (clickPayload 1700000000) 0 = .ok e1 ∧
      EventPayload.ToEvent emptyObjectJSON
        { clickPayload 1700000000 with Channel := "email".toList } 0 = .ok e2 ∧
      e1.delimiterFree ∧ e2.delimiterFree ∧ e1.keyFields ≠ e2.keyFields ∧
      e1.canonicalBytes ≠ e2.canonicalBytes :=
  ⟨_, _, rfl, rfl, by simp [Event.delimiterFree, normalizeTags, clickPayload, TrimSpace_eq, isSpace],
    by simp [Event.delimiterFree, normalizeTags, clickPayload, TrimSpace_eq, isSpace],
    by decide,
    (C5_dedup_locality emptyObjectJSON (clickPayload 1700000000)
      { clickPayload 1700000000 with Channel := "email".toList } 0 _ _ rfl rfl
      (by simp [Event.delimiterFree, normalizeTags, clickPayload, TrimSpace_eq, isSpace])
      (by simp [Event.delimiterFree, normalizeTags, clickPayload, TrimSpace_eq, isSpace])
      (by decide)).1⟩

/-! ## Claim C6: validation -/

/-- C6: `Validate` returns no error exactly when `event_name`, `channel` and `user_id` are
non-empty after `TrimSpace` (the trimming of `ToEvent`), the timestamp is positive, the
parsed instant is not later than `now` plus two minutes (equality is accepted) and the
metadata is empty or valid JSON; a timestamp more than two minutes ahead, the other rules
holding, gives the error "timestamp must not be in the future". -/
theorem C6_Validate_accepts_iff (J : JSONLib) (p : EventPayload) (now : Time) :
    (EventPayload.Validate J p now = none ↔
      TrimSpace p.EventName ≠ [] ∧ TrimSpace p.Channel ≠ [] ∧ TrimSpace p.UserID ≠ [] ∧
        0 < p.Timestamp ∧ parsedInstant p.Timestamp ≤ now + 120000000000 ∧
        (p.Metadata = [] ∨ J.Valid p.Metadata = true)) ∧
    (TrimSpace p.EventName ≠ [] ∧ TrimSpace p.Channel ≠ [] ∧ TrimSpace p.UserID ≠ [] ∧
        0 < p.Timestamp ∧ (p.Metadata = [] ∨ J.Valid p.Metadata = true) →
      now + 120000000000 < parsedInstant p.Timestamp →
      EventPayload.Validate J p now = some "timestamp must not be in the future") ∧
    (TrimSpace p.EventName ≠ [] ∧ TrimSpace p.Channel ≠ [] ∧ TrimSpace p.UserID ≠ [] ∧
        0 < p.Timestamp ∧ (p.Metadata = [] ∨ J.Valid p.Metadata = true) →
      parsedInstant p.Timestamp = now + 120000000000 →
      EventPayload.Validate J p now = none) := by
  unfold EventPayload.Validate
  by_cases h1 : TrimSpace p.EventName = []
  · simp [h1]
  by_cases h2 : TrimSpace p.Channel = []
  · simp [h1, h2]
  by_cases h3 : TrimSpace p.UserID = []
  · simp [h1, h2, h3]
  by_cases h4 : p.Timestamp ≤ 0
  · simp only [h1, h2, h3, h4, if_true, if_false]
    have : ¬ 0 < p.Timestamp := by omega
    simp [this]
  have h4' : 0 < p.Timestamp := by omega
  simp only [h1, h2, h3, h4, if_false, parseTimestamp_ok now h4', Time.After, Time.Add,
    maxFutureSkew]
  have e5 : (now + 2 * 60 * 1000000000 < parsedInstant p.Timestamp) ↔
      ¬ parsedInstant p.Timestamp ≤ now + 120000000000 := by
    unfold Time at *; omega
  have e6 : (now + 120000000000 < parsedInstant p.Timestamp) ↔
      ¬ parsedInstant p.Timestamp ≤ now + 120000000000 := by
    unfold Time at *; omega
  have hlen : p.Metadata.length ≠ 0 ↔ ¬ p.Metadata = [] := by
    rw [ne_eq, List.length_eq_zero]
  simp only [e5, e6, hlen, decide_not, Bool.not_eq_true', decide_eq_false_iff_not, not_not,
    ne_eq, not_false_eq_true, true_and, h1, h2, h3, h4']
  by_cases h5 : parsedInstant p.Timestamp ≤ now + 120000000000
  · by_cases h6 : p.Metadata = []
    · simp [h5, h6]
    · cases h7 : J.Valid p.Metadata <;> simp [h5, h6, h7]
  · have h5' : ¬ parsedInstant p.Timestamp = now + 120000000000 := by
      intro e; rw [e] at h5; exact h5 (le_refl _)
    simp [h5, h5']

/-- C6 at scenario 4: with the clock at second 1700000000 the payload stamped one minute
ahead is accepted and the payload stamped five minutes ahead is refused. -/
theorem C6_Validate_accepts_iff_witness :
    EventPayload.Validate emptyObjectJSON (clickPayload 1700000060) 1700000000000000000 = none ∧
      EventPayload.Validate emptyObjectJSON (clickPayload 1700000300) 1700000000000000000 =
        some "timestamp must not be in the future" :=
  ⟨(C6_Validate_accepts_iff emptyObjectJSON (clickPayload 1700000060) 1700000000000000000).1.2
      (by decide),
    (C6_Validate_accepts_iff emptyObjectJSON (clickPayload 1700000300) 1700000000000000000).2.1
      (by decide) (by decide)⟩

/-! ## Claim C7: trimming -/

theorem dropWhile_append_of_all {f : Char → Bool} {l : Str} (x : Str)
    (h : ∀ c ∈ l, f c = true) : (l ++ x).dropWhile f = x.dropWhile f := by
  induction l with
  | nil => rfl
  | cons a l ih =>
    rw [List.cons_append, List.dropWhile_cons_of_pos (h a (List.mem_cons_self _ _))]
    exact ih fun c hc => h c (List.mem_cons_of_mem _ hc)

theorem dropWhile_eq_nil_of_all {f : Char → Bool} {l : Str} (h : ∀ c ∈ l, f c = true) :
    l.dropWhile f = [] := by
  rw [List.dropWhile_eq_nil_iff]; exact h

/-- The relation `TrimmedOf f s` holds for one string only, `trimFunc f s`. -/
theorem TrimmedOf.eq_trimFunc {f : Char → Bool} {s t : Str} (h : TrimmedOf f s t) :
    t = trimFunc f s := by
  obtain ⟨l, r, hs, hl, hr, hh, hlast⟩ := h
  unfold trimFunc trimRightFunc trimLeftFunc
  rw [hs, List.append_assoc, dropWhile_append_of_all _ hl]
  cases t with
  | nil =>
    rw [List.nil_append, dropWhile_eq_nil_of_all hr]; rfl
  | cons a t =>
    rw [@dropWhile_eq_self_of_head f ((a :: t) ++ r) (by simpa using hh), List.reverse_append,
      dropWhile_append_of_all _ (fun c hc => hr c (List.mem_reverse.1 hc)),
      @dropWhile_eq_self_of_head f (a :: t).reverse
        (by intro c hc; rw [List.head?_reverse] at hc; exact hlast c hc),
      List.reverse_reverse]

/-- `TrimSpace` removes the leading and trailing `unicode.IsSpace` runes and nothing else. -/
theorem TrimSpace_trimmedOf (s : Str) : TrimmedOf isSpace s (TrimSpace s) :=
  ⟨s.takeWhile isSpace, ((s.dropWhile isSpace).reverse.takeWhile isSpace).reverse,
    TrimSpace_decomp s, fun _ hc => List.mem_takeWhile_imp hc,
    fun _ hc => List.mem_takeWhile_imp (List.mem_reverse.1 hc), TrimSpace_head s,
    TrimSpace_last s⟩

/-- C7, as the claim states it, fails: `strings.TrimSpace` also strips Unicode white space.
The payload whose `event_name` is U+00A0 (no-break space) followed by `click` is mapped by
`ToEvent` to the event name `click`, which is not the ASCII-trimmed input; and `Validate`
refuses the `event_name` U+00A0 as missing although it holds no ASCII white space. -/
theorem C7_counterexample_no_break_space :
    (∃ e : Event,
      EventPayload.ToEvent emptyObjectJSON
          { clickPayload 1700000000 with EventName := Char.ofNat 0xA0 :: "click".toList } 0 =
        .ok e ∧
      e.EventName = "click".toList ∧
      ¬ TrimmedOf asciiSpace (Char.ofNat 0xA0 :: "click".toList) e.EventName) ∧
    EventPayload.Validate emptyObjectJSON
        { clickPayload 1700000000 with EventName := [Char.ofNat 0xA0] } 1700000000000000000 =
      some "event_name is required" ∧
    ¬ ∀ c ∈ [Char.ofNat 0xA0], asciiSpace c = true := by
  refine ⟨⟨_, rfl, by decide, ?_⟩, by decide, by decide⟩
  intro h
  have := h.eq_trimFunc
  revert this
  decide

/-- C7, amended: the `event_name`, `channel`, `campaign_id` and `user_id` of the event that
`ToEvent` returns are the payload's strings without their leading and trailing white space in
the sense of `unicode.IsSpace` (the ASCII ones and U+0085, U+00A0, U+1680, U+2000 to U+200A,
U+2028, U+2029, U+202F, U+205F, U+3000), nothing else removed or changed, no case folding;
`Validate` reports a required field as missing exactly when it consists of such white space
only (and the fields checked before it do not). -/
theorem C7_fields_trimmed_of_unicode_space (J : JSONLib) (p : EventPayload) (now : Time) :
    (∀ e : Event, EventPayload.ToEvent J p now = .ok e →
      TrimmedOf isSpace p.EventName e.EventName ∧ TrimmedOf isSpace p.Channel e.Channel ∧
        TrimmedOf isSpace p.CampaignID e.CampaignID ∧ TrimmedOf isSpace p.UserID e.UserID) ∧
    (EventPayload.Validate J p now = some "event_name is required" ↔
      ∀ c ∈ p.EventName, isSpace c = true) ∧
    (EventPayload.Validate J p now = some "channel is required" ↔
      (¬ ∀ c ∈ p.EventName, isSpace c = true) ∧ ∀ c ∈ p.Channel, isSpace c = true) ∧
    (EventPayload.Validate J p now = some "user_id is required" ↔
      (¬ ∀ c ∈ p.EventName, isSpace c = true) ∧ (¬ ∀ c ∈ p.Channel, isSpace c = true) ∧
        ∀ c ∈ p.UserID, isSpace c = true) := by
  refine ⟨?_, ?_⟩
  · intro e h
    rw [ToEvent_ok J p now (ToEvent_pos h)] at h
    cases h
    exact ⟨TrimSpace_trimmedOf _, TrimSpace_trimmedOf _, TrimSpace_trimmedOf _,
      TrimSpace_trimmedOf _⟩
  · rw [← TrimSpace_eq_nil_iff, ← TrimSpace_eq_nil_iff, ← TrimSpace_eq_nil_iff]
    unfold EventPayload.Validate
    by_cases h1 : TrimSpace p.EventName = []
    · simp [h1]
    by_cases h2 : TrimSpace p.Channel = []
    · simp [h1, h2]
    by_cases h3 : TrimSpace p.UserID = []
    · simp [h1, h2, h3]
    by_cases h4 : p.Timestamp ≤ 0
    · simp [h1, h2, h3, h4]
    simp only [h1, h2, h3, h4, if_false, parseTimestamp_ok now (show 0 < p.Timestamp by omega)]
    split_ifs <;> simp

/-- C7, amended, at a payload whose `event_name` is wrapped in a tab, a no-break space and
an ideographic space. -/
theorem C7_fields_trimmed_of_unicode_space_witness :
    ∃ e : Event,
      EventPayload.ToEvent emptyObjectJSON
          { clickPayload 1700000000 with
            EventName := '\t' :: Char.ofNat 0xA0 :: ("Click".toList ++ [Char.ofNat 0x3000]) } 0 =
        .ok e ∧
      e.EventName = "Click".toList ∧
      TrimmedOf isSpace ('\t' :: Char.ofNat 0xA0 :: ("Click".toList ++ [Char.ofNat 0x3000]))
        e.EventName :=
  ⟨_, rfl, by decide,
    ((C7_fields_trimmed_of_unicode_space emptyObjectJSON
      { clickPayload 1700000000 with
        EventName := '\t' :: Char.ofNat 0xA0 :: ("Click".toList ++ [Char.ofNat 0x3000]) } 0).1
      _ rfl).1⟩

/-! ## Claims C8 to C10: tag normalization and idempotence -/

/-- C8: for every input tag sequence the result of `normalizeTags`, which is the `Tags` of
the event that `ToEvent` returns, is strictly increasing in byte order, hence sorted and free
of duplicates, and contains no empty string; an empty input yields an empty sequence. -/
theorem C8_tags_strictly_ascending (tags : List Str) :
    (normalizeTags tags).Pairwise (fun a b => bytesLess (utf8 a) (utf8 b) = true) ∧
      (normalizeTags tags).Sorted strLE ∧ (normalizeTags tags).Nodup ∧
      [] ∉ normalizeTags tags ∧ normalizeTags [] = [] ∧
      ∀ (J : JSONLib) (p : EventPayload) (now : Time) (e : Event),
        EventPayload.ToEvent J { p with Tags := tags } now = .ok e →
          e.Tags = normalizeTags tags := by
  refine ⟨normalizeTags_pairwise tags,
    (normalizeTags_pairwise tags).imp fun {a b} h => strLess_asymm h, normalizeTags_nodup tags,
    fun h => (mem_normalizeTags.1 h).1 rfl, rfl, ?_⟩
  intro J p now e h
  rw [ToEvent_ok J _ now (ToEvent_pos h)] at h
  cases h
  rfl

/-- C8 at the tags `["vip", "", "eu", "vip"]`. -/
theorem C8_tags_strictly_ascending_witness :
    ∃ e : Event,
      EventPayload.ToEvent emptyObjectJSON
          { clickPayload 1700000000 with
            Tags := ["vip".toList, [], "eu".toList, "vip".toList] } 0 = .ok e ∧
      e.Tags = ["eu".toList, "vip".toList] ∧
      e.Tags = normalizeTags ["vip".toList, [], "eu".toList, "vip".toList] :=
  ⟨_, rfl, by decide,
    (C8_tags_strictly_ascending ["vip".toList, [], "eu".toList, "vip".toList]).2.2.2.2.2
      emptyObjectJSON (clickPayload 1700000000) 0 _ rfl⟩

/-- C9, as the claim states it, fails: `normalizeTags` trims every tag before it looks at
it.  The input `[" a"]` is normalized to `["a"]`: the non-empty tag `" a"` is not in the
result byte for byte, and the result holds `"a"`, which was not in the input; the input
`[" "]`, a non-empty tag, is dropped altogether. -/
theorem C9_counterexample_tag_with_space :
    normalizeTags [" a".toList] = ["a".toList] ∧
      " a".toList ≠ [] ∧ " a".toList ∉ normalizeTags [" a".toList] ∧
      "a".toList ∉ [" a".toList] ∧
      normalizeTags [" ".toList] = [] ∧ " ".toList ≠ [] := by
  decide

/-- C9, amended: the set of tags in the normalized result equals the set of the non-empty
`TrimSpace`-trimmed input strings: a tag is dropped only when it is empty after trimming,
every kept tag appears in the output as its trimmed form, and no other tag is added. -/
theorem C9_normalized_tag_set (tags : List Str) (x : Str) :
    x ∈ normalizeTags tags ↔ x ≠ [] ∧ ∃ y ∈ tags, TrimSpace y = x :=
  mem_normalizeTags

/-- C10: when `ToEvent` maps a payload `p` to the event `e`, it maps the payload that
carries `e`'s `event_name`, `channel`, `campaign_id`, `user_id` and tags (timestamp and
metadata as in `p`) to `e` again, with the same fields, tags and dedup key; and
`normalizeTags` is idempotent. -/
theorem C10_normalization_idempotent (J : JSONLib) (p : EventPayload) (now : Time) (e : Event)
    (h : EventPayload.ToEvent J p now = .ok e) :
    EventPayload.ToEvent J
        { p with
          EventName := e.EventName, Channel := e.Channel, CampaignID := e.CampaignID,
          UserID := e.UserID, Tags := e.Tags } now = .ok e ∧
      ∀ t : List Str, normalizeTags (normalizeTags t) = normalizeTags t := by
  refine ⟨?_, normalizeTags_idem⟩
  have hp := ToEvent_pos h
  rw [ToEvent_ok J p now hp] at h
  cases h
  rw [ToEvent_ok J { p with
    EventName := TrimSpace p.EventName, Channel := TrimSpace p.Channel,
    CampaignID := TrimSpace p.CampaignID, UserID := TrimSpace p.UserID,
    Tags := normalizeTags p.Tags } now hp]
  simp only [TrimSpace_idem, normalizeTags_idem]

/-- C10 at a payload with padded fields and unsorted, repeated tags. -/
theorem C10_normalization_idempotent_witness :
    ∃ e : Event,
      EventPayload.ToEvent emptyObjectJSON
          { clickPayload 1700000000 with
            EventName := "  Click ".toList, Tags := [" b".toList, "a".toList, "b".toList] } 0 =
        .ok e ∧
      e.EventName = "Click".toList ∧ e.Tags = ["a".toList, "b".toList] ∧
      e.DedupKey = "5cbf91f080bacb78d95f3685469c1ba2f345d0b597e2aaa20eccf95a145d8953".toList ∧
      EventPayload.ToEvent emptyObjectJSON
          { clickPayload 1700000000 with
            EventName := e.EventName, Channel := e.Channel, CampaignID := e.CampaignID,
            UserID := e.UserID, Tags := e.Tags } 0 = .ok e :=
  ⟨_, rfl, by decide, by decide, by decide,
    (C10_normalization_idempotent emptyObjectJSON
      { clickPayload 1700000000 with
        EventName := "  Click ".toList, Tags := [" b".toList, "a".toList, "b".toList] } 0 _
      rfl).1⟩

/-! ## Facts about `flush` -/

theorem flushEvents_eq (batch : List request) (events : List Event) :
    flushEvents batch events = events ++ batch.map request.ev := by
  induction batch generalizing events with
  | nil => simp [flushEvents]
  | cons r rest ih => simp [flushEvents, ih]

theorem trySend_of_ne {slots : Slots} {ch c : Nat} (out : response) (h : c ≠ ch) :
    trySend slots ch out c = slots c := by
  simp [trySend, h]

theorem trySend_empty {slots : Slots} {ch : Nat} (out : response) (h : slots ch = none) :
    trySend slots ch out ch = some out := by
  simp [trySend, h]

theorem trySend_full {slots : Slots} {ch c : Nat} (out v : response) (h : slots c = some v) :
    trySend slots ch out c = some v := by
  unfold trySend
  split
  · rename_i hc
    subst hc
    rw [h]
  · exact h

/-- A buffered reply is never overwritten. -/
theorem flushReplies_full (result : Except GoError (Finset Str)) (batch : List request)
    (slots : Slots) (c : Nat) (v : response) (h : slots c = some v) :
    flushReplies result batch slots c = some v := by
  induction batch generalizing slots with
  | nil => exact h
  | cons r rest ih => exact ih _ (trySend_full _ v h)

/-- Channels of other requests are left alone. -/
theorem flushReplies_of_not_mem (result : Except GoError (Finset Str)) (batch : List request)
    (slots : Slots) (c : Nat) (h : c ∉ batch.map request.resp) :
    flushReplies result batch slots c = slots c := by
  induction batch generalizing slots with
  | nil => rfl
  | cons r rest ih =>
    have h1 : c ≠ r.resp := fun e => h (by simp [e])
    have h2 : c ∉ rest.map request.resp := fun m => h (by simp at m ⊢; exact Or.inr m)
    rw [flushReplies, ih _ h2, trySend_of_ne _ h1]

/-- Every request with an empty reply channel of its own gets its `out`. -/
theorem flushReplies_of_mem (result : Except GoError (Finset Str)) (batch : List request)
    (slots : Slots) (hn : (batch.map request.resp).Nodup)
    (he : ∀ r ∈ batch, slots r.resp = none) (r : request) (hr : r ∈ batch) :
    flushReplies result batch slots r.resp = some (flushOut result r) := by
  induction batch generalizing slots with
  | nil => cases hr
  | cons a rest ih =>
    rw [List.map_cons, List.nodup_cons] at hn
    rw [flushReplies]
    rcases List.mem_cons.1 hr with h | h
    · subst h
      exact flushReplies_full _ _ _ _ _ (trySend_empty _ (he r (List.mem_cons_self _ _)))
    · apply ih _ hn.2 _ h
      intro x hx
      have hne : x.resp ≠ a.resp := fun e => hn.1 (e ▸ List.mem_map_of_mem _ hx)
      rw [trySend_of_ne _ hne]
      exact he x (List.mem_cons_of_mem _ hx)

/-- Closed form of `flush`: one store call on the events of the batch, then the replies. -/
theorem flush_eq {σ : Type} (repo : batchRepo σ) (st : σ) (slots : Slots)
    (batch : List request) :
    SingleWriter.flush repo st slots batch =
      ((repo st (batch.map request.ev)).2,
        flushReplies (repo st (batch.map request.ev)).1 batch slots) := by
  unfold SingleWriter.flush
  rw [flushEvents_eq, List.nil_append]

/-! ## Claims C11, C12, C16: the replies of a flush -/

/-- C11: a flush calls the store once, with the events of the batch in order.  The reply
channels of the batch being distinct and empty: when the store returns a key set `S`, every
request of the batch is sent `inserted` if its event's dedup key is in `S` and `duplicate`
otherwise, with no error; when the store returns an error, every request of the batch is
sent that error, with the zero `Result` that `response` holds when nothing was assigned to
it.  No other channel is written to. -/
theorem C11_flush_fans_out_the_store_answer {σ : Type} (repo : batchRepo σ) (st : σ)
    (slots : Slots) (batch : List request) (hn : (batch.map request.resp).Nodup)
    (he : ∀ r ∈ batch, slots r.resp = none) :
    (SingleWriter.flush repo st slots batch).1 = (repo st (batch.map request.ev)).2 ∧
      (∀ S, (repo st (batch.map request.ev)).1 = .ok S → ∀ r ∈ batch,
        ((SingleWriter.flush repo st slots batch).2 r.resp =
            some { res := { Status := .StatusInserted }, err := none } ∧
          r.ev.DedupKey ∈ S) ∨
        ((SingleWriter.flush repo st slots batch).2 r.resp =
            some { res := { Status := .StatusDuplicate }, err := none } ∧
          r.ev.DedupKey ∉ S)) ∧
      (∀ err, (repo st (batch.map request.ev)).1 = .error err → ∀ r ∈ batch,
        (SingleWriter.flush repo st slots batch).2 r.resp =
          some { res := Result.zero, err := some err }) ∧
      ∀ c, c ∉ batch.map request.resp → (SingleWriter.flush repo st slots batch).2 c = slots c := by
  rw [flush_eq]
  refine ⟨rfl, ?_, ?_, ?_⟩ <;> dsimp only
  · intro S hS r hr
    rw [flushReplies_of_mem _ _ _ hn he r hr, hS]
    unfold flushOut
    by_cases hk : r.ev.DedupKey ∈ S
    · left; simp [hk]
    · right; simp [hk]
  · intro err hE r hr
    rw [flushReplies_of_mem _ _ _ hn he r hr, hE]
    rfl
  · intro c hc
    exact flushReplies_of_not_mem _ _ _ _ hc

/-- C11 on a batch of two requests against the empty store of the spec and against a
failing store. -/
theorem C11_flush_fans_out_the_store_answer_witness :
    ([({ ev := clickEvent, resp := 1 } : request),
        { ev := { clickEvent with DedupKey := ['k'] }, resp := 2 }].map request.resp).Nodup ∧
      (SingleWriter.flush uniqueKeyStore {['k']} (fun _ => none)
          [{ ev := clickEvent, resp := 1 },
            { ev := { clickEvent with DedupKey := ['k'] }, resp := 2 }]).2 1 =
        some { res := { Status := .StatusInserted }, err := none } ∧
      (SingleWriter.flush uniqueKeyStore {['k']} (fun _ => none)
          [{ ev := clickEvent, resp := 1 },
            { ev := { clickEvent with DedupKey := ['k'] }, resp := 2 }]).2 2 =
        some { res := { Status := .StatusDuplicate }, err := none } ∧
      ∀ r ∈ [({ ev := clickEvent, resp := 1 } : request),
          { ev := { clickEvent with DedupKey := ['k'] }, resp := 2 }],
        (SingleWriter.flush (failingStore ErrStopped) () (fun _ => none)
            [{ ev := clickEvent, resp := 1 },
              { ev := { clickEvent with DedupKey := ['k'] }, resp := 2 }]).2 r.resp =
          some { res := Result.zero, err := some ErrStopped } :=
  ⟨by decide, by decide, by decide,
    (C11_flush_fans_out_the_store_answer (failingStore ErrStopped) () (fun _ => none)
      [{ ev := clickEvent, resp := 1 },
        { ev := { clickEvent with DedupKey := ['k'] }, resp := 2 }]
      (by decide) (fun _ _ => rfl)).2.2.1 ErrStopped rfl⟩

/-- C12 fails on the code: two requests with the same new dedup key in one batch, flushed
against the store of the spec (empty before the flush).  The store ends up with one row and
reports one inserted key, yet both requests are answered `inserted`, none `duplicate`. -/
theorem C12_same_key_twice_in_one_batch_both_inserted :
    EventPayload.ToEvent emptyObjectJSON (clickPayload 1700000000) 0 = .ok clickEvent ∧
      (uniqueKeyStore ∅ [clickEvent, clickEvent]).1 = .ok {clickEvent.DedupKey} ∧
      (SingleWriter.flush uniqueKeyStore ∅ (fun _ => none)
          [{ ev := clickEvent, resp := 1 }, { ev := clickEvent, resp := 2 }]).1.card = 1 ∧
      (SingleWriter.flush uniqueKeyStore ∅ (fun _ => none)
          [{ ev := clickEvent, resp := 1 }, { ev := clickEvent, resp := 2 }]).2 1 =
        some { res := { Status := .StatusInserted }, err := none } ∧
      (SingleWriter.flush uniqueKeyStore ∅ (fun _ => none)
          [{ ev := clickEvent, resp := 1 }, { ev := clickEvent, resp := 2 }]).2 2 =
        some { res := { Status := .StatusInserted }, err := none } := by
  refine ⟨rfl, ?_, by decide, by decide, by decide⟩
  show Except.ok _ = Except.ok _
  congr 1

/-- C16 fails on the code: the store call of a flush ends with `context.DeadlineExceeded`
(the deadline of the flush's own context).  The flush sends that error to the request,
`Submit` returns it, and `PostEvent` answers 499 "client closed request", not 500, although
the submitter's context was never cancelled. -/
theorem C16_flush_deadline_answered_499 :
    (SingleWriter.flush (failingStore contextDeadlineExceeded) () (fun _ => none)
        [{ ev := clickEvent, resp := 1 }]).2 1 =
      some { res := Result.zero, err := some contextDeadlineExceeded } ∧
    SingleWriter.submitReturn { res := Result.zero, err := some contextDeadlineExceeded } =
      .error contextDeadlineExceeded ∧
    PostEvent emptyObjectJSON 1700000000000000000
        (fun _ => SingleWriter.submitReturn
          { res := Result.zero, err := some contextDeadlineExceeded })
        "POST" (.ok (clickPayload 1700000000)) =
      .error 499 "client closed request" := by
  refine ⟨by decide, rfl, by decide⟩

/-! ## Claim C13: the batch insert statement -/

theorem FormatInt_natCast (n : Nat) : FormatInt (n : Int) = (toString n).toList := by
  rw [FormatInt_eq_repr]
  rfl

theorem sprintfRow_eq_valueTuple (i : Nat) :
    sprintfRow ((8 * i + 1 : Nat) : Int) = valueTuple i := by
  have c1 : ((8 * i + 1 : Nat) : Int) + 1 = ((8 * i + 2 : Nat) : Int) := by push_cast; ring
  have c2 : ((8 * i + 1 : Nat) : Int) + 2 = ((8 * i + 3 : Nat) : Int) := by push_cast; ring
  have c3 : ((8 * i + 1 : Nat) : Int) + 3 = ((8 * i + 4 : Nat) : Int) := by push_cast; ring
  have c4 : ((8 * i + 1 : Nat) : Int) + 4 = ((8 * i + 5 : Nat) : Int) := by push_cast; ring
  have c5 : ((8 * i + 1 : Nat) : Int) + 5 = ((8 * i + 6 : Nat) : Int) := by push_cast; ring
  have c6 : ((8 * i + 1 : Nat) : Int) + 6 = ((8 * i + 7 : Nat) : Int) := by push_cast; ring
  have c7 : ((8 * i + 1 : Nat) : Int) + 7 = ((8 * i + 8 : Nat) : Int) := by push_cast; ring
  unfold sprintfRow valueTuple
  rw [c1, c2, c3, c4, c5, c6, c7]
  simp only [FormatInt_natCast, String.toList, String.data_append, List.append_assoc]

theorem strIntercalate_cons_eq (sep a : Str) (l : List Str) :
    List.intercalate sep (a :: l) = a ++ l.flatMap (fun t => sep ++ t) := by
  induction l generalizing a with
  | nil => simp [intercalate_singleton]
  | cons b l ih => rw [intercalate_cons_cons, ih]; simp

theorem buildInsertBatchLoop_succ (i : Nat) (events : List Event) (b : Str)
    (args : List SQLArg) :
    buildInsertBatchLoop (i + 1) ((8 * (i + 1) + 1 : Nat) : Int) events b args =
      (b ++ ((List.range' (i + 1) events.length).map valueTuple).flatMap
          (fun t => ",\n".toList ++ t),
        args ++ events.flatMap rowArgs) := by
  induction events generalizing i b args with
  | nil => simp [buildInsertBatchLoop]
  | cons e rest ih =>
    unfold buildInsertBatchLoop
    have hpos : ((8 * (i + 1) + 1 : Nat) : Int) + 8 = ((8 * (i + 1 + 1) + 1 : Nat) : Int) := by
      push_cast; ring
    simp only [Nat.succ_pos, gt_iff_lt, if_true, hpos, ih (i + 1), sprintfRow_eq_valueTuple,
      List.length_cons, List.range'_succ, List.map_cons, List.flatMap_cons, List.append_assoc,
      rowArgs, Prod.mk.injEq, true_and]

/-- Closed form of `buildInsertBatchSQL`. -/
theorem buildInsertBatchSQL_eq (events : List Event) :
    buildInsertBatchSQL events =
      (("\n\tINSERT INTO events (dedup_key, event_name, channel, campaign_id, " ++
            "user_id, ts, tags, metadata)\n\tVALUES\n").toList ++
          List.intercalate ",\n".toList ((List.range events.length).map valueTuple) ++
          "\n\tON CONFLICT (dedup_key) DO NOTHING\n\tRETURNING dedup_key;\n".toList,
        events.flatMap rowArgs) := by
  unfold buildInsertBatchSQL
  cases events with
  | nil => simp [buildInsertBatchLoop, intercalate_nil]
  | cons e rest =>
    unfold buildInsertBatchLoop
    have h0 : ((1 : Int) + 8) = ((8 * (0 + 1) + 1 : Nat) : Int) := by norm_num
    have h1 : sprintfRow 1 = valueTuple 0 := sprintfRow_eq_valueTuple 0
    simp only [gt_iff_lt, lt_self_iff_false, if_false, h0, buildInsertBatchLoop_succ, h1,
      List.length_cons, List.range_eq_range', List.range'_succ, List.map_cons,
      strIntercalate_cons_eq, List.nil_append, List.append_assoc, rowArgs, List.flatMap_cons,
      Nat.zero_add, List.cons_append]

theorem flatMap_rowArgs_length (events : List Event) :
    (events.flatMap rowArgs).length = 8 * events.length := by
  induction events with
  | nil => rfl
  | cons e rest ih =>
    rw [List.flatMap_cons, List.length_append, ih, List.length_cons]
    simp only [rowArgs, List.length_cons, List.length_nil]
    omega

theorem flatMap_rowArgs_slice : ∀ (events : List Event) (i : Nat) (h : i < events.length),
    ((events.flatMap rowArgs).drop (8 * i)).take 8 = rowArgs (events.get ⟨i, h⟩)
  | [], _, h => by simp at h
  | e :: rest, 0, _ => by
    rw [List.flatMap_cons]
    simp [rowArgs]
  | e :: rest, i + 1, h => by
    have h' : i < rest.length := by simpa using h
    have hd : (rowArgs e ++ rest.flatMap rowArgs).drop (8 * (i + 1)) =
        (rest.flatMap rowArgs).drop (8 * i) := by
      have : 8 * (i + 1) = (rowArgs e).length + 8 * i := by
        simp only [rowArgs, List.length_cons, List.length_nil]; omega
      rw [this, List.drop_append]
    rw [List.flatMap_cons, hd, flatMap_rowArgs_slice rest i h']
    rfl

/-- C13: for every sequence of events (in particular of `n >= 1` events)
`buildInsertBatchSQL` returns exactly `8 * n` arguments, those at positions `8i+1` to `8i+8`
(counted from 1) being the dedup key, event name, channel, campaign id, user id, timestamp,
tags and metadata text of event `i`, in that order; the statement is the `INSERT` header, the
`n` value tuples separated by a comma and a line break, and the `ON CONFLICT ... DO NOTHING
RETURNING dedup_key` footer, tuple `i` naming the placeholders `$(8i+1)` to `$(8i+8)` in
increasing order with the campaign id placeholder wrapped as `NULLIF($k,'')`. -/
theorem C13_buildInsertBatchSQL_rows (events : List Event) :
    (buildInsertBatchSQL events).2.length = 8 * events.length ∧
      (∀ (i : Nat) (h : i < events.length),
        ((buildInsertBatchSQL events).2.drop (8 * i)).take 8 =
          [SQLArg.str (events.get ⟨i, h⟩).DedupKey, SQLArg.str (events.get ⟨i, h⟩).EventName,
            SQLArg.str (events.get ⟨i, h⟩).Channel, SQLArg.str (events.get ⟨i, h⟩).CampaignID,
            SQLArg.str (events.get ⟨i, h⟩).UserID, SQLArg.time (events.get ⟨i, h⟩).Timestamp,
            SQLArg.strs (events.get ⟨i, h⟩).Tags,
            SQLArg.text (toJSONBText (events.get ⟨i, h⟩).Metadata)]) ∧
      (buildInsertBatchSQL events).1 =
        ("\n\tINSERT INTO events (dedup_key, event_name, channel, campaign_id, " ++
            "user_id, ts, tags, metadata)\n\tVALUES\n").toList ++
          List.intercalate ",\n".toList ((List.range events.length).map valueTuple) ++
          "\n\tON CONFLICT (dedup_key) DO NOTHING\n\tRETURNING dedup_key;\n".toList := by
  rw [buildInsertBatchSQL_eq]
  exact ⟨flatMap_rowArgs_length events, fun i h => flatMap_rowArgs_slice events i h, rfl⟩

/-- C13 on two events: the second tuple names the placeholders 9 to 16, and the sixteen
arguments are the two rows. -/
theorem C13_buildInsertBatchSQL_rows_witness :
    buildInsertBatchSQL [clickEvent, { clickEvent with CampaignID := "c1".toList }] =
      (("\n\tINSERT INTO events (dedup_key, event_name, channel, campaign_id, " ++
          "user_id, ts, tags, metadata)\n\tVALUES\n" ++
          "($1,$2,$3,NULLIF($4,''),$5,$6,$7,$8::jsonb),\n" ++
          "($9,$10,$11,NULLIF($12,''),$13,$14,$15,$16::jsonb)" ++
          "\n\tON CONFLICT (dedup_key) DO NOTHING\n\tRETURNING dedup_key;\n").toList,
        rowArgs clickEvent ++ rowArgs { clickEvent with CampaignID := "c1".toList }) ∧
      ((buildInsertBatchSQL [clickEvent, { clickEvent with CampaignID := "c1".toList }]).2.drop
          (8 * 1)).take 8 = rowArgs { clickEvent with CampaignID := "c1".toList } :=
  ⟨by rfl,
    (C13_buildInsertBatchSQL_rows [clickEvent, { clickEvent with CampaignID := "c1".toList }]).2.1
      1 (by decide)⟩

/-! ## Facts about the writer loop -/

theorem NewSingleWriter_maxBatch_pos (cfg : ingest.Config) :
    1 ≤ (NewSingleWriter cfg).cfg.MaxBatch := by
  unfold NewSingleWriter
  dsimp only
  split_ifs <;> simp_all <;> omega

theorem NewSingleWriter_of_pos {cfg : ingest.Config} (h1 : 0 < cfg.BatchWindow)
    (h2 : 0 < cfg.MaxBatch) (h3 : 0 < cfg.QueueSize) : (NewSingleWriter cfg).cfg = cfg := by
  unfold NewSingleWriter
  have e1 : ¬ cfg.BatchWindow ≤ 0 := by omega
  have e2 : ¬ cfg.MaxBatch ≤ 0 := by omega
  have e3 : ¬ cfg.QueueSize ≤ 0 := by omega
  simp [e1, e2, e3]

theorem loopInvariant_init (cfg : ingest.Config) (hc : 1 ≤ cfg.MaxBatch) :
    LoopInvariant cfg LoopState.init := by
  refine ⟨fun _ => ?_, fun _ _ => ?_, fun b hb => ?_, fun _ => rfl⟩
  · show ((0 : Nat) : Int) < cfg.MaxBatch
    omega
  · simp [LoopState.init]
  · simp [LoopState.init] at hb

theorem flushed_append_bounds {cfg : ingest.Config} {fl : List (List request)}
    {b : List request} (h : ∀ x ∈ fl, 1 ≤ x.length ∧ (x.length : Int) ≤ cfg.MaxBatch)
    (h1 : 1 ≤ b.length) (h2 : (b.length : Int) ≤ cfg.MaxBatch) :
    ∀ x ∈ fl ++ [b], 1 ≤ x.length ∧ (x.length : Int) ≤ cfg.MaxBatch := by
  intro x hx
  rcases List.mem_append.1 hx with hx | hx
  · exact h x hx
  · rw [List.mem_singleton.1 hx]; exact ⟨h1, h2⟩

/-- Every iteration of the loop keeps the invariant. -/
theorem loopStep_invariant (cfg : ingest.Config) (hc : 1 ≤ cfg.MaxBatch) (s s' : LoopState)
    (e : LoopEvent) (hi : LoopInvariant cfg s) (h : SingleWriter.loopStep cfg s e = some s') :
    LoopInvariant cfg s' := by
  obtain ⟨i1, i2, i3, i4⟩ := hi
  unfold SingleWriter.loopStep at h
  by_cases hh : s.halted = true
  · simp [hh] at h
  have hh' : s.halted = false := by simpa using hh
  have hlen := i1 hh'
  simp only [hh', Bool.false_eq_true, if_false] at h
  by_cases hs : s.stopping = true
  · simp only [hs, if_true] at h
    cases e with
    | stop => simp [SingleWriter.drainStep] at h
    | timer => simp [SingleWriter.drainStep] at h
    | recv req =>
      simp only [SingleWriter.drainStep, List.length_append, List.length_singleton] at h
      split at h
      · rename_i hge
        cases h
        refine ⟨fun _ => ?_, fun _ hst => ?_, ?_, fun _ => i4 hs⟩
        · show ((0 : Nat) : Int) < cfg.MaxBatch
          omega
        · simp [hs] at hst
        · apply flushed_append_bounds i3
          · simp
          · simp only [List.length_append, List.length_singleton]; push_cast at hge ⊢; omega
      · rename_i hlt
        cases h
        refine ⟨fun _ => ?_, fun _ hst => ?_, i3, fun _ => i4 hs⟩
        · simp only [List.length_append, List.length_singleton]; push_cast at hlt ⊢; omega
        · simp [hs] at hst
    | quiet =>
      simp only [SingleWriter.drainStep] at h
      split at h
      · rename_i hpos
        cases h
        refine ⟨fun hf => by simp at hf, fun hf => by simp at hf, ?_, fun _ => i4 hs⟩
        exact flushed_append_bounds i3 hpos (by omega)
      · cases h
        exact ⟨fun hf => by simp at hf, fun hf => by simp at hf, i3, fun _ => i4 hs⟩
  · have hs' : s.stopping = false := by simpa using hs
    have hiff := i2 hh' hs'
    simp only [hs', Bool.false_eq_true, if_false] at h
    cases e with
    | quiet => simp [SingleWriter.steadyStep] at h
    | stop =>
      simp only [SingleWriter.steadyStep] at h
      cases h
      refine ⟨fun _ => hlen, fun _ hst => by simp at hst, i3, fun _ => ?_⟩
      cases s.timerArmed <;> rfl
    | timer =>
      simp only [SingleWriter.steadyStep] at h
      split at h
      · split at h
        · rename_i hpos
          cases h
          refine ⟨fun _ => ?_, fun _ _ => by simp, ?_, fun _ => rfl⟩
          · show ((0 : Nat) : Int) < cfg.MaxBatch
            omega
          · exact flushed_append_bounds i3 hpos (by omega)
        · rename_i hpos
          cases h
          have hnil : s.batch = [] := by
            cases hb : s.batch with
            | nil => rfl
            | cons a l => rw [hb] at hpos; simp at hpos
          exact ⟨fun _ => hlen, fun _ _ => by simp [hnil], i3, fun _ => rfl⟩
      · cases h
    | recv req =>
      simp only [SingleWriter.steadyStep, List.length_append, List.length_singleton] at h
      split at h
      · rename_i hge
        cases h
        refine ⟨fun _ => ?_, fun _ _ => ?_, ?_, fun hst => ?_⟩
        · show ((0 : Nat) : Int) < cfg.MaxBatch
          omega
        · cases s.timerArmed <;> simp
        · apply flushed_append_bounds i3
          · simp
          · simp only [List.length_append, List.length_singleton]; push_cast at hge ⊢; omega
        · exact absurd hst hs
      · rename_i hlt
        cases h
        refine ⟨fun _ => ?_, fun _ _ => ?_, i3, fun hst => ?_⟩
        · simp only [List.length_append, List.length_singleton]; push_cast at hlt ⊢; omega
        · cases s.timerArmed <;> simp
        · exact absurd hst hs

/-- Every state that the loop reaches satisfies the invariant. -/
theorem loopRun_invariant (cfg : ingest.Config) (hc : 1 ≤ cfg.MaxBatch) :
    ∀ (evs : List LoopEvent) (s s' : LoopState), LoopInvariant cfg s →
      SingleWriter.loopRun cfg s evs = some s' → LoopInvariant cfg s'
  | [], s, s', hi, h => by
    simp only [SingleWriter.loopRun, Option.some.injEq] at h
    exact h ▸ hi
  | e :: es, s, s', hi, h => by
    unfold SingleWriter.loopRun at h
    cases hstep : SingleWriter.loopStep cfg s e with
    | none => rw [hstep] at h; cases h
    | some s1 =>
      rw [hstep] at h
      exact loopRun_invariant cfg hc es s1 s' (loopStep_invariant cfg hc s s1 e hi hstep) h

theorem loopRun_append (cfg : ingest.Config) (s : LoopState) (a b : List LoopEvent) :
    SingleWriter.loopRun cfg s (a ++ b) =
      (SingleWriter.loopRun cfg s a).bind fun s' => SingleWriter.loopRun cfg s' b := by
  induction a generalizing s with
  | nil => rfl
  | cons e es ih =>
    simp only [List.cons_append, SingleWriter.loopRun]
    cases SingleWriter.loopStep cfg s e with
    | none => rfl
    | some s1 => exact ih s1

/-- Arrivals that do not fill the batch are appended to it, and arm the timer. -/
theorem loopRun_recv_below (cfg : ingest.Config) (reqs : List request) (batch : List request)
    (armed : Bool) (fl : List (List request))
    (h : ((batch.length + reqs.length : Nat) : Int) < cfg.MaxBatch) :
    SingleWriter.loopRun cfg
        { batch := batch, timerArmed := armed, stopping := false, halted := false,
          flushed := fl } (reqs.map LoopEvent.recv) =
      some { batch := batch ++ reqs, timerArmed := if reqs = [] then armed else true,
             stopping := false, halted := false, flushed := fl } := by
  induction reqs generalizing batch armed with
  | nil => simp [SingleWriter.loopRun]
  | cons r rest ih =>
    have hlt : ¬ (((batch ++ [r]).length : Nat) : Int) ≥ cfg.MaxBatch := by
      simp only [List.length_append, List.length_cons, List.length_nil] at h ⊢
      omega
    have hstep : SingleWriter.loopStep cfg
        { batch := batch, timerArmed := armed, stopping := false, halted := false,
          flushed := fl } (LoopEvent.recv r) =
        some { batch := batch ++ [r], timerArmed := true, stopping := false, halted := false,
               flushed := fl } := by
      simp only [SingleWriter.loopStep, SingleWriter.steadyStep, Bool.false_eq_true, if_false,
        hlt]
      cases armed <;> rfl
    rw [List.map_cons, SingleWriter.loopRun, hstep]
    have h' : (((batch ++ [r]).length + rest.length : Nat) : Int) < cfg.MaxBatch := by
      simp only [List.length_append, List.length_cons, List.length_nil] at h ⊢
      omega
    dsimp only
    rw [ih (batch ++ [r]) true h']
    simp

/-- The arrival that fills the batch is flushed with it, in the same step. -/
theorem loopStep_recv_full (cfg : ingest.Config) (batch : List request) (armed : Bool)
    (fl : List (List request)) (r : request)
    (h : (((batch ++ [r]).length : Nat) : Int) ≥ cfg.MaxBatch) :
    SingleWriter.loopStep cfg
        { batch := batch, timerArmed := armed, stopping := false, halted := false,
          flushed := fl } (LoopEvent.recv r) =
      some { batch := [], timerArmed := false, stopping := false, halted := false,
             flushed := fl ++ [batch ++ [r]] } := by
  simp only [SingleWriter.loopStep, SingleWriter.steadyStep, Bool.false_eq_true, if_false, h,
    if_true]
  cases armed <;> rfl

/-- From the initial state, `max_batch` arrivals end in one flush of all of them. -/
theorem loopRun_fill (cfg : ingest.Config) (front : List request) (last : request)
    (h : ((front.length + 1 : Nat) : Int) = cfg.MaxBatch) :
    SingleWriter.loopRun cfg LoopState.init ((front ++ [last]).map LoopEvent.recv) =
      some { batch := [], timerArmed := false, stopping := false, halted := false,
             flushed := [front ++ [last]] } := by
  have hb : (((([] : List request).length + front.length : Nat)) : Int) < cfg.MaxBatch := by
    simp only [List.length_nil, Nat.zero_add]
    omega
  have hge : (((([] ++ front) ++ [last] : List request).length : Nat) : Int) ≥ cfg.MaxBatch := by
    simp only [List.nil_append, List.length_append, List.length_cons, List.length_nil]
    omega
  rw [List.map_append, loopRun_append, LoopState.init, loopRun_recv_below cfg front [] false [] hb]
  simp only [Option.bind, List.map_cons, List.map_nil, SingleWriter.loopRun]
  rw [loopStep_recv_full cfg ([] ++ front) _ [] last hge]
  simp

/-! ## Claims C14, C15, C19: starting and configuring the writer -/

/-- C14 fails on the code: `Start` runs `go w.loop()` without looking at the writer, so a
second call starts a second loop.  After two calls of `Start` on a new writer two loops run,
both in their initial state and both reading the same queue. -/
theorem C14_second_Start_spawns_second_loop (cfg : ingest.Config) :
    (NewSingleWriter cfg).loops = [] ∧
      (NewSingleWriter cfg).Start.loops = [LoopState.init] ∧
      (NewSingleWriter cfg).Start.Start.loops = [LoopState.init, LoopState.init] ∧
      (NewSingleWriter cfg).Start.Start.loops.length = 2 := by
  refine ⟨rfl, rfl, rfl, rfl⟩

/-- C15 fails on the code: with `WRITER_MAX_BATCH=10000` the configuration passes
`config.validate`, which only asks for a positive `MaxBatch`; neither `app.Run` nor
`NewSingleWriter` lowers the value, so the effective `max_batch` is 10000.  The loop then
flushes 10000 requests at once, for which `buildInsertBatchSQL` makes 80000 positional
parameters. -/
theorem C15_max_batch_above_4000_accepted :
    config.Load bigBatchEnv =
        .ok { defaultConfig with Ingest := { defaultConfig.Ingest with MaxBatch := 10000 } } ∧
      config.validate
          { defaultConfig with Ingest := { defaultConfig.Ingest with MaxBatch := 10000 } } =
        none ∧
      (app.newWriter
          { defaultConfig with
            Ingest := { defaultConfig.Ingest with MaxBatch := 10000 } }).cfg.MaxBatch = 10000 ∧
      SingleWriter.loopRun
          (app.newWriter
            { defaultConfig with Ingest := { defaultConfig.Ingest with MaxBatch := 10000 } }).cfg
          LoopState.init
          ((List.replicate 10000 ({ ev := clickEvent, resp := 0 } : request)).map
            LoopEvent.recv) =
        some { batch := [], timerArmed := false, stopping := false, halted := false,
               flushed := [List.replicate 10000 { ev := clickEvent, resp := 0 }] } ∧
      (buildInsertBatchSQL
          ((List.replicate 10000 ({ ev := clickEvent, resp := 0 } : request)).map
            request.ev)).2.length = 80000 := by
  refine ⟨rfl, by decide, by decide, ?_, ?_⟩
  · have h := loopRun_fill
      (app.newWriter
        { defaultConfig with Ingest := { defaultConfig.Ingest with MaxBatch := 10000 } }).cfg
      (List.replicate 9999 { ev := clickEvent, resp := 0 }) { ev := clickEvent, resp := 0 }
      (by rw [List.length_replicate]; decide)
    rw [← List.replicate_succ'] at h
    exact h
  · rw [buildInsertBatchSQL_eq]
    show (List.flatMap _ _).length = 80000
    rw [flatMap_rowArgs_length, List.length_map, List.length_replicate]

/-- C19 fails on the code for `batch_window`: with `WRITER_BATCH_WINDOW`, `WRITER_MAX_BATCH`
and `WRITER_QUEUE_SIZE` unset, `config.Load` sets `BatchWindow` to 500 ms, which is positive,
so the 2 ms fall-backs of `app.Run` and `NewSingleWriter` are not used: the writer runs with
`batch_window` = 500 ms (500000000 ns, not 2000000 ns), `max_batch` = 800 and
`queue_size` = 50000. -/
theorem C19_default_batch_window_is_500ms :
    config.Load bareEnv = .ok defaultConfig ∧
      (app.newWriter defaultConfig).cfg =
        { BatchWindow := 500 * Millisecond, MaxBatch := 800, QueueSize := 50000 } ∧
      (app.newWriter defaultConfig).cfg.BatchWindow = 500000000 ∧
      (app.newWriter defaultConfig).cfg.BatchWindow ≠ 2 * Millisecond ∧
      (NewSingleWriter { BatchWindow := 0, MaxBatch := 0, QueueSize := 0 }).cfg.BatchWindow =
        2 * Millisecond ∧
      app.defaultDuration 0 (2 * Millisecond) = 2 * Millisecond := by
  refine ⟨rfl, by decide, by decide, by decide, by decide, by decide⟩

/-! ## Claim C20: the state invariant of the writer loop -/

/-- C20: for a writer made by `NewSingleWriter`, every state that its loop reaches from the
initial state, whatever its `select` statements choose, satisfies: while the loop runs the
pending batch holds fewer than `max_batch` requests; while it runs and is not stopping the
timer is armed exactly when the batch is non-empty; every flush so far, steady or draining,
got at least 1 and at most `max_batch` requests; and an arriving request that brings the
batch to `max_batch` is flushed with the batch in that very step, while any other arrival
is only appended. -/
theorem C20_loop_state_invariant (cfg0 : ingest.Config) (evs : List LoopEvent) (s : LoopState)
    (h : SingleWriter.loopRun (NewSingleWriter cfg0).cfg LoopState.init evs = some s) :
    (s.halted = false → (s.batch.length : Int) < (NewSingleWriter cfg0).cfg.MaxBatch) ∧
      (s.halted = false → s.stopping = false → (s.timerArmed = true ↔ s.batch ≠ [])) ∧
      (∀ b ∈ s.flushed, 1 ≤ b.length ∧ (b.length : Int) ≤ (NewSingleWriter cfg0).cfg.MaxBatch) ∧
      ∀ (r : request) (s' : LoopState),
        SingleWriter.loopStep (NewSingleWriter cfg0).cfg s (LoopEvent.recv r) = some s' →
          (((s.batch.length : Int) + 1 = (NewSingleWriter cfg0).cfg.MaxBatch →
              s'.batch = [] ∧ s'.timerArmed = false ∧
                s'.flushed = s.flushed ++ [s.batch ++ [r]]) ∧
            ((s.batch.length : Int) + 1 < (NewSingleWriter cfg0).cfg.MaxBatch →
              s'.batch = s.batch ++ [r] ∧ s'.flushed = s.flushed)) := by
  have hc := NewSingleWriter_maxBatch_pos cfg0
  obtain ⟨i1, i2, i3, i4⟩ := loopRun_invariant _ hc evs _ s (loopInvariant_init _ hc) h
  refine ⟨i1, i2, i3, ?_⟩
  intro r s' hstep
  unfold SingleWriter.loopStep at hstep
  by_cases hh : s.halted = true
  · simp [hh] at hstep
  have hh' : s.halted = false := by simpa using hh
  simp only [hh', Bool.false_eq_true, if_false] at hstep
  by_cases hs : s.stopping = true
  · simp only [hs, if_true, SingleWriter.drainStep, List.length_append,
      List.length_singleton] at hstep
    split at hstep
    · rename_i hge
      cases hstep
      refine ⟨fun _ => ⟨rfl, ?_, rfl⟩, fun hlt => ?_⟩
      · exact i4 hs
      · push_cast at hge; omega
    · rename_i hlt
      cases hstep
      refine ⟨fun heq => ?_, fun _ => ⟨rfl, rfl⟩⟩
      push_cast at hlt; omega
  · have hs' : s.stopping = false := by simpa using hs
    simp only [hs', Bool.false_eq_true, if_false, SingleWriter.steadyStep, List.length_append,
      List.length_singleton] at hstep
    split at hstep
    · rename_i hge
      cases hstep
      refine ⟨fun _ => ⟨rfl, ?_, rfl⟩, fun hlt => ?_⟩
      · cases s.timerArmed <;> rfl
      · push_cast at hge; omega
    · rename_i hlt
      cases hstep
      refine ⟨fun heq => ?_, fun _ => ⟨rfl, rfl⟩⟩
      push_cast at hlt; omega

/-- C20 on a run with `max_batch` = 2: two arrivals (flush at full batch), a third arrival
and the timer (flush of one), a fourth arrival, the stop signal and the quiet window (flush
of one, halt). -/
theorem C20_loop_state_invariant_witness :
    SingleWriter.loopRun (NewSingleWriter { BatchWindow := 0, MaxBatch := 2, QueueSize := 0 }).cfg
        LoopState.init
        [.recv { ev := clickEvent, resp := 1 }, .recv { ev := clickEvent, resp := 2 },
          .recv { ev := clickEvent, resp := 3 }, .timer, .recv { ev := clickEvent, resp := 4 },
          .stop, .quiet] =
      some { batch := [{ ev := clickEvent, resp := 4 }], timerArmed := false, stopping := true,
             halted := true,
             flushed := [[{ ev := clickEvent, resp := 1 }, { ev := clickEvent, resp := 2 }],
               [{ ev := clickEvent, resp := 3 }], [{ ev := clickEvent, resp := 4 }]] } ∧
      ∀ b ∈ [[({ ev := clickEvent, resp := 1 } : request), { ev := clickEvent, resp := 2 }],
          [{ ev := clickEvent, resp := 3 }], [{ ev := clickEvent, resp := 4 }]],
        1 ≤ b.length ∧
          (b.length : Int) ≤
            (NewSingleWriter { BatchWindow := 0, MaxBatch := 2, QueueSize := 0 }).cfg.MaxBatch :=
  ⟨by decide,
    (C20_loop_state_invariant { BatchWindow := 0, MaxBatch := 2, QueueSize := 0 }
      [.recv { ev := clickEvent, resp := 1 }, .recv { ev := clickEvent, resp := 2 },
        .recv { ev := clickEvent, resp := 3 }, .timer, .recv { ev := clickEvent, resp := 4 },
        .stop, .quiet]
      { batch := [{ ev := clickEvent, resp := 4 }], timerArmed := false, stopping := true,
        halted := true,
        flushed := [[{ ev := clickEvent, resp := 1 }, { ev := clickEvent, resp := 2 }],
          [{ ev := clickEvent, resp := 3 }], [{ ev := clickEvent, resp := 4 }]] }
      (by decide)).2.2.1⟩

/-! ## Facts about the two loops of `PostEventsBulk` -/

theorem bulkValidate_eq (J : JSONLib) (now : Time) (payloads : List EventPayload)
    (events : List Event) (invalid : Int) :
    bulkValidate J now payloads events invalid =
      (events ++ validEvents J now payloads, invalid + invalidCount J now payloads) := by
  induction payloads generalizing events invalid with
  | nil => simp [bulkValidate, validEvents, invalidCount]
  | cons p rest ih =>
    unfold bulkValidate
    cases hv : p.Validate J now with
    | some err =>
      simp only [ih, validEvents, invalidCount, List.filterMap_cons, List.filter_cons, hv,
        if_true, List.length_cons]
      congr 1
      push_cast
      ring
    | none =>
      cases he : p.ToEvent J now with
      | error err =>
        simp only [ih, validEvents, invalidCount, List.filterMap_cons, List.filter_cons, hv, he,
          if_true, List.length_cons]
        congr 1
        push_cast
        ring
      | ok ev =>
        simp only [ih, validEvents, invalidCount, List.filterMap_cons, List.filter_cons, hv, he,
          List.append_assoc, List.singleton_append]
        simp

theorem validEvents_length_add (J : JSONLib) (now : Time) (payloads : List EventPayload) :
    ((validEvents J now payloads).length : Int) + invalidCount J now payloads =
      payloads.length := by
  induction payloads with
  | nil => simp [validEvents, invalidCount]
  | cons p rest ih =>
    unfold validEvents invalidCount at ih ⊢
    cases hv : p.Validate J now with
    | some err =>
      simp only [List.filterMap_cons, List.filter_cons, hv, if_true, List.length_cons]
      push_cast
      omega
    | none =>
      cases he : p.ToEvent J now with
      | error err =>
        simp only [List.filterMap_cons, List.filter_cons, hv, he, if_true, List.length_cons]
        push_cast
        omega
      | ok ev =>
        simp only [List.filterMap_cons, List.filter_cons, hv, he, List.length_cons]
        simp only [Bool.false_eq_true, if_false]
        push_cast
        omega

theorem chunk_append_drop (events : List Event) (start : Nat) :
    (events.take (if start + chunkSize > events.length then events.length
        else start + chunkSize)).drop start ++ events.drop (start + chunkSize) =
      events.drop start := by
  split
  · rename_i hgt
    have h1 : events.take events.length = events := List.take_of_length_le (le_refl _)
    have h2 : events.drop (start + chunkSize) = [] := List.drop_eq_nil_of_le (by omega)
    rw [h1, h2, List.append_nil]
  · rename_i hle
    have h1 : (events.take (start + chunkSize)).drop start =
        (events.drop start).take chunkSize := by
      rw [List.drop_take, Nat.add_sub_cancel_left]
    have h2 : events.drop (start + chunkSize) = (events.drop start).drop chunkSize := by
      rw [List.drop_drop, Nat.add_comm]
    rw [h1, h2, List.take_append_drop]

theorem chunk_length (events : List Event) (start : Nat) (h : start < events.length) :
    1 ≤ ((events.take (if start + chunkSize > events.length then events.length
        else start + chunkSize)).drop start).length ∧
      ((events.take (if start + chunkSize > events.length then events.length
        else start + chunkSize)).drop start).length ≤ chunkSize := by
  rw [List.length_drop, List.length_take]
  unfold chunkSize at *
  split <;> omega

/-- What the chunk loop does, read off the record of the store calls. -/
theorem bulkInsert_record {σ : Type} (repo : batchRepo σ) (events : List Event) :
    ∀ (fuel start : Nat)
      (acc : BulkAcc (σ × List (List Event × Except GoError (Finset Str)))),
      events.length ≤ start + chunkSize * fuel →
      ∃ L : List (List Event × Except GoError (Finset Str)),
        (bulkInsert (recordCalls repo) fuel start events acc).store.2 = acc.store.2 ++ L ∧
        (L.map Prod.fst).flatten = events.drop start ∧
        (∀ c ∈ L, 1 ≤ c.1.length ∧ c.1.length ≤ chunkSize) ∧
        L.length = (events.length - start + (chunkSize - 1)) / chunkSize ∧
        (bulkInsert (recordCalls repo) fuel start events acc).inserted =
          acc.inserted + insertedTotal L ∧
        (bulkInsert (recordCalls repo) fuel start events acc).batchFail =
          acc.batchFail + failedRows L ∧
        (bulkInsert (recordCalls repo) fuel start events acc).inserted +
            (bulkInsert (recordCalls repo) fuel start events acc).duplicate +
            (bulkInsert (recordCalls repo) fuel start events acc).batchFail =
          acc.inserted + acc.duplicate + acc.batchFail + ((events.length - start : Nat) : Int)
  | 0, start, acc, h => by
    refine ⟨[], by simp [bulkInsert], ?_, by simp, ?_, by simp [bulkInsert, insertedTotal],
      by simp [bulkInsert, failedRows], ?_⟩
    · rw [List.drop_eq_nil_of_le (by omega)]; rfl
    · unfold chunkSize at *
      simp only [List.length_nil]
      omega
    · have : events.length - start = 0 := by omega
      simp [bulkInsert, this]
  | fuel + 1, start, acc, h => by
    unfold bulkInsert
    by_cases hlt : start < events.length
    · simp only [hlt, if_true]
      have hnext : events.length ≤ start + chunkSize + chunkSize * fuel := by
        rw [Nat.mul_succ] at h; omega
      have hcl := chunk_length events start hlt
      have hcat := chunk_append_drop events start
      have hcount : (events.length - start + (chunkSize - 1)) / chunkSize =
          (events.length - (start + chunkSize) + (chunkSize - 1)) / chunkSize + 1 := by
        unfold chunkSize at *
        omega
      have hrem : ((events.length - start : Nat) : Int) =
          (((events.take (if start + chunkSize > events.length then events.length
            else start + chunkSize)).drop start).length : Int) +
          ((events.length - (start + chunkSize) : Nat) : Int) := by
        rw [List.length_drop, List.length_take]
        unfold chunkSize at *
        split <;> omega
      generalize (events.take (if start + chunkSize > events.length then events.length
        else start + chunkSize)).drop start = chunk at hcl hcat hrem ⊢
      cases hres : (repo acc.store.1 chunk).1 with
      | error err =>
        have hrc : (recordCalls repo acc.store chunk).1 = .error err := hres
        simp only [hrc]
        obtain ⟨L, l1, l2, l3, l4, l5, l6, l7⟩ := bulkInsert_record repo events fuel
          (start + chunkSize)
          { acc with
            store := (recordCalls repo acc.store chunk).2
            batchFail := acc.batchFail + chunk.length }
          hnext
        refine ⟨(chunk, .error err) :: L, ?_, ?_, ?_, ?_, ?_, ?_, ?_⟩
        · rw [l1]; simp [recordCalls, hres]
        · simp only [List.map_cons, List.flatten_cons, l2]; exact hcat
        · intro c hc
          rcases List.mem_cons.1 hc with hc | hc
          · rw [hc]; exact hcl
          · exact l3 c hc
        · rw [List.length_cons, l4, hcount]
        · rw [l5]; simp [insertedTotal]
        · rw [l6]; simp only [failedRows]; ring
        · rw [l7, hrem]; ring
      | ok keys =>
        have hrc : (recordCalls repo acc.store chunk).1 = .ok keys := hres
        simp only [hrc]
        obtain ⟨L, l1, l2, l3, l4, l5, l6, l7⟩ := bulkInsert_record repo events fuel
          (start + chunkSize)
          { store := (recordCalls repo acc.store chunk).2
            inserted := acc.inserted + keys.card
            duplicate := acc.duplicate + (chunk.length - keys.card)
            batchFail := acc.batchFail }
          hnext
        refine ⟨(chunk, .ok keys) :: L, ?_, ?_, ?_, ?_, ?_, ?_, ?_⟩
        · rw [l1]; simp [recordCalls, hres]
        · simp only [List.map_cons, List.flatten_cons, l2]; exact hcat
        · intro c hc
          rcases List.mem_cons.1 hc with hc | hc
          · rw [hc]; exact hcl
          · exact l3 c hc
        · rw [List.length_cons, l4, hcount]
        · rw [l5]; simp only [insertedTotal]; ring
        · rw [l6]; simp [failedRows]
        · rw [l7, hrem]; ring
    · simp only [hlt, if_false]
      have h0 : events.length - start = 0 := by omega
      refine ⟨[], by simp, ?_, by simp, ?_, by simp [insertedTotal], by simp [failedRows], ?_⟩
      · rw [List.drop_eq_nil_of_le (by omega)]; rfl
      · unfold chunkSize at *
        simp only [List.length_nil]
        omega
      · simp [h0]

/-- Recording the calls does not change what the chunk loop computes. -/
theorem bulkInsert_recordCalls {σ : Type} (repo : batchRepo σ) (events : List Event) :
    ∀ (fuel start : Nat)
      (acc : BulkAcc (σ × List (List Event × Except GoError (Finset Str)))),
      (bulkInsert (recordCalls repo) fuel start events acc).store.1 =
          (bulkInsert repo fuel start events
            { store := acc.store.1, inserted := acc.inserted, duplicate := acc.duplicate,
              batchFail := acc.batchFail }).store ∧
        (bulkInsert (recordCalls repo) fuel start events acc).inserted =
          (bulkInsert repo fuel start events
            { store := acc.store.1, inserted := acc.inserted, duplicate := acc.duplicate,
              batchFail := acc.batchFail }).inserted ∧
        (bulkInsert (recordCalls repo) fuel start events acc).duplicate =
          (bulkInsert repo fuel start events
            { store := acc.store.1, inserted := acc.inserted, duplicate := acc.duplicate,
              batchFail := acc.batchFail }).duplicate ∧
        (bulkInsert (recordCalls repo) fuel start events acc).batchFail =
          (bulkInsert repo fuel start events
            { store := acc.store.1, inserted := acc.inserted, duplicate := acc.duplicate,
              batchFail := acc.batchFail }).batchFail
  | 0, _, _ => ⟨rfl, rfl, rfl, rfl⟩
  | fuel + 1, start, acc => by
    unfold bulkInsert
    by_cases hlt : start < events.length
    · simp only [hlt, if_true]
      generalize (events.take (if start + chunkSize > events.length then events.length
        else start + chunkSize)).drop start = chunk
      cases hres : (repo acc.store.1 chunk).1 with
      | error err =>
        have hrc : (recordCalls repo acc.store chunk).1 = .error err := hres
        simp only [hrc]
        exact bulkInsert_recordCalls repo events fuel (start + chunkSize) _
      | ok keys =>
        have hrc : (recordCalls repo acc.store chunk).1 = .ok keys := hres
        simp only [hrc]
        exact bulkInsert_recordCalls repo events fuel (start + chunkSize) _
    · simp only [hlt, if_false, and_self]

/-! ## Claims C17 and C18: the bulk endpoint -/

/-- Closed form of `PostEventsBulk` on a decoded, non-empty payload array. -/
theorem PostEventsBulk_ok {σ : Type} (J : JSONLib) (now : Time) (repo : batchRepo σ) (st : σ)
    (payloads : List EventPayload) (hne : payloads ≠ []) :
    PostEventsBulk J now repo st "POST" (.ok payloads) =
      if (validEvents J now payloads).length = 0 then
        (.ok { received := payloads.length, processed := 0, inserted := 0, duplicate := 0,
               invalid := invalidCount J now payloads, batch_fail := 0 }, st)
      else
        (.ok { received := payloads.length
               processed := (validEvents J now payloads).length
               inserted := (bulkInsert repo (validEvents J now payloads).length 0
                 (validEvents J now payloads)
                 { store := st, inserted := 0, duplicate := 0, batchFail := 0 }).inserted
               duplicate := (bulkInsert repo (validEvents J now payloads).length 0
                 (validEvents J now payloads)
                 { store := st, inserted := 0, duplicate := 0, batchFail := 0 }).duplicate
               invalid := invalidCount J now payloads
               batch_fail := (bulkInsert repo (validEvents J now payloads).length 0
                 (validEvents J now payloads)
                 { store := st, inserted := 0, duplicate := 0, batchFail := 0 }).batchFail },
          (bulkInsert repo (validEvents J now payloads).length 0 (validEvents J now payloads)
            { store := st, inserted := 0, duplicate := 0, batchFail := 0 }).store) := by
  have hl : ¬ payloads.length = 0 := by
    rw [List.length_eq_zero]; exact hne
  unfold PostEventsBulk
  simp only [ne_eq, not_true_eq_false, if_false, hl, bulkValidate_eq, List.nil_append, zero_add]

/-- C17: for a bulk request with a non-empty payload array and any store, the handler
answers 200 with counters such that `received` is the number of payloads,
`received = processed + invalid` and `processed = inserted + duplicate + batch_fail`, where
`invalid` counts the payloads that fail `Validate` (or `ToEvent`), `processed` the valid
ones, `inserted` is the total number of keys the store reported in its successful calls and
`batch_fail` the total number of rows of its failed calls (read off a record of the calls,
which does not change the answer).  Another request with the same valid events, whatever
invalid payloads it carries, gets the same `processed`, `inserted`, `duplicate` and
`batch_fail`. -/
theorem C17_bulk_counters {σ : Type} (J : JSONLib) (now : Time) (repo : batchRepo σ) (st : σ)
    (payloads : List EventPayload) (hne : payloads ≠ []) :
    ∃ (counts : BulkCounts) (st' : σ)
      (log : List (List Event × Except GoError (Finset Str))),
      PostEventsBulk J now (recordCalls repo) (st, []) "POST" (.ok payloads) =
        (.ok counts, (st', log)) ∧
      PostEventsBulk J now repo st "POST" (.ok payloads) = (.ok counts, st') ∧
      counts.received = payloads.length ∧
      counts.received = counts.processed + counts.invalid ∧
      counts.processed = counts.inserted + counts.duplicate + counts.batch_fail ∧
      counts.invalid = invalidCount J now payloads ∧
      counts.processed = (validEvents J now payloads).length ∧
      counts.inserted = insertedTotal log ∧
      counts.batch_fail = failedRows log ∧
      ∀ payloads' : List EventPayload, payloads' ≠ [] →
        validEvents J now payloads' = validEvents J now payloads →
        ∃ counts' : BulkCounts,
          PostEventsBulk J now repo st "POST" (.ok payloads') = (.ok counts', st') ∧
          counts'.processed = counts.processed ∧ counts'.inserted = counts.inserted ∧
          counts'.duplicate = counts.duplicate ∧ counts'.batch_fail = counts.batch_fail := by
  have hsum := validEvents_length_add J now payloads
  have hrec := PostEventsBulk_ok J now (recordCalls repo) (st, []) payloads hne
  have hplain := PostEventsBulk_ok J now repo st payloads hne
  by_cases h0 : (validEvents J now payloads).length = 0
  · rw [if_pos h0] at hrec hplain
    refine ⟨{ received := payloads.length, processed := 0, inserted := 0, duplicate := 0,
              invalid := invalidCount J now payloads, batch_fail := 0 }, st, [], hrec, hplain,
      rfl, ?_, rfl, rfl, ?_, rfl, rfl, ?_⟩
    · show (payloads.length : Int) = 0 + invalidCount J now payloads
      rw [h0] at hsum
      rw [← hsum]; simp
    · show (0 : Int) = ((validEvents J now payloads).length : Int)
      rw [h0]; rfl
    · intro payloads' hne' hv
      have hplain' := PostEventsBulk_ok J now repo st payloads' hne'
      rw [hv, if_pos h0] at hplain'
      exact ⟨_, hplain', rfl, rfl, rfl, rfl⟩
  · rw [if_neg h0] at hrec hplain
    have hfuel : (validEvents J now payloads).length ≤
        0 + chunkSize * (validEvents J now payloads).length := by
      unfold chunkSize; omega
    obtain ⟨L, l1, _, _, _, l5, l6, l7⟩ := bulkInsert_record repo (validEvents J now payloads)
      (validEvents J now payloads).length 0
      { store := (st, []), inserted := 0, duplicate := 0, batchFail := 0 } hfuel
    obtain ⟨t1, t2, t3, t4⟩ := bulkInsert_recordCalls repo (validEvents J now payloads)
      (validEvents J now payloads).length 0
      { store := (st, []), inserted := 0, duplicate := 0, batchFail := 0 }
    rw [← t1, ← t2, ← t3, ← t4] at hplain
    have hpeer : ∀ payloads' : List EventPayload, payloads' ≠ [] →
        validEvents J now payloads' = validEvents J now payloads →
        PostEventsBulk J now repo st "POST" (.ok payloads') =
          (.ok { received := payloads'.length
                 processed := (validEvents J now payloads).length
                 inserted := (bulkInsert (recordCalls repo) (validEvents J now payloads).length 0
                   (validEvents J now payloads)
                   { store := (st, []), inserted := 0, duplicate := 0, batchFail := 0 }).inserted
                 duplicate := (bulkInsert (recordCalls repo) (validEvents J now payloads).length
                   0 (validEvents J now payloads)
                   { store := (st, []), inserted := 0, duplicate := 0, batchFail := 0 }).duplicate
                 invalid := invalidCount J now payloads'
                 batch_fail := (bulkInsert (recordCalls repo)
                   (validEvents J now payloads).length 0 (validEvents J now payloads)
                   { store := (st, []), inserted := 0, duplicate := 0,
                     batchFail := 0 }).batchFail },
            (bulkInsert (recordCalls repo) (validEvents J now payloads).length 0
              (validEvents J now payloads)
              { store := (st, []), inserted := 0, duplicate := 0, batchFail := 0 }).store.1) := by
      intro payloads' hne' hv
      have hplain' := PostEventsBulk_ok J now repo st payloads' hne'
      rw [hv, if_neg h0, ← t1, ← t2, ← t3, ← t4] at hplain'
      exact hplain'
    generalize bulkInsert (recordCalls repo) (validEvents J now payloads).length 0
      (validEvents J now payloads)
      { store := (st, []), inserted := 0, duplicate := 0, batchFail := 0 } = accR
      at hrec hplain hpeer l1 l5 l6 l7
    refine ⟨{ received := payloads.length, processed := (validEvents J now payloads).length,
              inserted := accR.inserted, duplicate := accR.duplicate,
              invalid := invalidCount J now payloads, batch_fail := accR.batchFail },
      accR.store.1, accR.store.2, hrec, hplain, rfl, ?_, ?_, rfl, rfl, ?_, ?_, ?_⟩
    · show (payloads.length : Int) =
        ((validEvents J now payloads).length : Int) + invalidCount J now payloads
      rw [hsum]
    · show ((validEvents J now payloads).length : Int) = _ + _ + _
      rw [l7]; simp
    · show accR.inserted = insertedTotal accR.store.2
      rw [l5, l1]; simp
    · show accR.batchFail = failedRows accR.store.2
      rw [l6, l1]; simp
    · intro payloads' hne' hv
      exact ⟨_, hpeer payloads' hne' hv, rfl, rfl, rfl, rfl⟩

set_option maxRecDepth 100000 in
/-- C17 on scenario 5 against the store of the spec, empty at first: received 5, processed
4, inserted 3, duplicate 1, invalid 1, batch_fail 0. -/
theorem C17_bulk_counters_witness :
    bulkScenario ≠ [] ∧
      (PostEventsBulk emptyObjectJSON 1700000000000000000 uniqueKeyStore ∅ "POST"
          (.ok bulkScenario)).1 =
        .ok { received := 5, processed := 4, inserted := 3, duplicate := 1, invalid := 1,
              batch_fail := 0 } ∧
      ∃ (counts : BulkCounts) (st' : Finset Str),
        PostEventsBulk emptyObjectJSON 1700000000000000000 uniqueKeyStore ∅ "POST"
            (.ok bulkScenario) = (.ok counts, st') ∧
          counts.received = counts.processed + counts.invalid ∧
          counts.processed = counts.inserted + counts.duplicate + counts.batch_fail := by
  refine ⟨by simp [bulkScenario], by rfl, ?_⟩
  obtain ⟨counts, st', log, _, h2, _, h4, h5, _⟩ :=
    C17_bulk_counters emptyObjectJSON 1700000000000000000 uniqueKeyStore ∅ bulkScenario
      (by simp [bulkScenario])
  exact ⟨counts, st', h2, h4, h5⟩

theorem validEvents_replicate (J : JSONLib) (now : Time) (p : EventPayload) (e : Event)
    (hv : p.Validate J now = none) (he : p.ToEvent J now = .ok e) (n : Nat) :
    validEvents J now (List.replicate n p) = List.replicate n e := by
  induction n with
  | zero => rfl
  | succ n ih =>
    unfold validEvents at ih ⊢
    rw [List.replicate_succ, List.filterMap_cons]
    simp only [hv, he, ih, List.replicate_succ]

/-- C18: for a bulk request with `n >= 1` valid events and any store, the handler calls
`InsertBatch` exactly `ceil(n / 4000)` times, every call gets at least 1 and at most 4000
events, and the chunks of the calls, concatenated in call order, are the valid events in
payload order, whatever the store answers. -/
theorem C18_bulk_chunks {σ : Type} (J : JSONLib) (now : Time) (repo : batchRepo σ) (st : σ)
    (payloads : List EventPayload) (hn : 1 ≤ (validEvents J now payloads).length) :
    ∃ (reply : BulkReply) (st' : σ)
      (log : List (List Event × Except GoError (Finset Str))),
      PostEventsBulk J now (recordCalls repo) (st, []) "POST" (.ok payloads) =
        (reply, (st', log)) ∧
      log.length = ((validEvents J now payloads).length + 3999) / 4000 ∧
      (∀ c ∈ log, 1 ≤ c.1.length ∧ c.1.length ≤ 4000) ∧
      (log.map Prod.fst).flatten = validEvents J now payloads := by
  have hne : payloads ≠ [] := by
    intro e
    rw [e] at hn
    simp [validEvents] at hn
  have h0 : ¬ (validEvents J now payloads).length = 0 := by omega
  have hfuel : (validEvents J now payloads).length ≤
      0 + chunkSize * (validEvents J now payloads).length := by
    unfold chunkSize; omega
  obtain ⟨L, l1, l2, l3, l4, _⟩ := bulkInsert_record repo (validEvents J now payloads)
    (validEvents J now payloads).length 0
    { store := (st, []), inserted := 0, duplicate := 0, batchFail := 0 } hfuel
  have hrec := PostEventsBulk_ok J now (recordCalls repo) (st, []) payloads hne
  rw [if_neg h0] at hrec
  generalize bulkInsert (recordCalls repo) (validEvents J now payloads).length 0
    (validEvents J now payloads)
    { store := (st, []), inserted := 0, duplicate := 0, batchFail := 0 } = accR
    at hrec l1
  rw [List.nil_append] at l1
  refine ⟨_, accR.store.1, accR.store.2, hrec, ?_, ?_, ?_⟩
  · rw [l1, l4]; rfl
  · rw [l1]; exact l3
  · rw [l1, l2]; rfl

/-- C18 on 4001 valid payloads: two calls. -/
theorem C18_bulk_chunks_witness :
    1 ≤ (validEvents emptyObjectJSON 1700000000000000000
        (List.replicate 4001 (clickPayload 1700000000))).length ∧
      ∃ (reply : BulkReply) (st' : Finset Str)
        (log : List (List Event × Except GoError (Finset Str))),
        PostEventsBulk emptyObjectJSON 1700000000000000000 (recordCalls uniqueKeyStore)
            (∅, []) "POST" (.ok (List.replicate 4001 (clickPayload 1700000000))) =
          (reply, (st', log)) ∧
        log.length = 2 ∧
        (log.map Prod.fst).flatten = List.replicate 4001 clickEvent := by
  have hv : validEvents emptyObjectJSON 1700000000000000000
      (List.replicate 4001 (clickPayload 1700000000)) = List.replicate 4001 clickEvent :=
    validEvents_replicate emptyObjectJSON 1700000000000000000 (clickPayload 1700000000)
      clickEvent (by decide) rfl 4001
  have hlen : 1 ≤ (validEvents emptyObjectJSON 1700000000000000000
      (List.replicate 4001 (clickPayload 1700000000))).length := by
    rw [hv, List.length_replicate]; decide
  obtain ⟨reply, st', log, h1, h2, _, h4⟩ :=
    C18_bulk_chunks emptyObjectJSON 1700000000000000000 uniqueKeyStore ∅
      (List.replicate 4001 (clickPayload 1700000000)) hlen
  refine ⟨hlen, reply, st', log, h1, ?_, ?_⟩
  · rw [h2, hv, List.length_replicate]
  · rw [h4, hv]

/-! ## Facts about the requests received and flushed by the writer loop -/

theorem dequeued_cons (e : LoopEvent) (es : List LoopEvent) :
    dequeued (e :: es) = dequeued [e] ++ dequeued es := by
  cases e <;> simp [dequeued]

/-- One iteration of `loop`: the flushed batches followed by the batch, before the step,
followed by the request that the step receives, are the flushed batches followed by the
batch after it; the step that returns leaves nothing outside the flushed batches. -/
theorem loopStep_dequeued (cfg : ingest.Config) (s s' : LoopState) (e : LoopEvent)
    (h : SingleWriter.loopStep cfg s e = some s') :
    s.halted = false ∧
      (s'.halted = false →
        s'.flushed.flatten ++ s'.batch = s.flushed.flatten ++ s.batch ++ dequeued [e]) ∧
      (s'.halted = true →
        s'.flushed.flatten = s.flushed.flatten ++ s.batch ++ dequeued [e]) := by
  unfold SingleWriter.loopStep at h
  by_cases hh : s.halted = true
  · simp [hh] at h
  have hh' : s.halted = false := by simpa using hh
  refine ⟨hh', ?_⟩
  simp only [hh', Bool.false_eq_true, if_false] at h
  by_cases hs : s.stopping = true
  · simp only [hs, if_true] at h
    cases e with
    | stop => simp [SingleWriter.drainStep] at h
    | timer => simp [SingleWriter.drainStep] at h
    | recv req =>
      simp only [SingleWriter.drainStep] at h
      split at h
      · cases h
        simp [dequeued, hh']
      · cases h
        simp [dequeued, hh']
    | quiet =>
      simp only [SingleWriter.drainStep] at h
      split at h
      · cases h
        simp [dequeued]
      · rename_i hlen
        cases h
        have hb : s.batch = [] := by
          cases hbb : s.batch with
          | nil => rfl
          | cons a l => rw [hbb] at hlen; simp at hlen
        simp [dequeued, hb]
  · have hs' : s.stopping = false := by simpa using hs
    simp only [hs', Bool.false_eq_true, if_false] at h
    cases e with
    | quiet => simp [SingleWriter.steadyStep] at h
    | stop =>
      simp only [SingleWriter.steadyStep] at h
      cases h
      simp [dequeued, hh']
    | recv req =>
      simp only [SingleWriter.steadyStep] at h
      split at h
      · cases h
        simp [dequeued, hh']
      · cases h
        simp [dequeued, hh']
    | timer =>
      simp only [SingleWriter.steadyStep] at h
      split at h
      · split at h
        · cases h
          simp [dequeued, hh']
        · rename_i hlen
          cases h
          simp [dequeued, hh']
      · cases h

/-- A run of `loop`: no request is dropped, duplicated or reordered. -/
theorem loopRun_dequeued (cfg : ingest.Config) :
    ∀ (evs : List LoopEvent) (s s' : LoopState) (deq : List request),
      SingleWriter.loopRun cfg s evs = some s' →
      (s.halted = false → s.flushed.flatten ++ s.batch = deq) →
      (s.halted = true → s.flushed.flatten = deq) →
      (s'.halted = false → s'.flushed.flatten ++ s'.batch = deq ++ dequeued evs) ∧
        (s'.halted = true → s'.flushed.flatten = deq ++ dequeued evs) := by
  intro evs
  induction evs with
  | nil =>
    intro s s' deq h h1 h2
    simp only [SingleWriter.loopRun, Option.some.injEq] at h
    subst h
    simp only [dequeued, List.append_nil]
    exact ⟨h1, h2⟩
  | cons e es ih =>
    intro s s' deq h h1 h2
    simp only [SingleWriter.loopRun] at h
    cases hstep : SingleWriter.loopStep cfg s e with
    | none => rw [hstep] at h; cases h
    | some s1 =>
      rw [hstep] at h
      obtain ⟨hh, k1, k2⟩ := loopStep_dequeued cfg s s1 e hstep
      have h0 := h1 hh
      rw [h0] at k1 k2
      have := ih s1 s' (deq ++ dequeued [e]) h k1 k2
      rw [dequeued_cons e es, ← List.append_assoc]
      exact this

theorem flushReplies_eq_foldl (result : Except GoError (Finset Str)) (batch : List request)
    (slots : Slots) :
    flushReplies result batch slots =
      (flushSends result batch).foldl (fun sl p => trySend sl p.1 p.2) slots := by
  induction batch generalizing slots with
  | nil => rfl
  | cons r rest ih => simp only [flushReplies, flushSends, List.foldl_cons, ih]

theorem flushSends_channels (result : Except GoError (Finset Str)) (batch : List request) :
    (flushSends result batch).map Prod.fst = batch.map request.resp := by
  induction batch with
  | nil => rfl
  | cons r rest ih => simp only [flushSends, List.map_cons, ih]

/-- The reply channels after the flushes of a run are the channels before them after the
sends of `sendsAll`, each a non-blocking send. -/
theorem flushAll_slots {σ : Type} (repo : batchRepo σ) (fl : List (List request)) :
    ∀ (st : σ) (slots : Slots),
      (SingleWriter.flushAll repo st slots fl).2 =
        (SingleWriter.sendsAll repo st fl).foldl (fun sl p => trySend sl p.1 p.2) slots := by
  induction fl with
  | nil => intro st slots; rfl
  | cons b rest ih =>
    intro st slots
    simp only [SingleWriter.flushAll, SingleWriter.sendsAll, List.foldl_append]
    rw [ih]
    simp only [SingleWriter.flush, flushReplies_eq_foldl]

theorem sendsAll_channels {σ : Type} (repo : batchRepo σ) (fl : List (List request)) :
    ∀ (st : σ),
      (SingleWriter.sendsAll repo st fl).map Prod.fst = fl.flatten.map request.resp := by
  induction fl with
  | nil => intro st; rfl
  | cons b rest ih =>
    intro st
    simp only [SingleWriter.sendsAll, List.map_append, flushSends_channels, ih,
      List.flatten_cons]

/-- The calls of `InsertBatch` made by the flushes of a run: one call for every flushed
batch, in order, with the events of that batch. -/
theorem flushAll_record {σ : Type} (repo : batchRepo σ) (fl : List (List request)) :
    ∀ (st : σ) (log : List (List Event × Except GoError (Finset Str))) (slots : Slots),
      (SingleWriter.flushAll (recordCalls repo) (st, log) slots fl).1.2.map Prod.fst =
        log.map Prod.fst ++ fl.map (List.map request.ev) := by
  induction fl with
  | nil => intro st log slots; simp [SingleWriter.flushAll]
  | cons b rest ih =>
    intro st log slots
    simp only [SingleWriter.flushAll]
    rw [flush_eq]
    simp only [recordCalls]
    rw [ih]
    simp

/-- Sends on distinct, empty channels all succeed: every channel ends up holding the value
that was offered to it. -/
theorem foldl_trySend_of_mem (sends : List (Nat × response)) :
    ∀ (slots : Slots), (sends.map Prod.fst).Nodup → (∀ p ∈ sends, slots p.1 = none) →
      ∀ p ∈ sends, sends.foldl (fun sl p => trySend sl p.1 p.2) slots p.1 = some p.2 := by
  have full : ∀ (l : List (Nat × response)) (slots : Slots) (c : Nat) (v : response),
      slots c = some v → l.foldl (fun sl p => trySend sl p.1 p.2) slots c = some v := by
    intro l
    induction l with
    | nil => intro slots c v h; exact h
    | cons a rest ih => intro slots c v h; exact ih _ c v (trySend_full _ v h)
  induction sends with
  | nil => intro slots _ _ p hp; cases hp
  | cons a rest ih =>
    intro slots hn he p hp
    rw [List.map_cons, List.nodup_cons] at hn
    rw [List.foldl_cons]
    rcases List.mem_cons.1 hp with h | h
    · subst h
      exact full _ _ _ _ (trySend_empty _ (he p (List.mem_cons_self _ _)))
    · apply ih _ hn.2 _ p h
      intro x hx
      have hne : x.1 ≠ a.1 := fun e => hn.1 (e ▸ List.mem_map_of_mem _ hx)
      rw [trySend_of_ne _ hne]
      exact he x (List.mem_cons_of_mem _ hx)

/-- Channels that no send names keep their content. -/
theorem foldl_trySend_of_not_mem (sends : List (Nat × response)) :
    ∀ (slots : Slots) (c : Nat), c ∉ sends.map Prod.fst →
      sends.foldl (fun sl p => trySend sl p.1 p.2) slots c = slots c := by
  induction sends with
  | nil => intro slots c _; rfl
  | cons a rest ih =>
    intro slots c h
    have h1 : c ≠ a.1 := fun e => h (by simp [e])
    have h2 : c ∉ rest.map Prod.fst := fun m => h (by simp at m ⊢; exact Or.inr m)
    rw [List.foldl_cons, ih _ c h2, trySend_of_ne _ h1]

/-! ## Claim C21: no drop and order preservation in the writer -/

/-- C21: in every state that the writer loop reaches from its initial state, whatever its
`select` statements choose and whatever the configuration: while the loop runs, the batches
passed to `flush` so far, concatenated, followed by the pending batch are the requests
received from the queue so far, in the order of the receives, and once the loop has returned
(the last flush is followed by `return`, nothing is pending) the flushed batches alone are.
Against any store, the flushes call `InsertBatch` once for every flushed batch with the
events of that batch, so the event sequences passed to `InsertBatch`, concatenated, followed
by the events of the pending batch are the events dequeued, in dequeue order.  When the loop
has returned and the reply channels of the dequeued requests are distinct (`Submit` makes a
new one for every request): every dequeued request occurs exactly once in the flushed
batches taken together, the sends offered by the flushes name the channels of the dequeued
requests in dequeue order, so every reply channel is offered exactly one response, and when
these channels were empty every one of them holds the response offered to it. -/
theorem C21_no_drop_and_order_preserved {σ : Type} (cfg : ingest.Config)
    (evs : List LoopEvent) (s : LoopState) (repo : batchRepo σ) (st : σ) (slots : Slots)
    (h : SingleWriter.loopRun cfg LoopState.init evs = some s) :
    (s.halted = false → s.flushed.flatten ++ s.batch = dequeued evs) ∧
      (s.halted = true → s.flushed.flatten = dequeued evs) ∧
      (SingleWriter.flushAll (recordCalls repo) (st, []) slots s.flushed).1.2.map Prod.fst =
        s.flushed.map (List.map request.ev) ∧
      (s.halted = false →
        ((SingleWriter.flushAll (recordCalls repo) (st, []) slots s.flushed).1.2.map
            Prod.fst).flatten ++ s.batch.map request.ev =
          (dequeued evs).map request.ev) ∧
      (s.halted = true →
        ((SingleWriter.flushAll (recordCalls repo) (st, []) slots s.flushed).1.2.map
            Prod.fst).flatten =
          (dequeued evs).map request.ev) ∧
      (SingleWriter.flushAll repo st slots s.flushed).2 =
        (SingleWriter.sendsAll repo st s.flushed).foldl (fun sl p => trySend sl p.1 p.2)
          slots ∧
      (s.halted = true →
        (SingleWriter.sendsAll repo st s.flushed).map Prod.fst =
          (dequeued evs).map request.resp) ∧
      (s.halted = true → ((dequeued evs).map request.resp).Nodup →
        ∀ r ∈ dequeued evs,
          (s.flushed.map (List.count r)).sum = 1 ∧
            ((SingleWriter.sendsAll repo st s.flushed).map Prod.fst).count r.resp = 1 ∧
            ((∀ q ∈ dequeued evs, slots q.resp = none) →
              ∃ out, (r.resp, out) ∈ SingleWriter.sendsAll repo st s.flushed ∧
                (SingleWriter.flushAll repo st slots s.flushed).2 r.resp = some out)) := by
  obtain ⟨k1, k2⟩ := loopRun_dequeued cfg evs LoopState.init s [] h (fun _ => rfl)
    (fun hh => by simp [LoopState.init] at hh)
  rw [List.nil_append] at k1 k2
  have hrec := flushAll_record repo s.flushed st [] slots
  rw [List.map_nil, List.nil_append] at hrec
  have hflat : (s.flushed.map (List.map request.ev)).flatten =
      s.flushed.flatten.map request.ev := by
    induction s.flushed with
    | nil => rfl
    | cons b rest ih => simp only [List.map_cons, List.flatten_cons, List.map_append, ih]
  have hch := sendsAll_channels repo s.flushed st
  refine ⟨k1, k2, hrec, ?_, ?_, flushAll_slots repo s.flushed st slots, ?_, ?_⟩
  · intro hh
    rw [hrec, hflat, ← List.map_append, k1 hh]
  · intro hh
    rw [hrec, hflat, k2 hh]
  · intro hh
    rw [hch, k2 hh]
  · intro hh hn r hr
    have hnd : (dequeued evs).Nodup := List.Nodup.of_map _ hn
    refine ⟨?_, ?_, ?_⟩
    · rw [← List.count_flatten, k2 hh]
      exact List.count_eq_one_of_mem hnd hr
    · rw [hch, k2 hh]
      exact List.count_eq_one_of_mem hn (List.mem_map_of_mem _ hr)
    · intro he
      have hmem : r.resp ∈ (SingleWriter.sendsAll repo st s.flushed).map Prod.fst := by
        rw [hch, k2 hh]
        exact List.mem_map_of_mem _ hr
      obtain ⟨p, hp, hpr⟩ := List.mem_map.1 hmem
      have hn' : ((SingleWriter.sendsAll repo st s.flushed).map Prod.fst).Nodup := by
        rw [hch, k2 hh]
        exact hn
      have he' : ∀ p ∈ SingleWriter.sendsAll repo st s.flushed, slots p.1 = none := by
        intro x hx
        have hx' : x.1 ∈ (dequeued evs).map request.resp := by
          rw [← k2 hh, ← hch]
          exact List.mem_map_of_mem _ hx
        obtain ⟨q, hq, hqx⟩ := List.mem_map.1 hx'
        rw [← hqx]
        exact he q hq
      refine ⟨p.2, ?_, ?_⟩
      · rw [← hpr]
        exact hp
      · rw [flushAll_slots, ← hpr]
        exact foldl_trySend_of_mem _ slots hn' he' p hp

/-- C21 on `fourRequestRun` against the store with unique keys, empty at first, and empty
reply channels: the loop returns after the flushes of requests 1 and 2, of 3, and of 4; the
flushed batches are the four requests in the order of the receives, `InsertBatch` got their
events in three calls, and the sends name the channels 1, 2, 3, 4. -/
theorem C21_no_drop_and_order_preserved_witness :
    SingleWriter.loopRun (NewSingleWriter { BatchWindow := 0, MaxBatch := 2, QueueSize := 0 }).cfg
        LoopState.init fourRequestRun = some fourRequestFinal ∧
      fourRequestFinal.flushed.flatten = dequeued fourRequestRun ∧
      (SingleWriter.flushAll (recordCalls uniqueKeyStore) (∅, []) (fun _ => none)
          fourRequestFinal.flushed).1.2.map Prod.fst =
        [[clickEvent, clickEvent], [clickEvent], [clickEvent]] ∧
      (SingleWriter.sendsAll uniqueKeyStore ∅ fourRequestFinal.flushed).map Prod.fst =
        [1, 2, 3, 4] ∧
      ∀ r ∈ dequeued fourRequestRun,
        (fourRequestFinal.flushed.map (List.count r)).sum = 1 ∧
          ((SingleWriter.sendsAll uniqueKeyStore ∅ fourRequestFinal.flushed).map
            Prod.fst).count r.resp = 1 ∧
          ((∀ q ∈ dequeued fourRequestRun, (fun _ => none : Slots) q.resp = none) →
            ∃ out, (r.resp, out) ∈ SingleWriter.sendsAll uniqueKeyStore ∅
                fourRequestFinal.flushed ∧
              (SingleWriter.flushAll uniqueKeyStore ∅ (fun _ => none)
                fourRequestFinal.flushed).2 r.resp = some out) :=
  have t := C21_no_drop_and_order_preserved
    (NewSingleWriter { BatchWindow := 0, MaxBatch := 2, QueueSize := 0 }).cfg fourRequestRun
    fourRequestFinal uniqueKeyStore ∅ (fun _ => none) (by decide)
  ⟨by decide, t.2.1 rfl, t.2.2.1, t.2.2.2.2.2.2.1 rfl, t.2.2.2.2.2.2.2 rfl (by decide)⟩

end EventIngest
